import Mathlib

/-! # TE-CCL schedule toolchain: Validator, Lowerer and Simulator

A shallow embedding of `checkAllGather.c` (the Validator), `convertTecclSchedule.c` (the
Lowerer) and `simulateAllSchedule.c` (the Simulator), followed by theorems about them.

Conventions.
* C `int` values are Lean `Int`.  Where the width of `int` decides the result (the values
  that `%d` and `strtol` read, the product `nodes` of the Lowerer, the products
  `data_per_host`, `total_ints` and the slot offsets of the Simulator) the value is reduced
  into `[-2 ^ 31, 2 ^ 31)` by `wrap_int`, as the two's-complement machine does; counters and
  indices that cannot exceed the size of the input are plain `Int`.  `unsigned long long`
  values are `Nat` reduced modulo `2 ^ 64`.
* C strings are `String`, read as `List Char`.
* A cJSON document is kept to the depth the programs look at: a section
  (`JSection`) has children (`JEntry`), which have children (`JLeaf`).
* Allocation failures (`malloc`, `realloc`, `calloc`) are not modelled; `calloc` of zero
  elements is taken to return a non-null pointer, as glibc does.
* `%d` and `(int) strtol (...)` convert a numeral as the C library of a 64-bit Linux does:
  to a `long`, clamped to `[-2 ^ 63, 2 ^ 63 - 1]`, then narrowed to `int` modulo `2 ^ 32`.
* A C `double` is a rational number (`ℚ`) with a 53-bit significand; a product or a sum of
  doubles is rounded to the nearest such number, ties to even (`double_round`).  Infinities,
  NaN and the limits of the exponent are not modelled.  A conversion of a `double` to an
  integer type that cannot hold its integer part is undefined in C and gives `none`.
* `MPI_Abort` ends the run: a function that reaches it returns `none`.  The message-passing
  runtime itself is not modelled; the Simulator is described by the records it builds and the
  requests it posts.  What the runtime may do to a worker's gather buffer is limited by
  `runtime_frame`: it writes only into the buffers of the receives the worker posted.
-/

namespace TeCCL

/-! ## C library: character classes, `strstr`, `strtol`, `sscanf` -/

/-- C `isspace` in the "C" locale. -/
def isspace (c : Char) : Bool :=
  c.toNat = 32 || (9 ≤ c.toNat && c.toNat ≤ 13)

/-- C `isdigit`. -/
def isdigit (c : Char) : Bool :=
  48 ≤ c.toNat && c.toNat ≤ 57

/-- Drop leading white space. -/
def skip_ws : List Char → List Char
  | [] => []
  | c :: cs => if isspace c then skip_ws cs else c :: cs

/-- Read a maximal run of decimal digits, accumulating its value. -/
def scan_digits (acc : Nat) : List Char → Nat × List Char
  | [] => (acc, [])
  | c :: cs => if isdigit c then scan_digits (acc * 10 + (c.toNat - 48)) cs else (acc, c :: cs)

/-- Split an optional sign off the front. -/
def scan_sign : List Char → Bool × List Char
  | [] => (false, [])
  | c :: cs => if c = '-' then (true, cs) else if c = '+' then (false, cs) else (false, c :: cs)

/-- The conversion of a wider integer to `int`: reduction modulo `2 ^ 32` into
`[-2 ^ 31, 2 ^ 31)`. -/
def wrap_int (x : Int) : Int := (x + 2147483648) % 4294967296 - 2147483648

/-- The `long` that `strtol` returns for a numeral with the sign `neg` and the digits of `n`:
the number itself, or `LONG_MIN`, `LONG_MAX` (64 bits) when it is out of range. -/
def strtol_value (neg : Bool) (n : Nat) : Int :=
  if neg then max (-(n : Int)) (-9223372036854775808) else min (n : Int) 9223372036854775807

/-- The conversion `%d` of `sscanf`, and `(int) strtol (p, &end, 10)`: white space, an
optional sign, at least one digit.  Gives the `int` stored and the rest of the input, or
`none` when no digit is there (for `strtol`: `end == p`).  The numeral is converted to a `long`
as by `strtol` and narrowed to `int`. -/
def scan_int (s : List Char) : Option (Int × List Char) :=
  match scan_sign (skip_ws s) with
  | (_, []) => none
  | (neg, c :: cs) =>
    if isdigit c then
      match scan_digits 0 (c :: cs) with
      | (n, rest) => some (wrap_int (strtol_value neg n), rest)
    else none

/-- A directive of a `scanf` format string. -/
inductive Directive where
  | ws : Directive
  | lit : Char → Directive
  | int : Directive
deriving DecidableEq, Repr

/-- Read a format string: `%d`, white space, or an ordinary character. -/
def parse_format : List Char → List Directive
  | [] => []
  | c :: cs =>
    match cs with
    | [] => [if isspace c then Directive.ws else Directive.lit c]
    | d :: ds =>
      if c = '%' ∧ d = 'd' then Directive.int :: parse_format ds
      else (if isspace c then Directive.ws else Directive.lit c) :: parse_format (d :: ds)

/-- Run the directives of a format over the input; the result lists the converted values, so
its length is the value `sscanf` returns (a matching failure, or the end of the input, stops
the scan). -/
def sscanf_run : List Directive → List Char → List Int
  | [], _ => []
  | Directive.ws :: ds, s => sscanf_run ds (skip_ws s)
  | Directive.lit c :: ds, s =>
    match s with
    | [] => []
    | x :: xs => if x = c then sscanf_run ds xs else []
  | Directive.int :: ds, s =>
    match scan_int s with
    | none => []
    | some (v, rest) => v :: sscanf_run ds rest

/-- The call `sscanf (s, fmt, ...)` for a format made of text, blanks and `%d`. -/
def sscanf (s : String) (fmt : String) : List Int :=
  sscanf_run (parse_format fmt.toList) s.toList

/-- Position of the first occurrence of `needle` in `hay` (C `strstr`), if any. -/
def strstr_pos (needle : List Char) : List Char → Option Nat
  | [] => if needle.isPrefixOf [] then some 0 else none
  | c :: cs =>
    if needle.isPrefixOf (c :: cs) then some 0
    else (strstr_pos needle cs).map (fun i => i + 1)

/-! ## cJSON documents -/

/-- The cJSON type tags the programs test. -/
inductive JType where
  | jString : JType
  | jArray : JType
  | jObject : JType
  | jOther : JType
deriving DecidableEq, Repr

/-- An element of a demand's array: a path-string when `type = jString`. -/
structure JLeaf where
  type : JType
  valuestring : String
deriving DecidableEq, Repr

/-- A child of a section: `name` is cJSON's `string` field (the member name, absent for an
array element), `child` its own children. -/
structure JEntry where
  name : Option String
  type : JType
  valuestring : String
  child : List JLeaf
deriving DecidableEq, Repr

/-- A top-level member of the schedule document ("7-Flows", "8-Chunk paths"). -/
structure JSection where
  type : JType
  child : List JEntry
deriving DecidableEq, Repr

/-- The schedule document: its two members, `none` when the member is absent. -/
structure ScheduleDoc where
  flows7 : Option JSection
  chunk_paths : Option JSection
deriving DecidableEq, Repr

/-- A string item. -/
def jstr (s : String) : JLeaf := { type := JType.jString, valuestring := s }

/-- An array member `"key": [ "s1", "s2", ... ]`. -/
def jdemand (key : String) (paths : List String) : JEntry :=
  { name := some key, type := JType.jArray, valuestring := "", child := paths.map jstr }

/-- A string element of an array. -/
def jline (s : String) : JEntry :=
  { name := none, type := JType.jString, valuestring := s, child := [] }

/-! ## Validator (`checkAllGather.c`) -/

/-- The C type `ChunkPath` (the switches are a list; `end_epoch` is filled in by the caller). -/
structure ChunkPath where
  start_epoch : Int
  src_host : Int
  dst_host : Int
  switches : List Int
  end_epoch : Int
deriving DecidableEq, Repr

/-- The C type `TransmissionEntry`. -/
structure TransmissionEntry where
  src : Int
  dst : Int
  chunk : Int
deriving DecidableEq, Repr

/-- The C function `int_array_append_unique`. -/
def int_array_append_unique (arr : List Int) (val : Int) : List Int :=
  if val ∈ arr then arr else arr ++ [val]

/-- The `while (1)` loop of `parse_path_string` reading the switch ids with
`int val = (int) strtol (p, &endptr, 10)`; the first argument bounds the number of
iterations. -/
def parse_switches : Nat → List Char → List Int
  | 0, _ => []
  | fuel + 1, p =>
    match scan_int p with
    | none => []
    | some (v, rest) =>
      if " -> ".toList.isPrefixOf rest then v :: parse_switches fuel (rest.drop 4) else [v]

/-- The C function `parse_path_string`: `none` is the return value 0. -/
def parse_path_string (str : String) : Option ChunkPath :=
  match strstr_pos " in epoch ".toList str.toList with
  | none => none
  | some pos =>
    let host_part := str.toList.take (min pos 49)
    match sscanf_run (parse_format "%d->%d".toList) host_part with
    | [src, dst] =>
      match sscanf_run (parse_format " in epoch %d".toList) (str.toList.drop pos) with
      | [e] =>
        match strstr_pos "via switches ".toList str.toList with
        | none => none
        | some v =>
          let p := str.toList.drop (v + 13)
          some { start_epoch := e, src_host := src, dst_host := dst,
                 switches := parse_switches (p.length + 1) p, end_epoch := 0 }
      | _ => none
    | _ => none

/-- The key test of `process_chunk_paths`:
`sscanf (key, "Demand at %d for chunk %d from %d met by epoch %d", ...) == 4`,
giving `(dst, chunk, src, end_epoch)`. -/
def parse_demand_key (key : String) : Option (Int × Int × Int × Int) :=
  match sscanf key "Demand at %d for chunk %d from %d met by epoch %d" with
  | [dst, chunk, src, end_epoch] => some (dst, chunk, src, end_epoch)
  | _ => none

/-- What `process_chunk_paths` fills in. -/
structure Collected where
  hosts : List Int
  switches : List Int
  transmissions : List TransmissionEntry
deriving DecidableEq, Repr

/-- The body of the inner loop of `process_chunk_paths` for one array item of a demand
`(dst, chunk, src, end_epoch)`. -/
def process_path_item (src dst chunk : Int) (st : Collected) (item : JLeaf) : Collected :=
  if item.type ≠ JType.jString then st
  else
    match parse_path_string item.valuestring with
    | none => st
    | some cp =>
      { hosts := int_array_append_unique (int_array_append_unique st.hosts cp.src_host) cp.dst_host,
        switches := cp.switches.foldl int_array_append_unique st.switches,
        transmissions := st.transmissions ++ [{ src := src, dst := dst, chunk := chunk }] }

/-- The body of the outer loop of `process_chunk_paths` for one entry. -/
def process_entry (st : Collected) (entry : JEntry) : Collected :=
  match entry.name with
  | none => st
  | some key =>
    match parse_demand_key key with
    | none => st
    | some (dst, chunk, src, _) => entry.child.foldl (process_path_item src dst chunk) st

/-- The C function `process_chunk_paths`, started on empty arrays as in `main`. -/
def process_chunk_paths (chunk_paths : JSection) : Collected :=
  chunk_paths.child.foldl process_entry { hosts := [], switches := [], transmissions := [] }

/-- The C function `find_host_index`: `none` is the return value -1. -/
def find_host_index : List Int → Int → Option Nat
  | [], _ => none
  | h :: hs, host => if h = host then some 0 else (find_host_index hs host).map (fun i => i + 1)

/-- The macro `IDX (src, dst, chunk)`. -/
def IDX (host_count total_chunks : Nat) (src dst chunk : Nat) : Nat :=
  src * host_count * total_chunks + dst * total_chunks + chunk

/-- One iteration of the loop of `main` that fills `chunk_matrix`. -/
def fill_step (hosts : List Int) (total_chunks : Nat) (m : List Int) (t : TransmissionEntry) :
    List Int :=
  match find_host_index hosts t.src, find_host_index hosts t.dst with
  | some src_idx, some dst_idx =>
    if t.chunk < 0 ∨ t.chunk ≥ (total_chunks : Int) then m
    else m.set (IDX hosts.length total_chunks src_idx dst_idx t.chunk.toNat) 1
  | _, _ => m

/-- The `chunk_matrix` of `main` after the fill loop (`calloc` gives zeros). -/
def chunk_matrix (hosts : List Int) (total_chunks : Nat) (ts : List TransmissionEntry) :
    List Int :=
  ts.foldl (fill_step hosts total_chunks)
    (List.replicate (hosts.length * hosts.length * total_chunks) 0)

/-- The triples `(src, dst, c)` of ranks and chunk at which the check loop of `main` finds
`chunk_matrix[IDX (src, dst, c)] == 0`, in the order the loop meets them. -/
def missing_triples (host_count total_chunks : Nat) (m : List Int) : List (Nat × Nat × Nat) :=
  (List.range host_count).flatMap fun src =>
    (List.range host_count).flatMap fun dst =>
      if src = dst then []
      else (List.range total_chunks).filterMap fun c =>
        if m.getD (IDX host_count total_chunks src dst c) 0 = 0 then some (src, dst, c) else none

/-- The text of `printf ("Missing chunk %d from src %d to dst %d\n", ...)`, without the
newline. -/
def missing_line (c : Int) (src_host dst_host : Int) : String :=
  "Missing chunk " ++ toString c ++ " from src " ++ toString src_host ++
    " to dst " ++ toString dst_host

/-- What the Validator reports. -/
structure Verdict where
  hosts : List Int
  switches : List Int
  missing : List String
  allgather : Bool
deriving DecidableEq, Repr

/-- The part of `main` after `process_chunk_paths`: fill `chunk_matrix`, scan it, print the
missing triples and the verdict. -/
def validator_report (total_chunks : Nat) (cp : JSection) : Verdict :=
  let st := process_chunk_paths cp
  let m := chunk_matrix st.hosts total_chunks st.transmissions
  let miss := missing_triples st.hosts.length total_chunks m
  { hosts := st.hosts, switches := st.switches,
    missing := miss.map fun t =>
      missing_line (t.2.2 : Nat) (st.hosts.getD t.1 0) (st.hosts.getD t.2.1 0),
    allgather := miss.isEmpty }

/-- The C function `main` of the Validator from the point where `total_chunks` has been read
(the value `read_num_chunks_from_config` returns: -1 for an unreadable or non-positive
`num_chunks`) and
the schedule has been parsed.  `none` is `return 1`. -/
def validator_main (total_chunks : Int) (json : ScheduleDoc) : Option Verdict :=
  if total_chunks < 0 then none
  else
    match json.chunk_paths with
    | none => none
    | some cp => some (validator_report total_chunks.toNat cp)

/-! ### Views used by the proofs about the Validator -/

/-- Scenario S3: two hosts 0 and 1, only chunk 0 demanded in both directions. -/
def cp_S3 : JSection :=
  { type := JType.jObject, child := [
      jdemand "Demand at 1 for chunk 0 from 0 met by epoch 0" ["0->1 in epoch 0 via switches 7"],
      jdemand "Demand at 0 for chunk 0 from 1 met by epoch 0" ["1->0 in epoch 0 via switches 7"]] }

/-- The C type `Role`. -/
inductive Role where
  | ROLE_UNKNOWN : Role
  | ROLE_NODIP : Role
  | ROLE_FIRST : Role
  | ROLE_MID : Role
  | ROLE_LAST : Role
deriving DecidableEq, Repr

/-- The C type `FlowKey`.  The local type `Step` of `annotate_8_chunk_paths` has the same three
fields
(`s`, `d`, `e`) and is represented by `FlowKey` too. -/
structure FlowKey where
  src : Int
  dst : Int
  epoch : Int
deriving DecidableEq, Repr

/-- The C type `FlowInfo`; the two flags are `int`s used as booleans. -/
structure FlowInfo where
  key : FlowKey
  count : Int
  role : Role
  has_pred : Bool
  pred : FlowKey
  has_succ : Bool
  size_bytes : Nat
  id : Int
deriving DecidableEq, Repr

/-- The C type `FlowVec`: the elements `data[0 .. size)`. -/
abbrev FlowVec := List FlowInfo

/-- The C function `key_eq`. -/
def key_eq (a b : FlowKey) : Bool :=
  decide (a.src = b.src) && decide (a.dst = b.dst) && decide (a.epoch = b.epoch)

/-- The C function `vec_add`: a fresh element is appended. -/
def vec_add (v : FlowVec) (k : FlowKey) : FlowVec :=
  v ++ [{ key := k, count := 0, role := Role.ROLE_UNKNOWN, has_pred := false,
          pred := { src := 0, dst := 0, epoch := 0 }, has_succ := false,
          size_bytes := 0, id := 0 }]

/-- The C function `vec_find` (and `find_by_key_linear`, which has the same body): the first
element with
the key, `none` for `NULL`. -/
def vec_find : FlowVec → FlowKey → Option FlowInfo
  | [], _ => none
  | x :: xs, k => if key_eq x.key k then some x else vec_find xs k

/-- A write through the pointer that `vec_find v k` returns: the first element with key `k`
is replaced by `f` of it; nothing changes when `vec_find` returns `NULL`. -/
def vec_update (v : FlowVec) (k : FlowKey) (f : FlowInfo → FlowInfo) : FlowVec :=
  match v with
  | [] => []
  | x :: xs => if key_eq x.key k then f x :: xs else x :: vec_update xs k f

/-- The loop `while (*q && !isdigit (*q) && *q != '-') q++` of `parse_edge_epoch`. -/
def skip_to_number : List Char → List Char
  | [] => []
  | c :: cs => if !isdigit c && decide (c ≠ '-') then skip_to_number cs else c :: cs

/-- The C function `parse_edge_epoch` on the characters from the pointer `s` on: `(src, dst,
epoch)`, or
`none` for a negative return code. -/
def parse_edge_epoch (s : List Char) : Option (Int × Int × Int) :=
  match strstr_pos " in epoch ".toList s with
  | none => none
  | some pos =>
    match sscanf_run (parse_format " %d->%d".toList) (s.take (min pos 255)) with
    | [src, dst] =>
      let p_epoch := s.drop pos
      match sscanf_run (parse_format " in epoch %d".toList) p_epoch with
      | [epoch] => some (src, dst, epoch)
      | _ =>
        match strstr_pos "epoch".toList p_epoch with
        | none => none
        | some q =>
          match sscanf_run (parse_format "%d".toList) (skip_to_number (p_epoch.drop (q + 5))) with
          | [epoch] => some (src, dst, epoch)
          | _ => none
    | _ => none

/-- The C function `parse_flow_line_7`. -/
def parse_flow_line_7 (s : List Char) : Option (Int × Int × Int) :=
  match strstr_pos "traveled over ".toList s with
  | none => none
  | some p => parse_edge_epoch (s.drop (p + 14))

/-- The body of the loop of `parse_7_flows_into_vec` for one array element. -/
def parse_7_flows_step (fv : FlowVec) (it : JEntry) : FlowVec :=
  if it.type ≠ JType.jString then fv
  else
    match parse_flow_line_7 it.valuestring.toList with
    | none => fv
    | some (s, d, e) =>
      let k : FlowKey := { src := s, dst := d, epoch := e }
      let fv1 := match vec_find fv k with
        | some _ => fv
        | none => vec_add fv k
      vec_update fv1 k fun fi => { fi with count := fi.count + 1 }

/-- The C function `parse_7_flows_into_vec`. -/
def parse_7_flows_into_vec (root : ScheduleDoc) (fv : FlowVec) : FlowVec :=
  match root.flows7 with
  | none => fv
  | some flows => if flows.type ≠ JType.jArray then fv else flows.child.foldl parse_7_flows_step fv

/-- The inner loop of `annotate_8_chunk_paths` that fills `steps[0 .. k)`; `steps` holds at
most 512 entries, one more parseable line ends the loop. -/
def collect_steps : List JLeaf → List FlowKey → List FlowKey
  | [], steps => steps
  | line :: rest, steps =>
    if line.type ≠ JType.jString then collect_steps rest steps
    else
      match parse_edge_epoch line.valuestring.toList with
      | none => collect_steps rest steps
      | some (s, d, e) =>
        if steps.length < 512 then collect_steps rest (steps ++ [{ src := s, dst := d, epoch := e }])
        else steps

/-- The write of the case `k == 1` through `fa`. -/
def write_single (fa : FlowInfo) : FlowInfo :=
  if fa.role = Role.ROLE_UNKNOWN then { fa with role := Role.ROLE_NODIP } else fa

/-- The writes of the block `Primo` through `fa`. -/
def write_first (fa0 : FlowInfo) : FlowInfo :=
  let fa := { fa0 with has_succ := true }
  if fa.role = Role.ROLE_UNKNOWN ∨ fa.role = Role.ROLE_NODIP then
    { fa with role := Role.ROLE_FIRST }
  else if fa.role ≠ Role.ROLE_FIRST then
    if ¬ fa.has_pred then { fa with role := Role.ROLE_FIRST } else fa
  else fa

/-- The writes of one iteration of the loop `Intermedi` through `fa`, `p` being the step
before. -/
def write_mid (p : FlowKey) (fa : FlowInfo) : FlowInfo :=
  { fa with has_pred := true, pred := p, has_succ := true, role := Role.ROLE_MID }

/-- The writes of the block `Ultimo` through `fa`, `p` being the step before. -/
def write_last (p : FlowKey) (fa0 : FlowInfo) : FlowInfo :=
  let fa := { fa0 with has_pred := true, pred := p }
  if ¬ fa.has_succ then { fa with role := Role.ROLE_LAST }
  else { fa with role := Role.ROLE_MID }

/-- The case `k == 1`: nothing is written when `vec_find` returns `NULL`. -/
def annotate_single (fv : FlowVec) (a : FlowKey) : FlowVec :=
  vec_update fv a write_single

/-- The block `Primo`. -/
def annotate_first (fv : FlowVec) (a : FlowKey) : FlowVec :=
  vec_update fv a write_first

/-- One iteration of the loop `Intermedi`: hop `a` with the hop `p` before it. -/
def annotate_mid (fv : FlowVec) (a p : FlowKey) : FlowVec :=
  vec_update fv a (write_mid p)

/-- The block `Ultimo`: hop `a` with the hop `p` before it. -/
def annotate_last (fv : FlowVec) (a p : FlowKey) : FlowVec :=
  vec_update fv a (write_last p)

/-- The loop `Intermedi` followed by the block `Ultimo`, over the steps after the first one;
`p` is the step before the head of the list. -/
def annotate_rest : FlowVec → FlowKey → List FlowKey → FlowVec
  | fv, _, [] => fv
  | fv, p, [a] => annotate_last fv a p
  | fv, p, a :: b :: rest => annotate_rest (annotate_mid fv a p) a (b :: rest)

/-- What `annotate_8_chunk_paths` does with the collected steps of one demand. -/
def annotate_steps (fv : FlowVec) : List FlowKey → FlowVec
  | [] => fv
  | [a] => annotate_single fv a
  | a :: b :: rest => annotate_rest (annotate_first fv a) a (b :: rest)

/-- The body of the outer loop of `annotate_8_chunk_paths` for one demand entry. -/
def annotate_demand (fv : FlowVec) (demand_entry : JEntry) : FlowVec :=
  if demand_entry.type ≠ JType.jArray then fv
  else annotate_steps fv (collect_steps demand_entry.child [])

/-- The C function `annotate_8_chunk_paths`. -/
def annotate_8_chunk_paths (root : ScheduleDoc) (fv : FlowVec) : FlowVec :=
  match root.chunk_paths with
  | none => fv
  | some cp => if cp.type ≠ JType.jObject then fv else cp.child.foldl annotate_demand fv

/-- The C function `cmp_flow`. -/
def cmp_flow (x y : FlowInfo) : Int :=
  if x.key.epoch ≠ y.key.epoch then (if x.key.epoch < y.key.epoch then -1 else 1)
  else if x.key.src ≠ y.key.src then (if x.key.src < y.key.src then -1 else 1)
  else if x.key.dst ≠ y.key.dst then (if x.key.dst < y.key.dst then -1 else 1)
  else 0

/-- The order `qsort` sorts by: `cmp_flow x y <= 0`. -/
def flow_le (x y : FlowInfo) : Prop := cmp_flow x y ≤ 0

instance : DecidableRel flow_le := fun x y => inferInstanceAs (Decidable (cmp_flow x y ≤ 0))

/-- The loop of `assign_ids_sorted`: element `i` gets id `i + 1`; `i` is the index of the
head of the list. -/
def assign_ids_from : Nat → FlowVec → FlowVec
  | _, [] => []
  | i, f :: fs => { f with id := ((i + 1 : Nat) : Int) } :: assign_ids_from (i + 1) fs

/-- The C function `assign_ids_sorted`.  `qsort` is taken to be a sort by `cmp_flow`; the
tables `main` builds
have pairwise different keys, `cmp_flow` is 0 only on equal keys, so every sorting algorithm
gives the same result on them. -/
def assign_ids_sorted (fv : FlowVec) : FlowVec :=
  assign_ids_from 0 (fv.insertionSort flow_le)

/-- Conversion of an `int` to `unsigned long long`. -/
def to_u64 (x : Int) : Nat := (x % (2 ^ 64 : Int)).toNat

/-- The loop of `main` that computes `size_bytes`. -/
def compute_sizes (num_chunks : Int) (bytes_per_chunk : Nat) (fv : FlowVec) : FlowVec :=
  fv.map fun f =>
    { f with size_bytes := (to_u64 f.count * to_u64 num_chunks * bytes_per_chunk) % 2 ^ 64 }

/-- One iteration of the loop of `main` that fills `succ_count`. -/
def succ_count_step (flows : FlowVec) (succ_count : List Int) (f : FlowInfo) : List Int :=
  if f.has_pred then
    match vec_find flows f.pred with
    | some p => succ_count.set (p.id - 1).toNat (succ_count.getD (p.id - 1).toNat 0 + 1)
    | none => succ_count
  else succ_count

/-- The array `succ_count` of `main` after its loop (`calloc` gives zeros). -/
def succ_count (flows : FlowVec) : List Int :=
  flows.foldl (succ_count_step flows) (List.replicate flows.length 0)

/-- The configuration values `main` reads.  `bytes_per_chunk` stands for the value of the
floating-point expression `(unsigned long long)(chunk_size_gb * 1e9 + 0.5)`. -/
structure TopoCfg where
  num_groups : Int
  leaf_routers : Int
  hosts_per_router : Int
  bytes_per_chunk : Nat
  num_chunks : Int
deriving DecidableEq, Repr

/-- A line of the `.cm` file, one constructor for each format string of `main`. -/
inductive CmLine where
  | nodes : Int → CmLine
  | connections : Int → CmLine
  | triggers : Int → CmLine
  | start (src dst id : Int) (size : Nat) : CmLine
  | start_fire (src dst id : Int) (size : Nat) (fire : Int) : CmLine
  | wait (src dst id pred : Int) (size : Nat) : CmLine
  | wait_fire (src dst id pred : Int) (size : Nat) (fire : Int) : CmLine
  | oneshot : Int → CmLine
deriving DecidableEq, Repr

/-- The text `fprintf` writes for a line, without the final newline. -/
def CmLine.text : CmLine → String
  | CmLine.nodes n => "Nodes " ++ toString n
  | CmLine.connections n => "Connections " ++ toString n
  | CmLine.triggers n => "Triggers " ++ toString n
  | CmLine.start src dst id size =>
    toString src ++ "->" ++ toString dst ++ " id " ++ toString id ++ " start 0 size " ++
      toString size
  | CmLine.start_fire src dst id size fire =>
    toString src ++ "->" ++ toString dst ++ " id " ++ toString id ++ " start 0 size " ++
      toString size ++ " send_done_trigger " ++ toString fire
  | CmLine.wait src dst id pred size =>
    toString src ++ "->" ++ toString dst ++ " id " ++ toString id ++ " trigger " ++
      toString pred ++ " size " ++ toString size
  | CmLine.wait_fire src dst id pred size fire =>
    toString src ++ "->" ++ toString dst ++ " id " ++ toString id ++ " trigger " ++
      toString pred ++ " size " ++ toString size ++ " send_done_trigger " ++ toString fire
  | CmLine.oneshot id => "trigger id " ++ toString id ++ " oneshot"

/-- The id of the predecessor as `main` resolves it for a flow: 0 when there is none or it
is not in the table. -/
def pred_id (flows : FlowVec) (f : FlowInfo) : Int :=
  if f.has_pred then
    match vec_find flows f.pred with
    | none => 0
    | some p => p.id
  else 0

/-- The body of the loop of `main` that writes the connection lines. -/
def conn_line (flows : FlowVec) (succ_count : List Int) (f : FlowInfo) : CmLine :=
  let myid := f.id
  let my_succs := succ_count.getD (myid - 1).toNat 0
  let pred_id := pred_id flows f
  if f.role = Role.ROLE_NODIP ∨ f.role = Role.ROLE_UNKNOWN then
    CmLine.start f.key.src f.key.dst myid f.size_bytes
  else if f.role = Role.ROLE_FIRST then
    if my_succs > 0 then CmLine.start_fire f.key.src f.key.dst myid f.size_bytes myid
    else CmLine.start f.key.src f.key.dst myid f.size_bytes
  else if f.role = Role.ROLE_MID then
    if pred_id = 0 then
      if my_succs > 0 then CmLine.start_fire f.key.src f.key.dst myid f.size_bytes myid
      else CmLine.start f.key.src f.key.dst myid f.size_bytes
    else
      if my_succs > 0 then CmLine.wait_fire f.key.src f.key.dst myid pred_id f.size_bytes myid
      else CmLine.wait f.key.src f.key.dst myid pred_id f.size_bytes
  else if f.role = Role.ROLE_LAST then
    if pred_id = 0 then CmLine.start f.key.src f.key.dst myid f.size_bytes
    else CmLine.wait f.key.src f.key.dst myid pred_id f.size_bytes
  else CmLine.start f.key.src f.key.dst myid f.size_bytes

/-- The flow table of `main` when the output is written: read from "7-Flows", annotated from
"8-Chunk paths", sorted and numbered, sizes computed. -/
def lowerer_flows (cfg : TopoCfg) (sroot : ScheduleDoc) : FlowVec :=
  compute_sizes cfg.num_chunks cfg.bytes_per_chunk
    (assign_ids_sorted (annotate_8_chunk_paths sroot (parse_7_flows_into_vec sroot [])))

/-- The value `triggers` of `main`. -/
def count_triggers (flows : FlowVec) (succ_count : List Int) : Nat :=
  (flows.filter fun f => decide (succ_count.getD (f.id - 1).toNat 0 > 0)).length

/-- The value `int nodes = num_groups * leaf_routers * hosts_per_router` of `main`: two
products of `int`. -/
def lowerer_nodes (cfg : TopoCfg) : Int :=
  wrap_int (wrap_int (cfg.num_groups * cfg.leaf_routers) * cfg.hosts_per_router)

/-- The lines `main` writes to the `.cm` file, from the point where both documents have
been read. -/
def lowerer_main (cfg : TopoCfg) (sroot : ScheduleDoc) : List CmLine :=
  let flows := lowerer_flows cfg sroot
  let sc := succ_count flows
  [CmLine.nodes (lowerer_nodes cfg),
   CmLine.connections (flows.length : Nat),
   CmLine.triggers (count_triggers flows sc : Nat)]
  ++ flows.map (conn_line flows sc)
  ++ (flows.filter fun f => decide (sc.getD (f.id - 1).toNat 0 > 0)).map
      fun f => CmLine.oneshot f.id

/-- The `.cm` file as text lines. -/
def lowerer_file (cfg : TopoCfg) (sroot : ScheduleDoc) : List String :=
  (lowerer_main cfg sroot).map CmLine.text

/-! ### Views used by the proofs about the Lowerer -/

/-- A write that leaves the key of the element alone. -/
def KeyPres (f : FlowInfo → FlowInfo) : Prop := ∀ x, (f x).key = x.key

/-- The state `vec_add` leaves an element in, as far as the annotation goes: no role, no
predecessor, no successor. -/
def Fresh (f : FlowInfo) : Prop :=
  f.role = Role.ROLE_UNKNOWN ∧ f.has_pred = false ∧ f.has_succ = false

/-- The hop a line of a demand's array stands for, if `annotate_8_chunk_paths` reads one
from it. -/
def line_hop (line : JLeaf) : Option FlowKey :=
  if line.type ≠ JType.jString then none
  else (parse_edge_epoch line.valuestring.toList).map
    fun r => { src := r.1, dst := r.2.1, epoch := r.2.2 }

/-- The chain of a demand as the document gives it: the hops of all its parseable
path-strings, in order. -/
def chain_hops (demand_entry : JEntry) : List FlowKey :=
  demand_entry.child.filterMap line_hop

/-- The hop is listed in "7-Flows": the section is an array with a string element whose
`traveled over` edge is this hop. -/
def listed_in_7_flows (root : ScheduleDoc) (k : FlowKey) : Prop :=
  ∃ flows, root.flows7 = some flows ∧ flows.type = JType.jArray ∧
    ∃ it ∈ flows.child, it.type = JType.jString ∧
      parse_flow_line_7 it.valuestring.toList = some (k.src, k.dst, k.epoch)

/-- Scenario S2, with the two hops listed in "7-Flows". -/
def demand_S2 : JEntry :=
  jdemand "Demand at 2 for chunk 0 from 0 met by epoch 1"
    ["0->1 in epoch 0 via switches 10", "1->2 in epoch 1 via switches 20"]

/-- The schedule document of scenario S2. -/
def doc_S2 : ScheduleDoc :=
  { flows7 := some { type := JType.jArray, child := [
      jline "Chunk 0 of host 0 traveled over 0->1 in epoch 0",
      jline "Chunk 0 of host 0 traveled over 1->2 in epoch 1"] },
    chunk_paths := some { type := JType.jObject, child := [demand_S2] } }

/-- The text of the path-string of hop number `i` of a long relay chain: host `i` to host
`i + 1` in epoch `i`. -/
def hop_text (i : Nat) : String :=
  toString i ++ "->" ++ toString (i + 1) ++ " in epoch " ++ toString i

/-- The hop that `hop_text i` stands for. -/
def hop_key (i : Nat) : FlowKey := { src := (i : Int), dst := ((i + 1 : Nat) : Int), epoch := (i : Int) }

/-- A demand whose chain has `n` hops. -/
def demand_long_chain (n : Nat) : JEntry :=
  jdemand "Demand at 513 for chunk 0 from 0 met by epoch 512" ((List.range n).map hop_text)

/-- A schedule with the single demand `demand_long_chain n`, all hops listed in "7-Flows". -/
def doc_long_chain (n : Nat) : ScheduleDoc :=
  { flows7 := some
      { type := JType.jArray,
        child := (List.range n).map fun i => jline ("traveled over " ++ hop_text i) },
    chunk_paths := some { type := JType.jObject, child := [demand_long_chain n] } }

/-- The index of `succ_count` that the loop increments for the flow `g`, if any. -/
def succ_target (flows : FlowVec) (g : FlowInfo) : Option Nat :=
  if g.has_pred then (vec_find flows g.pred).map fun p => (p.id - 1).toNat else none

/-- Some flow of the table has `f` as its recorded predecessor (`has_pred` set and `pred`
equal to the key of `f`). -/
def is_recorded_pred (flows : FlowVec) (f : FlowInfo) : Bool :=
  flows.any fun g => g.has_pred && key_eq g.pred f.key

/-- The hop occurs at a non-last position of the chain of some demand, that is, it has a
successor in some demand chain. -/
def occurs_non_last (root : ScheduleDoc) (k : FlowKey) : Bool :=
  match root.chunk_paths with
  | none => false
  | some cp => cp.child.any fun d => decide (d.type = JType.jArray) && (chain_hops d).dropLast.contains k

/-- The hop occurs at a non-first position of the chain of some demand, that is, it has a
predecessor in some demand chain. -/
def occurs_non_first (root : ScheduleDoc) (k : FlowKey) : Bool :=
  match root.chunk_paths with
  | none => false
  | some cp => cp.child.any fun d => decide (d.type = JType.jArray) && (chain_hops d).tail.contains k

/-- The line is a connection line. -/
def CmLine.is_conn : CmLine → Bool
  | CmLine.start _ _ _ _ => true
  | CmLine.start_fire _ _ _ _ _ => true
  | CmLine.wait _ _ _ _ _ => true
  | CmLine.wait_fire _ _ _ _ _ _ => true
  | _ => false

/-- The line carries `send_done_trigger i`. -/
def CmLine.fires (i : Int) : CmLine → Bool
  | CmLine.start_fire _ _ _ _ fire => decide (fire = i)
  | CmLine.wait_fire _ _ _ _ _ fire => decide (fire = i)
  | _ => false

/-- The line is a connection line that contains `trigger i`, the wait side. -/
def CmLine.waits_on (i : Int) : CmLine → Bool
  | CmLine.wait _ _ _ pred _ => decide (pred = i)
  | CmLine.wait_fire _ _ _ pred _ _ => decide (pred = i)
  | _ => false

/-- The connection line `src->dst id i start 0 size B` of the specification. -/
def start_form (src dst i : Int) (B : Nat) : String :=
  toString src ++ "->" ++ toString dst ++ " id " ++ toString i ++ " start 0 size " ++ toString B

/-- The connection line `src->dst id i trigger p size B` of the specification. -/
def trigger_form (src dst i p : Int) (B : Nat) : String :=
  toString src ++ "->" ++ toString dst ++ " id " ++ toString i ++ " trigger " ++ toString p ++
    " size " ++ toString B

/-- The suffix ` send_done_trigger i` of the specification. -/
def fire_suffix (i : Int) : String := " send_done_trigger " ++ toString i

/-- A configuration for the scenarios: three nodes, one chunk of 1000 bytes. -/
def cfg_demo : TopoCfg :=
  { num_groups := 1, leaf_routers := 1, hosts_per_router := 4, bytes_per_chunk := 1000,
    num_chunks := 1 }

/-- A configuration whose node count does not fit in an `int`: `65536 * 65536 * 1`. -/
def cfg_wide : TopoCfg :=
  { num_groups := 65536, leaf_routers := 65536, hosts_per_router := 1, bytes_per_chunk := 1000,
    num_chunks := 1 }

/-- Scenario S4: one demand with the chain 0 -> 1 -> 2 -> 3. -/
def doc_S4 : ScheduleDoc :=
  { flows7 := some { type := JType.jArray, child := [
      jline "Chunk 0 of host 0 traveled over 0->1 in epoch 0",
      jline "Chunk 0 of host 0 traveled over 1->2 in epoch 1",
      jline "Chunk 0 of host 0 traveled over 2->3 in epoch 2"] },
    chunk_paths := some { type := JType.jObject, child := [
      jdemand "Demand at 3 for chunk 0 from 0 met by epoch 2"
        ["0->1 in epoch 0 via switches 10", "1->2 in epoch 1 via switches 20",
         "2->3 in epoch 2 via switches 30"]] } }

/-- The three hops of the relay 0 -> 1 -> 2 -> 3 as "7-Flows" lines. -/
def flows7_relay : JSection :=
  { type := JType.jArray, child := [
      jline "Chunk 0 of host 0 traveled over 0->1 in epoch 0",
      jline "Chunk 0 of host 0 traveled over 1->2 in epoch 1",
      jline "Chunk 0 of host 1 traveled over 2->3 in epoch 2"] }

/-- Host 2 gets chunk 0 of host 0 over 0 -> 1 -> 2. -/
def demand_0_to_2 : JEntry :=
  jdemand "Demand at 2 for chunk 0 from 0 met by epoch 1"
    ["0->1 in epoch 0 via switches 10", "1->2 in epoch 1 via switches 20"]

/-- Host 3 gets chunk 0 of host 1 over 1 -> 2 -> 3, the hop 1 -> 2 being the one of
`demand_0_to_2`. -/
def demand_1_to_3 : JEntry :=
  jdemand "Demand at 3 for chunk 0 from 1 met by epoch 2"
    ["1->2 in epoch 1 via switches 20", "2->3 in epoch 2 via switches 30"]

/-- The hop 1 -> 2 (epoch 1) is the last hop of the first demand and the first hop of the
second demand. -/
def doc_last_then_first : ScheduleDoc :=
  { flows7 := some flows7_relay,
    chunk_paths := some { type := JType.jObject, child := [demand_0_to_2, demand_1_to_3] } }

/-- The same two demands as `doc_last_then_first`, listed in the other order. -/
def doc_first_then_last : ScheduleDoc :=
  { flows7 := some flows7_relay,
    chunk_paths := some { type := JType.jObject, child := [demand_1_to_3, demand_0_to_2] } }

/-- Hosts 0 and 1 both send to host 2 in epoch 0 and host 2 forwards to host 3 in epoch 1:
the hop 2 -> 3 follows 0 -> 2 in the first chain and 1 -> 2 in the second. -/
def doc_two_preds : ScheduleDoc :=
  { flows7 := some { type := JType.jArray, child := [
      jline "Chunk 0 of host 0 traveled over 0->2 in epoch 0",
      jline "Chunk 0 of host 1 traveled over 1->2 in epoch 0",
      jline "Chunk 0 of host 0 traveled over 2->3 in epoch 1",
      jline "Chunk 0 of host 1 traveled over 2->3 in epoch 1"] },
    chunk_paths := some { type := JType.jObject, child := [
      jdemand "Demand at 3 for chunk 0 from 0 met by epoch 1"
        ["0->2 in epoch 0 via switches 10", "2->3 in epoch 1 via switches 20"],
      jdemand "Demand at 3 for chunk 0 from 1 met by epoch 1"
        ["1->2 in epoch 0 via switches 10", "2->3 in epoch 1 via switches 20"]] } }

/-- The flow table of `main` before sorting: read from "7-Flows", annotated from
"8-Chunk paths". -/
def annotated_flows (sroot : ScheduleDoc) : FlowVec :=
  annotate_8_chunk_paths sroot (parse_7_flows_into_vec sroot [])

/-- The middle flow 1 -> 2 of scenario S4 as `main` has it when the file is written. -/
def flow_S4_mid : FlowInfo :=
  { key := { src := 1, dst := 2, epoch := 1 }, count := 1, role := Role.ROLE_MID,
    has_pred := true, pred := { src := 0, dst := 1, epoch := 0 }, has_succ := true,
    size_bytes := 1000, id := 2 }

/-! ### More views of the Lowerer: order, occurrence counts, scenarios -/

/-- Lexicographic order of `(epoch, src, dst)`, non-strict. -/
def key_le (a b : FlowKey) : Prop :=
  a.epoch < b.epoch ∨ (a.epoch = b.epoch ∧ (a.src < b.src ∨ (a.src = b.src ∧ a.dst ≤ b.dst)))

/-- A flow with its id field cleared: what sorting and numbering leave unchanged. -/
def clear_id (f : FlowInfo) : FlowInfo := { f with id := 0 }

/-- An element of "7-Flows" is a string whose `traveled over` edge is the hop `k`. -/
def is_flow_line_of (k : FlowKey) (it : JEntry) : Bool :=
  decide (it.type = JType.jString) &&
    decide (parse_flow_line_7 it.valuestring.toList = some (k.src, k.dst, k.epoch))

/-- The number of parseable "7-Flows" lines whose `traveled over` edge is the hop `k`
(0 when the section is absent or not an array). -/
def flow_line_count (root : ScheduleDoc) (k : FlowKey) : Nat :=
  match root.flows7 with
  | none => 0
  | some flows =>
    if flows.type ≠ JType.jArray then 0 else (flows.child.filter (is_flow_line_of k)).length

/-- The number of demands (array entries of the chunk-paths object) whose chain contains the
hop `k`. -/
def demands_containing (root : ScheduleDoc) (k : FlowKey) : Nat :=
  match root.chunk_paths with
  | none => 0
  | some cp =>
    (cp.child.filter fun d => decide (d.type = JType.jArray) && (chain_hops d).contains k).length

/-- All hops of all demand chains of the document, in order. -/
def all_chain_hops (root : ScheduleDoc) : List FlowKey :=
  match root.chunk_paths with
  | none => []
  | some cp => cp.child.flatMap fun d => if d.type = JType.jArray then chain_hops d else []

/-- The size field of a connection line. -/
def CmLine.size : CmLine → Option Nat
  | CmLine.start _ _ _ size => some size
  | CmLine.start_fire _ _ _ size _ => some size
  | CmLine.wait _ _ _ _ size => some size
  | CmLine.wait_fire _ _ _ _ size _ => some size
  | _ => none

/-- Scenario S1 as the specification gives it: two hosts, two single-hop demands 0 -> 1 and
1 -> 0 in epoch 0, no "7-Flows" section. -/
def doc_S1 : ScheduleDoc :=
  { flows7 := none,
    chunk_paths := some { type := JType.jObject, child := [
      jdemand "Demand at 1 for chunk 0 from 0 met by epoch 0" ["0->1 in epoch 0 via switches"],
      jdemand "Demand at 0 for chunk 0 from 1 met by epoch 0" ["1->0 in epoch 0 via switches"]] } }

/-- The configuration of scenario S1: two nodes, one chunk of 1000 bytes. -/
def cfg_S1 : TopoCfg :=
  { num_groups := 1, leaf_routers := 1, hosts_per_router := 2, bytes_per_chunk := 1000,
    num_chunks := 1 }

/-- The chain 0 -> 1 -> 2 -> 3 of scenario S4 with a "7-Flows" section that does not list the
first hop 0 -> 1. -/
def doc_missing_pred : ScheduleDoc :=
  { flows7 := some { type := JType.jArray, child := [
      jline "Chunk 0 of host 0 traveled over 1->2 in epoch 1",
      jline "Chunk 0 of host 0 traveled over 2->3 in epoch 2"] },
    chunk_paths := some { type := JType.jObject, child := [
      jdemand "Demand at 3 for chunk 0 from 0 met by epoch 2"
        ["0->1 in epoch 0 via switches 10", "1->2 in epoch 1 via switches 20",
         "2->3 in epoch 2 via switches 30"]] } }

/-- The flow 1 -> 2 of `doc_missing_pred` as `main` has it when the file is written. -/
def flow_missing_pred : FlowInfo :=
  { key := { src := 1, dst := 2, epoch := 1 }, count := 1, role := Role.ROLE_MID,
    has_pred := true, pred := { src := 0, dst := 1, epoch := 0 }, has_succ := true,
    size_bytes := 1000, id := 1 }

/-- The flow 2 -> 3 of `doc_two_preds` as `main` has it when the file is written: two
"7-Flows" lines, 2000 bytes. -/
def flow_two_preds_last : FlowInfo :=
  { key := { src := 2, dst := 3, epoch := 1 }, count := 2, role := Role.ROLE_LAST,
    has_pred := true, pred := { src := 1, dst := 2, epoch := 0 }, has_succ := false,
    size_bytes := 2000, id := 3 }

/-! ## Simulator (`simulateAllSchedule.c`)

The message-passing runtime is not part of the model: the embedding gives the records rank 0
builds, the requests each worker posts, the buffer layout and the final comparison. -/

/-- The C type `Msg`. -/
structure Msg where
  src : Int
  dst : Int
  epoch : Int
  seq : Int
  origin : Int
  chunk : Int
deriving DecidableEq, Repr

/-- The C function `parse_msg_string`: `(u, v, e)` when `sscanf` converts three values. -/
def parse_msg_string (s : String) : Option (Int × Int × Int) :=
  match sscanf s "%d->%d in epoch %d" with
  | [u, v, e] => some (u, v, e)
  | _ => none

/-- The C function `add_unique_host` on the table `host_ids[0 .. host_n)`. -/
def add_unique_host (host_ids : List Int) (h : Int) : List Int :=
  if h ∈ host_ids then host_ids else host_ids ++ [h]

/-- The C function `host_to_rank`: `none` when the host is not in the table
(`MPI_Abort`). -/
def host_to_rank : List Int → Int → Option Nat
  | [], _ => none
  | x :: xs, h => if x = h then some 0 else (host_to_rank xs h).map (fun i => i + 1)

/-- The inner loop of the first pass of `build_messages_rank0` over the array of one demand:
the hosts of every path-string are added; `none` is `MPI_Abort` on an invalid path. -/
def scan_hosts_items : List JLeaf → List Int → Option (List Int)
  | [], host_ids => some host_ids
  | s :: rest, host_ids =>
    if s.type ≠ JType.jString then scan_hosts_items rest host_ids
    else
      match parse_msg_string s.valuestring with
      | none => none
      | some (u, v, _) => scan_hosts_items rest (add_unique_host (add_unique_host host_ids u) v)

/-- The first pass of `build_messages_rank0` over the members of "8-Chunk paths"; `none` is
`MPI_Abort` on an invalid key or path. -/
def scan_hosts_entries : List JEntry → List Int → Option (List Int)
  | [], host_ids => some host_ids
  | ent :: rest, host_ids =>
    match ent.name with
    | none => scan_hosts_entries rest host_ids
    | some key =>
      match parse_demand_key key with
      | none => none
      | some (dst_h, _, src_h, _) =>
        match scan_hosts_items ent.child (add_unique_host (add_unique_host host_ids dst_h) src_h) with
        | none => none
        | some host_ids2 => scan_hosts_entries rest host_ids2

/-- The variables of the second pass of `build_messages_rank0`. -/
structure BuildState where
  per_rank : List (List Msg)
  seq_global : Int
  max_epoch : Int
deriving DecidableEq, Repr

/-- The append `per_rank[who][cnt[who]++] = m`. -/
def push_msg (per_rank : List (List Msg)) (who : Nat) (m : Msg) : List (List Msg) :=
  per_rank.set who (per_rank.getD who [] ++ [m])

/-- The inner loop of the second pass of `build_messages_rank0` over the array of one demand
with origin rank `origin_rank` and chunk `chunk`.  `none` stands for `MPI_Abort` in
`host_to_rank` and for a path that does not parse (excluded by the first pass). -/
def build_items (host_ids : List Int) (origin_rank : Nat) (chunk : Int) :
    List JLeaf → BuildState → Option BuildState
  | [], st => some st
  | s :: rest, st =>
    if s.type ≠ JType.jString then build_items host_ids origin_rank chunk rest st
    else
      match parse_msg_string s.valuestring with
      | none => none
      | some (u_h, v_h, e) =>
        match host_to_rank host_ids u_h, host_to_rank host_ids v_h with
        | some u, some v =>
          let m : Msg :=
            { src := (u : Int), dst := (v : Int), epoch := e, seq := st.seq_global,
              origin := (origin_rank : Int), chunk := chunk }
          let pr1 := push_msg st.per_rank u m
          let pr2 := if u = v then pr1 else push_msg pr1 v m
          build_items host_ids origin_rank chunk rest
            { per_rank := pr2, seq_global := st.seq_global + 1,
              max_epoch := if e > st.max_epoch then e else st.max_epoch }
        | _, _ => none

/-- The second pass of `build_messages_rank0` over the members of "8-Chunk paths".  A member
without a name does not occur in a cJSON object; the C code would pass `NULL` to `sscanf`
there, the model stops with `none`. -/
def build_entries (host_ids : List Int) : List JEntry → BuildState → Option BuildState
  | [], st => some st
  | ent :: rest, st =>
    match ent.name with
    | none => none
    | some key =>
      match parse_demand_key key with
      | none => none
      | some (_, chunk, src_h, _) =>
        match host_to_rank host_ids src_h with
        | none => none
        | some origin_rank =>
          match build_items host_ids origin_rank chunk ent.child st with
          | none => none
          | some st2 => build_entries host_ids rest st2

/-- The C function `cmp_msg`. -/
def cmp_msg (x y : Msg) : Int :=
  if x.epoch ≠ y.epoch then (if x.epoch < y.epoch then -1 else 1)
  else if x.seq ≠ y.seq then (if x.seq < y.seq then -1 else 1)
  else if x.src ≠ y.src then (if x.src < y.src then -1 else 1)
  else if x.dst ≠ y.dst then (if x.dst < y.dst then -1 else 1)
  else if x.origin ≠ y.origin then (if x.origin < y.origin then -1 else 1)
  else if x.chunk ≠ y.chunk then (if x.chunk < y.chunk then -1 else 1)
  else 0

/-- The order `qsort` sorts the records by: `cmp_msg x y <= 0`. -/
def msg_le (x y : Msg) : Prop := cmp_msg x y ≤ 0

instance : DecidableRel msg_le := fun x y => inferInstanceAs (Decidable (cmp_msg x y ≤ 0))

/-- The loop of `build_messages_rank0` that sorts every list with more than one record. -/
def sort_per_rank (per_rank : List (List Msg)) : List (List Msg) :=
  per_rank.map fun l => if l.length > 1 then l.insertionSort msg_le else l

/-- What `build_messages_rank0` leaves: the host table, the record list of every rank and
`max_epoch`. -/
structure Loaded where
  host_ids : List Int
  per_rank : List (List Msg)
  max_epoch : Int
deriving DecidableEq, Repr

/-- The C function `build_messages_rank0` from the parsed schedule on; `none` is
`MPI_Abort`. -/
def build_messages_rank0 (root : ScheduleDoc) (world_size : Int) : Option Loaded :=
  match root.chunk_paths with
  | none => none
  | some paths =>
    if paths.type ≠ JType.jObject then none
    else
      match scan_hosts_entries paths.child [] with
      | none => none
      | some host_ids =>
        if world_size ≠ (host_ids.length : Int) then none
        else
          match build_entries host_ids paths.child
              { per_rank := List.replicate world_size.toNat [], seq_global := 0,
                max_epoch := 0 } with
          | none => none
          | some st =>
            some { host_ids := host_ids, per_rank := sort_per_rank st.per_rank,
                   max_epoch := st.max_epoch }

/-- A request posted to the runtime: `MPI_Irecv (global_buf + offset, count, MPI_INT, source,
tag, ...)` or `MPI_Isend (global_buf + offset, count, MPI_INT, dest, tag, ...)`. -/
inductive Request where
  | irecv (offset count source tag : Int) : Request
  | isend (offset count dest tag : Int) : Request
deriving DecidableEq, Repr

/-- The pointer offset of a slot, `global_buf + m->origin * data_size_per_host
+ m->chunk * chunk_ints`: each product is computed in `int`, the two additions are pointer
arithmetic. -/
def slot_offset (origin chunk data_size_per_host chunk_ints : Int) : Int :=
  wrap_int (origin * data_size_per_host) + wrap_int (chunk * chunk_ints)

/-- The first loop of an epoch of `simulate_epochs`: `(n_recvs, n_sends)`. -/
def count_requests (my_rank ep : Int) : List Msg → Int × Int → Int × Int
  | [], n => n
  | m :: rest, n =>
    if m.epoch ≠ ep ∨ m.src = m.dst then count_requests my_rank ep rest n
    else
      count_requests my_rank ep rest
        (if my_rank = m.dst then n.1 + 1 else n.1, if my_rank = m.src then n.2 + 1 else n.2)

/-- The loop of `simulate_epochs` that posts the receives; `reqs` holds the requests posted
so far (`reqs[0 .. r)`). -/
def post_recvs (my_rank ep data_size_per_host chunk_ints : Int) :
    List Msg → List Request → List Request
  | [], reqs => reqs
  | m :: rest, reqs =>
    if m.epoch ≠ ep ∨ m.src = m.dst then
      post_recvs my_rank ep data_size_per_host chunk_ints rest reqs
    else if my_rank = m.dst then
      post_recvs my_rank ep data_size_per_host chunk_ints rest
        (reqs ++ [Request.irecv (slot_offset m.origin m.chunk data_size_per_host chunk_ints)
          chunk_ints m.src m.seq])
    else post_recvs my_rank ep data_size_per_host chunk_ints rest reqs

/-- The loop of `simulate_epochs` that posts the sends. -/
def post_sends (my_rank ep data_size_per_host chunk_ints : Int) :
    List Msg → List Request → List Request
  | [], reqs => reqs
  | m :: rest, reqs =>
    if m.epoch ≠ ep ∨ m.src = m.dst then
      post_sends my_rank ep data_size_per_host chunk_ints rest reqs
    else if my_rank = m.src then
      post_sends my_rank ep data_size_per_host chunk_ints rest
        (reqs ++ [Request.isend (slot_offset m.origin m.chunk data_size_per_host chunk_ints)
          chunk_ints m.dst m.seq])
    else post_sends my_rank ep data_size_per_host chunk_ints rest reqs

/-- The body of the epoch loop of `simulate_epochs` up to `MPI_Waitall`: the requests posted
in epoch `ep`, in posting order. -/
def simulate_epoch (my_rank : Int) (msgs : List Msg) (data_size_per_host chunk_ints ep : Int) :
    List Request :=
  let n := count_requests my_rank ep msgs (0, 0)
  let n_reqs := n.1 + n.2
  if n_reqs > 0 then
    post_sends my_rank ep data_size_per_host chunk_ints msgs
      (post_recvs my_rank ep data_size_per_host chunk_ints msgs [])
  else []

/-- The C function `simulate_epochs`: for `ep = 0 .. max_epoch` the requests posted in that
epoch. -/
def simulate_epochs (my_rank : Int) (msgs : List Msg)
    (data_size_per_host chunk_ints max_epoch : Int) : List (List Request) :=
  (List.range (max_epoch + 1).toNat).map fun (ep : Nat) =>
    simulate_epoch my_rank msgs data_size_per_host chunk_ints (ep : Int)

/-- The value `chunk_ints` of `main`: `cfg.chunk_size / sizeof (int)`. -/
def chunk_ints_of (chunk_size : Int) : Int := Int.tdiv chunk_size 4

/-- The value `int data_per_host = cfg.num_chunks * chunk_ints` of `main`. -/
def data_per_host_of (num_chunks chunk_ints : Int) : Int := wrap_int (num_chunks * chunk_ints)

/-- The value `int total_ints = data_per_host * world_size` of `main`. -/
def total_ints_of (data_per_host world_size : Int) : Int :=
  wrap_int (data_per_host * world_size)

/-- What a worker prints in the comparison of `main`. -/
inductive CompareReport where
  | ok : CompareReport
  | mismatch (global_i slice pos sim mpi : Int) : CompareReport
deriving DecidableEq, Repr

/-- The loop of `main` that looks for the first `i < total_ints` with
`sim_global[i] != mpi_buf[i]`; `none` is `mismatch_idx = -1`. -/
def first_mismatch (sim_global mpi_buf : List Int) (total_ints : Nat) : Option Nat :=
  (List.range total_ints).find? fun i => decide (sim_global.getD i 0 ≠ mpi_buf.getD i 0)

/-- The comparison block of `main` for one worker. -/
def compare_report (sim_global mpi_buf : List Int) (total_ints : Nat) (data_per_host : Int) :
    CompareReport :=
  match first_mismatch sim_global mpi_buf total_ints with
  | none => CompareReport.ok
  | some i =>
    CompareReport.mismatch (i : Int) (Int.tdiv (i : Int) data_per_host)
      (Int.tmod (i : Int) data_per_host) (sim_global.getD i 0) (mpi_buf.getD i 0)

/-- The value `local_ok` of `main`. -/
def local_ok (sim_global mpi_buf : List Int) (total_ints : Nat) : Int :=
  if (List.range total_ints).all fun i => decide (sim_global.getD i 0 = mpi_buf.getD i 0)
  then 1 else 0

/-- The value `all_ok` that `MPI_Allreduce` with `MPI_LAND` gives from the flags of all
workers: 1 when every flag is non-zero. -/
def all_ok (flags : List Int) : Int :=
  if flags.all fun x => decide (x ≠ 0) then 1 else 0

/-- The result line rank 0 prints, without the newline. -/
def result_line (all_ok : Int) : String :=
  if all_ok ≠ 0 then "[RESULT] Tutti i rank hanno sim_global == MPI_Allgather "
  else "[RESULT] Almeno un rank NON ha sim_global == MPI_Allgather "

/-- The path-strings of the members of "8-Chunk paths" in document order, each with the
member (demand) it stands in. -/
def path_strings : List JEntry → List (JEntry × String)
  | [] => []
  | ent :: rest =>
    ((ent.child.filter fun s => decide (s.type = JType.jString)).map fun s =>
      (ent, s.valuestring)) ++ path_strings rest

/-- The record of the hop of path-string `p` when it carries the number `seq`: ranks of the
two hosts of the path-string, its epoch, and the rank of the origin host and the chunk of the
demand `p.1`. -/
def hop_record (host_ids : List Int) (seq : Int) (p : JEntry × String) : Option Msg :=
  match p.1.name with
  | none => none
  | some key =>
    match parse_demand_key key with
    | none => none
    | some (_, chunk, src_h, _) =>
      match host_to_rank host_ids src_h, parse_msg_string p.2 with
      | some origin_rank, some (u_h, v_h, e) =>
        match host_to_rank host_ids u_h, host_to_rank host_ids v_h with
        | some u, some v =>
          some { src := (u : Int), dst := (v : Int), epoch := e, seq := seq,
                 origin := (origin_rank : Int), chunk := chunk }
        | _, _ => none
      | _, _ => none

/-- The hop records of a list of path-strings numbered `n, n + 1, ...`; `none` when one of
them has no record. -/
def records_from (host_ids : List Int) : Int → List (JEntry × String) → Option (List Msg)
  | _, [] => some []
  | n, p :: ps =>
    match hop_record host_ids n p, records_from host_ids (n + 1) ps with
    | some m, some ms => some (m :: ms)
    | _, _ => none

/-- The hop records of the document: its path-strings numbered `0, 1, 2, ...` in document
order. -/
def doc_records (host_ids : List Int) (paths : JSection) : Option (List Msg) :=
  records_from host_ids 0 (path_strings paths.child)

/-- Two demands that both carry chunk 0 of host 0 into host 1: host 2 is served through host
1, and host 1 has its own demand. -/
def doc_two_deliveries : ScheduleDoc :=
  { flows7 := none,
    chunk_paths := some
      { type := JType.jObject,
        child :=
          [jdemand "Demand at 2 for chunk 0 from 0 met by epoch 1"
             ["0->1 in epoch 0 via switches 10", "1->2 in epoch 1 via switches 20"],
           jdemand "Demand at 1 for chunk 0 from 0 met by epoch 0"
             ["0->1 in epoch 0 via switches 10"]] } }

/-- The "8-Chunk paths" member of `doc_two_deliveries`. -/
def cp_two_deliveries : JSection :=
  { type := JType.jObject,
    child :=
      [jdemand "Demand at 2 for chunk 0 from 0 met by epoch 1"
         ["0->1 in epoch 0 via switches 10", "1->2 in epoch 1 via switches 20"],
       jdemand "Demand at 1 for chunk 0 from 0 met by epoch 0"
         ["0->1 in epoch 0 via switches 10"]] }

/-- What `build_messages_rank0` leaves for `doc_two_deliveries` with three workers: host 2
is rank 0, host 0 is rank 1 and host 1 is rank 2. -/
def loaded_two_deliveries : Loaded :=
  { host_ids := [2, 0, 1],
    per_rank :=
      [[{ src := 2, dst := 0, epoch := 1, seq := 1, origin := 1, chunk := 0 }],
       [{ src := 1, dst := 2, epoch := 0, seq := 0, origin := 1, chunk := 0 },
        { src := 1, dst := 2, epoch := 0, seq := 2, origin := 1, chunk := 0 }],
       [{ src := 1, dst := 2, epoch := 0, seq := 0, origin := 1, chunk := 0 },
        { src := 1, dst := 2, epoch := 0, seq := 2, origin := 1, chunk := 0 },
        { src := 2, dst := 0, epoch := 1, seq := 1, origin := 1, chunk := 0 }]],
    max_epoch := 1 }

/-- A gathered buffer of two workers with two integers each. -/
def sim_demo : List Int := [1, 2, 3, 4]

/-- A reference buffer that differs from `sim_demo` at index 2. -/
def mpi_demo : List Int := [1, 2, 9, 4]

/-! ## Views and scenarios for the error paths, the host table and the record order -/

/-- The host table after `add_unique_host` has been called with the ids of `xs`, in this
order, on the empty table. -/
def host_table (xs : List Int) : List Int := xs.foldl add_unique_host []

/-- Lexicographic order of `(epoch, seq, src, dst, origin, chunk)`, non-strict. -/
def msg_lex_le (x y : Msg) : Prop :=
  x.epoch < y.epoch ∨ (x.epoch = y.epoch ∧ (x.seq < y.seq ∨ (x.seq = y.seq ∧
    (x.src < y.src ∨ (x.src = y.src ∧ (x.dst < y.dst ∨ (x.dst = y.dst ∧
      (x.origin < y.origin ∨ (x.origin = y.origin ∧ x.chunk ≤ y.chunk)))))))))

/-- Lexicographic order of `(epoch, seq)`, strict. -/
def epoch_seq_lt (x y : Msg) : Prop :=
  x.epoch < y.epoch ∨ (x.epoch = y.epoch ∧ x.seq < y.seq)

/-- The state in which the second pass of `build_messages_rank0` starts: `calloc` gives
`world_size` empty lists. -/
def build_init (world_size : Int) : BuildState :=
  { per_rank := List.replicate world_size.toNat [], seq_global := 0, max_epoch := 0 }

/-- A chunk-paths section whose first member has a key that is not a demand key. -/
def doc_bad_key : ScheduleDoc :=
  { flows7 := none,
    chunk_paths := some
      { type := JType.jObject,
        child :=
          [jdemand "Demand 1 chunk 0" ["0->1 in epoch 0 via switches 7"],
           jdemand "Demand at 1 for chunk 0 from 0 met by epoch 0"
             ["0->1 in epoch 0 via switches 7"]] } }

/-- A chunk-paths section whose only demand holds a string that is not a path-string, before
a good one. -/
def doc_bad_path : ScheduleDoc :=
  { flows7 := none,
    chunk_paths := some
      { type := JType.jObject,
        child :=
          [jdemand "Demand at 1 for chunk 0 from 0 met by epoch 0"
             ["hop 0 to 1", "0->1 in epoch 0 via switches 7"]] } }

/-- The document that is left when the bad member of `doc_bad_key`, or the bad string of
`doc_bad_path`, is taken away. -/
def doc_one_demand : ScheduleDoc :=
  { flows7 := none,
    chunk_paths := some
      { type := JType.jObject,
        child :=
          [jdemand "Demand at 1 for chunk 0 from 0 met by epoch 0"
             ["0->1 in epoch 0 via switches 7"]] } }

/-- What `build_messages_rank0` leaves for `doc_one_demand` with two workers: host 1 is rank
0 and host 0 is rank 1. -/
def loaded_one_demand : Loaded :=
  { host_ids := [1, 0],
    per_rank :=
      [[{ src := 1, dst := 0, epoch := 0, seq := 0, origin := 1, chunk := 0 }],
       [{ src := 1, dst := 0, epoch := 0, seq := 0, origin := 1, chunk := 0 }]],
    max_epoch := 0 }

/-- One demand for chunk 5, to be run with `num_chunks = 1`. -/
def doc_chunk_5 : ScheduleDoc :=
  { flows7 := none,
    chunk_paths := some
      { type := JType.jObject,
        child :=
          [jdemand "Demand at 1 for chunk 5 from 0 met by epoch 0"
             ["0->1 in epoch 0 via switches 7"]] } }

/-- What `build_messages_rank0` leaves for `doc_chunk_5` with two workers. -/
def loaded_chunk_5 : Loaded :=
  { host_ids := [1, 0],
    per_rank :=
      [[{ src := 1, dst := 0, epoch := 0, seq := 0, origin := 1, chunk := 5 }],
       [{ src := 1, dst := 0, epoch := 0, seq := 0, origin := 1, chunk := 5 }]],
    max_epoch := 0 }

/-- A schedule with a "7-Flows" section of one line and no "8-Chunk paths" section. -/
def doc_no_chunk_paths : ScheduleDoc :=
  { flows7 := some
      { type := JType.jArray,
        child := [jline "Chunk 0 of host 0 traveled over 0->1 in epoch 0"] },
    chunk_paths := none }

/-! ### Chunk size: the configuration values of the Lowerer and of the Simulator

A C `double` is a rational number; the product and the sum of two doubles are rounded to the
nearest `double` by `double_round`. -/

/-- The text `s1 -> s2 -> ... -> sk` of a switch list. -/
def switches_text : List Nat → List Char
  | [] => []
  | [s] => (Nat.repr s).toList
  | s :: t :: r => (Nat.repr s).toList ++ " -> ".toList ++ switches_text (t :: r)

/-- The text `a->b in epoch e` of a hop. -/
def hop_head (a b e : Nat) : List Char :=
  (Nat.repr a).toList ++ "->".toList ++ (Nat.repr b).toList ++ " in epoch ".toList ++
    (Nat.repr e).toList

/-- The path-string `a->b in epoch e via switches s1 -> s2 -> ... -> sk`; for the empty
switch list it ends with the blank after `switches`. -/
def path_text (a b e : Nat) (sw : List Nat) : String :=
  String.mk (hop_head a b e ++ " via switches ".toList ++ switches_text sw)

/-- The path-string `a->b in epoch e via switches` with nothing after the word `switches`,
as in scenario S1. -/
def path_text_bare (a b e : Nat) : String :=
  String.mk (hop_head a b e ++ " via switches".toList)

/-- The value of a digit string read from the left, starting from `acc`. -/
def digits_value (acc : Nat) (l : List Char) : Nat :=
  l.foldl (fun a c => a * 10 + (c.toNat - 48)) acc

/-- A member whose key is not a demand key. -/
def entry_bad_key : JEntry :=
  jdemand "Demand 1 chunk 0" ["0->1 in epoch 0 via switches 7"]

/-- A string item that is not a path-string. -/
def item_bad_path : JLeaf := jstr "hop 0 to 1"

/-- The demand of host 1 for chunk 0 of host 0, without its array. -/
def entry_demand_1_from_0 : JEntry :=
  jdemand "Demand at 1 for chunk 0 from 0 met by epoch 0" []

/-! ## Views for the role invariant, the predecessor writes, the order of the table and the
request counts -/

/-- The relation between the role of a flow and its two flags. -/
def role_flags_ok (f : FlowInfo) : Prop :=
  (f.role = Role.ROLE_FIRST → f.has_succ = true ∧ f.has_pred = false) ∧
  (f.role = Role.ROLE_MID → f.has_pred = true ∧ f.has_succ = true) ∧
  (f.role = Role.ROLE_LAST → f.has_pred = true) ∧
  (f.role = Role.ROLE_NODIP ∨ f.role = Role.ROLE_UNKNOWN →
    f.has_pred = false ∧ f.has_succ = false)

/-- The writes `fa->pred = p` that the loop `Intermedi` and the block `Ultimo` of
`annotate_8_chunk_paths` attempt for the collected steps of one demand: the pair
`(hop, step before it)` for every step after the first, in the order of the writes. -/
def pred_writes : List FlowKey → List (FlowKey × FlowKey)
  | [] => []
  | [_] => []
  | p :: a :: rest => (a, p) :: pred_writes (a :: rest)

/-- The predecessor writes of all demands of the document, in document order. -/
def doc_pred_writes (root : ScheduleDoc) : List (FlowKey × FlowKey) :=
  match root.chunk_paths with
  | none => []
  | some cp =>
    if cp.type ≠ JType.jObject then []
    else cp.child.flatMap fun d =>
      if d.type ≠ JType.jArray then [] else pred_writes (collect_steps d.child [])

/-- The predecessor of the last write for the hop `k`, if there is a write for it. -/
def last_pred_write (ws : List (FlowKey × FlowKey)) (k : FlowKey) : Option FlowKey :=
  ((ws.filter fun w => decide (w.1 = k)).getLast?).map Prod.snd

/-- The fields `has_pred` and `pred` after a list of predecessor writes, for the hop `k`. -/
def apply_pred_writes (x : Bool × FlowKey) (ws : List (FlowKey × FlowKey)) (k : FlowKey) :
    Bool × FlowKey :=
  ws.foldl (fun acc w => if w.1 = k then (true, w.2) else acc) x

/-- Lexicographic order of `(epoch, src, dst)`, strict. -/
def key_lt (a b : FlowKey) : Prop :=
  a.epoch < b.epoch ∨ (a.epoch = b.epoch ∧ (a.src < b.src ∨ (a.src = b.src ∧ a.dst < b.dst)))

instance : DecidableRel key_lt := fun a b =>
  inferInstanceAs (Decidable
    (a.epoch < b.epoch ∨ (a.epoch = b.epoch ∧ (a.src < b.src ∨ (a.src = b.src ∧ a.dst < b.dst)))))

/-- The schedule `doc_two_preds` with the lines of "7-Flows" in another order. -/
def doc_two_preds_shuffled : ScheduleDoc :=
  { flows7 := some { type := JType.jArray, child := [
      jline "Chunk 0 of host 1 traveled over 2->3 in epoch 1",
      jline "Chunk 0 of host 0 traveled over 2->3 in epoch 1",
      jline "Chunk 0 of host 1 traveled over 1->2 in epoch 0",
      jline "Chunk 0 of host 0 traveled over 0->2 in epoch 0"] },
    chunk_paths := doc_two_preds.chunk_paths }

/-- A demand whose chain is the hop 0 -> 1 (epoch 0) followed by the hop 512 -> 513
(epoch 512). -/
def demand_jump : JEntry :=
  jdemand "Demand at 513 for chunk 0 from 0 met by epoch 512" [hop_text 0, hop_text 512]

/-- The schedule `doc_long_chain 513` with the demand `demand_jump` in front of the long
chain: the hop 512 -> 513 follows 0 -> 1 in the first chain and 511 -> 512 in the second,
where it is the 513th hop. -/
def doc_jump_then_long : ScheduleDoc :=
  { flows7 := (doc_long_chain 513).flows7,
    chunk_paths := some
      { type := JType.jObject, child := [demand_jump, demand_long_chain 513] } }

/-! ## The gather buffer and the runtime -/

theorem wrap_int_of_range (x : Int) (h0 : -2147483648 ≤ x) (h1 : x < 2147483648) :
    wrap_int x = x := by
  unfold wrap_int
  omega

theorem wrap_int_of_lt (x : Int) (h0 : 0 ≤ x) (h1 : x < 2 ^ 31) : wrap_int x = x := by
  unfold wrap_int
  omega

theorem wrap_int_range (x : Int) : -2147483648 ≤ wrap_int x ∧ wrap_int x < 2147483648 := by
  unfold wrap_int
  omega

theorem wrap_int_mul_left (a b : Int) : wrap_int (wrap_int a * b) = wrap_int (a * b) := by
  have h : wrap_int a = a - 4294967296 * ((a + 2147483648) / 4294967296) := by
    unfold wrap_int
    omega
  rw [h]
  unfold wrap_int
  have e : (a - 4294967296 * ((a + 2147483648) / 4294967296)) * b + 2147483648 =
      (a * b + 2147483648) + 4294967296 * (-(((a + 2147483648) / 4294967296) * b)) := by ring
  rw [e, Int.add_mul_emod_self_left]

theorem strtol_value_of_lt (n : Nat) (h : n < 2 ^ 31) :
    wrap_int (strtol_value false n) = (n : Int) := by
  unfold strtol_value
  simp only [Bool.false_eq_true, if_false]
  rw [min_eq_left (by omega)]
  exact wrap_int_of_lt _ (by omega) (by exact_mod_cast h)


/-! ## Theorems: Validator -/

theorem mem_int_array_append_unique {arr : List Int} {v x : Int} :
    x ∈ int_array_append_unique arr v ↔ x ∈ arr ∨ x = v := by
  unfold int_array_append_unique
  split
  · rename_i hv
    constructor
    · intro h; exact Or.inl h
    · rintro (h | h)
      · exact h
      · subst h; exact hv
  · simp

theorem find_host_index_some {hosts : List Int} {h : Int} {i : Nat}
    (hf : find_host_index hosts h = some i) : i < hosts.length ∧ hosts.getD i 0 = h := by
  induction hosts generalizing i with
  | nil => simp [find_host_index] at hf
  | cons x xs ih =>
    unfold find_host_index at hf
    split at hf
    · rename_i hx
      cases hf
      simp [hx]
    · cases hr : find_host_index xs h with
      | none => simp [hr] at hf
      | some j =>
        simp [hr] at hf
        subst hf
        have := ih hr
        simp at this ⊢
        exact this

theorem find_host_index_of_mem {hosts : List Int} {h : Int} (hm : h ∈ hosts) :
    ∃ i, find_host_index hosts h = some i := by
  induction hosts with
  | nil => simp at hm
  | cons x xs ih =>
    unfold find_host_index
    by_cases hx : x = h
    · exact ⟨0, by simp [hx]⟩
    · have hm2 : h ∈ xs := by
        rcases List.mem_cons.1 hm with e | e
        · exact absurd e.symm hx
        · exact e
      obtain ⟨j, hj⟩ := ih hm2
      exact ⟨j + 1, by simp [hx, hj]⟩

theorem find_host_index_getD {hosts : List Int} (hn : hosts.Nodup) {i : Nat}
    (hi : i < hosts.length) : find_host_index hosts (hosts.getD i 0) = some i := by
  induction hosts generalizing i with
  | nil => simp at hi
  | cons x xs ih =>
    rw [List.nodup_cons] at hn
    cases i with
    | zero => simp [find_host_index]
    | succ j =>
      have hj : j < xs.length := by simpa using hi
      have hne : x ≠ xs.getD j 0 := by
        intro e
        apply hn.1
        rw [e]
        simp [List.getD_eq_getElem?_getD, List.getElem?_eq_getElem hj]
      have h2 := ih hn.2 hj
      rw [List.getD_cons_succ]
      unfold find_host_index
      rw [if_neg hne, h2]
      rfl

theorem key_eq_iff (a b : FlowKey) : key_eq a b = true ↔ a = b := by
  cases a; cases b
  simp [key_eq]
  tauto

theorem key_eq_self (a : FlowKey) : key_eq a a = true := (key_eq_iff a a).2 rfl

theorem vec_find_cons_pos {x : FlowInfo} {xs : FlowVec} {k : FlowKey} (h : x.key = k) :
    vec_find (x :: xs) k = some x := by
  unfold vec_find
  rw [if_pos ((key_eq_iff _ _).2 h)]

theorem vec_find_cons_neg {x : FlowInfo} {xs : FlowVec} {k : FlowKey} (h : x.key ≠ k) :
    vec_find (x :: xs) k = vec_find xs k := by
  conv => lhs; unfold vec_find
  rw [if_neg (fun e => h ((key_eq_iff _ _).1 e))]

theorem vec_update_cons_pos {x : FlowInfo} {xs : FlowVec} {k : FlowKey}
    (f : FlowInfo → FlowInfo) (h : x.key = k) :
    vec_update (x :: xs) k f = f x :: xs := by
  unfold vec_update
  rw [if_pos ((key_eq_iff _ _).2 h)]

theorem vec_update_cons_neg {x : FlowInfo} {xs : FlowVec} {k : FlowKey}
    (f : FlowInfo → FlowInfo) (h : x.key ≠ k) :
    vec_update (x :: xs) k f = x :: vec_update xs k f := by
  conv => lhs; unfold vec_update
  rw [if_neg (fun e => h ((key_eq_iff _ _).1 e))]

theorem vec_find_some_key {v : FlowVec} {k : FlowKey} {x : FlowInfo}
    (h : vec_find v k = some x) : x.key = k := by
  induction v with
  | nil => simp [vec_find] at h
  | cons y ys ih =>
    by_cases hk : y.key = k
    · rw [vec_find_cons_pos hk] at h
      cases h
      exact hk
    · rw [vec_find_cons_neg hk] at h
      exact ih h

theorem vec_find_some_mem {v : FlowVec} {k : FlowKey} {x : FlowInfo}
    (h : vec_find v k = some x) : x ∈ v := by
  induction v with
  | nil => simp [vec_find] at h
  | cons y ys ih =>
    by_cases hk : y.key = k
    · rw [vec_find_cons_pos hk] at h
      cases h
      exact List.mem_cons_self _ _
    · rw [vec_find_cons_neg hk] at h
      exact List.mem_cons_of_mem _ (ih h)

theorem vec_find_eq_none {v : FlowVec} {k : FlowKey} :
    vec_find v k = none ↔ k ∉ v.map FlowInfo.key := by
  induction v with
  | nil => simp [vec_find]
  | cons y ys ih =>
    by_cases hk : y.key = k
    · rw [vec_find_cons_pos hk]
      simp [hk]
    · rw [vec_find_cons_neg hk, ih]
      simp only [List.map_cons, List.mem_cons, not_or]
      constructor
      · intro h; exact ⟨fun e => hk e.symm, h⟩
      · intro h; exact h.2

theorem vec_find_isSome {v : FlowVec} {k : FlowKey} :
    (vec_find v k).isSome = true ↔ k ∈ v.map FlowInfo.key := by
  cases h : vec_find v k with
  | none => simpa using vec_find_eq_none.1 h
  | some x =>
    simp only [Option.isSome_some, true_iff]
    by_contra hc
    rw [vec_find_eq_none.2 hc] at h
    cases h

theorem vec_find_of_mem_nodup {v : FlowVec} (hn : (v.map FlowInfo.key).Nodup) {x : FlowInfo}
    (hx : x ∈ v) : vec_find v x.key = some x := by
  induction v with
  | nil => simp at hx
  | cons y ys ih =>
    rw [List.map_cons, List.nodup_cons] at hn
    rcases List.mem_cons.1 hx with e | e
    · subst e
      exact vec_find_cons_pos rfl
    · have hne : y.key ≠ x.key := by
        intro hk
        apply hn.1
        rw [hk]
        exact List.mem_map_of_mem _ e
      rw [vec_find_cons_neg hne]
      exact ih hn.2 e

theorem vec_update_length (v : FlowVec) (k : FlowKey) (f : FlowInfo → FlowInfo) :
    (vec_update v k f).length = v.length := by
  induction v with
  | nil => rfl
  | cons y ys ih =>
    by_cases hk : y.key = k
    · rw [vec_update_cons_pos f hk]; rfl
    · rw [vec_update_cons_neg f hk, List.length_cons, List.length_cons, ih]

theorem vec_update_keys {f : FlowInfo → FlowInfo} (hf : KeyPres f) (v : FlowVec) (k : FlowKey) :
    (vec_update v k f).map FlowInfo.key = v.map FlowInfo.key := by
  induction v with
  | nil => rfl
  | cons y ys ih =>
    by_cases hk : y.key = k
    · rw [vec_update_cons_pos f hk, List.map_cons, List.map_cons, hf y]
    · rw [vec_update_cons_neg f hk, List.map_cons, List.map_cons, ih]

theorem vec_find_update {f : FlowInfo → FlowInfo} (hf : KeyPres f) (v : FlowVec)
    (k k2 : FlowKey) :
    vec_find (vec_update v k f) k2 =
      if k2 = k then (vec_find v k).map f else vec_find v k2 := by
  induction v with
  | nil => simp [vec_update, vec_find]
  | cons y ys ih =>
    by_cases hk : y.key = k
    · rw [vec_update_cons_pos f hk, vec_find_cons_pos hk]
      by_cases h2 : k2 = k
      · rw [if_pos h2, vec_find_cons_pos (by rw [hf y, hk, h2])]
        rfl
      · rw [if_neg h2, vec_find_cons_neg (by rw [hf y, hk]; exact fun e => h2 e.symm),
          vec_find_cons_neg (by rw [hk]; exact fun e => h2 e.symm)]
    · rw [vec_update_cons_neg f hk, vec_find_cons_neg hk]
      by_cases h3 : y.key = k2
      · have h2 : ¬ k2 = k := fun e => hk (h3.trans e)
        rw [vec_find_cons_pos h3, vec_find_cons_pos h3, if_neg h2]
      · rw [vec_find_cons_neg h3, vec_find_cons_neg h3, ih]

theorem vec_update_forall {P : FlowInfo → Prop} {f : FlowInfo → FlowInfo}
    (hf : ∀ x, P x → P (f x)) (v : FlowVec) (k : FlowKey) (hv : ∀ x ∈ v, P x) :
    ∀ x ∈ vec_update v k f, P x := by
  induction v with
  | nil => simp [vec_update]
  | cons y ys ih =>
    by_cases hk : y.key = k
    · rw [vec_update_cons_pos f hk]
      intro x hx
      rcases List.mem_cons.1 hx with e | e
      · subst e; exact hf _ (hv _ (List.mem_cons_self _ _))
      · exact hv _ (List.mem_cons_of_mem _ e)
    · rw [vec_update_cons_neg f hk]
      intro x hx
      rcases List.mem_cons.1 hx with e | e
      · subst e; exact hv _ (List.mem_cons_self _ _)
      · exact ih (fun z hz => hv z (List.mem_cons_of_mem _ hz)) x e

/-! ### `parse_7_flows_into_vec` -/

theorem keypres_count : KeyPres fun fi => { fi with count := fi.count + 1 } := fun _ => rfl

theorem parse_7_flows_step_inv (fv : FlowVec) (it : JEntry)
    (h : (fv.map FlowInfo.key).Nodup ∧ ∀ x ∈ fv, Fresh x) :
    ((parse_7_flows_step fv it).map FlowInfo.key).Nodup ∧
      ∀ x ∈ parse_7_flows_step fv it, Fresh x := by
  unfold parse_7_flows_step
  split
  · exact h
  · split
    · exact h
    · rename_i s d e _
      simp only
      generalize hk : ({ src := s, dst := d, epoch := e } : FlowKey) = k
      have hstep : ∀ fv1 : FlowVec, ((fv1.map FlowInfo.key).Nodup ∧ ∀ x ∈ fv1, Fresh x) →
          (((vec_update fv1 k fun fi => { fi with count := fi.count + 1 }).map
              FlowInfo.key).Nodup ∧
            ∀ x ∈ vec_update fv1 k fun fi => { fi with count := fi.count + 1 }, Fresh x) := by
        intro fv1 h1
        refine ⟨by rw [vec_update_keys keypres_count]; exact h1.1, ?_⟩
        exact vec_update_forall (f := fun fi => { fi with count := fi.count + 1 })
          (fun x hx => hx) fv1 k h1.2
      apply hstep
      cases hfind : vec_find fv k with
      | some _ => exact h
      | none =>
        simp only
        have hnot := vec_find_eq_none.1 hfind
        unfold vec_add
        constructor
        · rw [List.map_append, List.nodup_append]
          refine ⟨h.1, by simp, ?_⟩
          intro x hx hx2
          simp at hx2
          subst hx2
          exact hnot hx
        · intro x hx
          rcases List.mem_append.1 hx with e | e
          · exact h.2 x e
          · simp at e
            subst e
            exact ⟨rfl, rfl, rfl⟩

theorem parse_7_flows_inv (root : ScheduleDoc) :
    ((parse_7_flows_into_vec root []).map FlowInfo.key).Nodup ∧
      ∀ x ∈ parse_7_flows_into_vec root [], Fresh x := by
  have hfold : ∀ (es : List JEntry) (fv : FlowVec),
      ((fv.map FlowInfo.key).Nodup ∧ ∀ x ∈ fv, Fresh x) →
      (((es.foldl parse_7_flows_step fv).map FlowInfo.key).Nodup ∧
        ∀ x ∈ es.foldl parse_7_flows_step fv, Fresh x) := by
    intro es
    induction es with
    | nil => intro fv h; exact h
    | cons e es ih => intro fv h; exact ih _ (parse_7_flows_step_inv fv e h)
  have h0 : (([] : FlowVec).map FlowInfo.key).Nodup ∧ ∀ x ∈ ([] : FlowVec), Fresh x := by simp
  unfold parse_7_flows_into_vec
  split
  · exact h0
  · split
    · exact h0
    · exact hfold _ _ h0

theorem keypres_single : KeyPres write_single := by
  intro x; unfold write_single; split <;> rfl

theorem keypres_first : KeyPres write_first := by
  intro x; unfold write_first; simp only; split
  · rfl
  · split
    · split <;> rfl
    · rfl

theorem keypres_mid (p : FlowKey) : KeyPres (write_mid p) := fun _ => rfl

theorem keypres_last (p : FlowKey) : KeyPres (write_last p) := by
  intro x; unfold write_last; simp only; split <;> rfl

theorem write_single_fresh {f : FlowInfo} (h : Fresh f) :
    (write_single f).role = Role.ROLE_NODIP ∧ (write_single f).has_pred = false ∧
      (write_single f).has_succ = false := by
  obtain ⟨h1, h2, h3⟩ := h
  unfold write_single
  rw [if_pos h1]
  exact ⟨rfl, h2, h3⟩

theorem write_first_fresh {f : FlowInfo} (h : Fresh f) :
    (write_first f).role = Role.ROLE_FIRST ∧ (write_first f).has_succ = true ∧
      (write_first f).has_pred = false := by
  obtain ⟨h1, h2, h3⟩ := h
  unfold write_first
  simp only
  rw [if_pos (Or.inl h1)]
  exact ⟨rfl, rfl, h2⟩

theorem write_last_fresh (p : FlowKey) {f : FlowInfo} (h : Fresh f) :
    (write_last p f).role = Role.ROLE_LAST ∧ (write_last p f).has_pred = true ∧
      (write_last p f).pred = p ∧ (write_last p f).has_succ = false := by
  obtain ⟨h1, h2, h3⟩ := h
  unfold write_last
  simp only
  rw [if_pos (by simp [h3])]
  exact ⟨rfl, rfl, rfl, h3⟩

theorem annotate_rest_keys (rest : List FlowKey) :
    ∀ (fv : FlowVec) (p : FlowKey),
      (annotate_rest fv p rest).map FlowInfo.key = fv.map FlowInfo.key := by
  induction rest with
  | nil => intro fv p; rfl
  | cons a r ih =>
    intro fv p
    cases r with
    | nil => exact vec_update_keys (keypres_last p) fv a
    | cons b r2 =>
      show (annotate_rest (annotate_mid fv a p) a (b :: r2)).map FlowInfo.key = _
      rw [ih]
      exact vec_update_keys (keypres_mid p) fv a

theorem annotate_steps_keys (fv : FlowVec) (steps : List FlowKey) :
    (annotate_steps fv steps).map FlowInfo.key = fv.map FlowInfo.key := by
  match steps with
  | [] => rfl
  | [a] => exact vec_update_keys keypres_single fv a
  | a :: b :: rest =>
    show (annotate_rest (annotate_first fv a) a (b :: rest)).map FlowInfo.key = _
    rw [annotate_rest_keys]
    exact vec_update_keys keypres_first fv a

theorem annotate_demand_keys (fv : FlowVec) (e : JEntry) :
    (annotate_demand fv e).map FlowInfo.key = fv.map FlowInfo.key := by
  unfold annotate_demand
  split
  · rfl
  · exact annotate_steps_keys _ _

theorem annotate_8_chunk_paths_keys (root : ScheduleDoc) (fv : FlowVec) :
    (annotate_8_chunk_paths root fv).map FlowInfo.key = fv.map FlowInfo.key := by
  have hfold : ∀ (es : List JEntry) (fv : FlowVec),
      (es.foldl annotate_demand fv).map FlowInfo.key = fv.map FlowInfo.key := by
    intro es
    induction es with
    | nil => intro fv; rfl
    | cons e es ih => intro fv; rw [List.foldl_cons, ih, annotate_demand_keys]
  unfold annotate_8_chunk_paths
  split
  · rfl
  · split
    · rfl
    · exact hfold _ _

theorem annotate_rest_find_other (rest : List FlowKey) :
    ∀ (fv : FlowVec) (p k : FlowKey), k ∉ rest →
      vec_find (annotate_rest fv p rest) k = vec_find fv k := by
  induction rest with
  | nil => intro fv p k _; rfl
  | cons a r ih =>
    intro fv p k hk
    have hka : k ≠ a := fun e => hk (e ▸ List.mem_cons_self _ _)
    cases r with
    | nil =>
      show vec_find (vec_update fv a (write_last p)) k = _
      rw [vec_find_update (keypres_last p), if_neg hka]
    | cons b r2 =>
      show vec_find (annotate_rest (annotate_mid fv a p) a (b :: r2)) k = _
      rw [ih _ _ _ (fun h => hk (List.mem_cons_of_mem _ h))]
      show vec_find (vec_update fv a (write_mid p)) k = _
      rw [vec_find_update (keypres_mid p), if_neg hka]

theorem annotate_steps_find_other (fv : FlowVec) (steps : List FlowKey) (k : FlowKey)
    (hk : k ∉ steps) : vec_find (annotate_steps fv steps) k = vec_find fv k := by
  match steps with
  | [] => rfl
  | [a] =>
    have hka : k ≠ a := fun e => hk (e ▸ List.mem_cons_self _ _)
    show vec_find (vec_update fv a write_single) k = _
    rw [vec_find_update keypres_single, if_neg hka]
  | a :: b :: rest =>
    have hka : k ≠ a := fun e => hk (e ▸ List.mem_cons_self _ _)
    show vec_find (annotate_rest (annotate_first fv a) a (b :: rest)) k = _
    rw [annotate_rest_find_other _ _ _ _ (fun h => hk (List.mem_cons_of_mem _ h))]
    show vec_find (vec_update fv a write_first) k = _
    rw [vec_find_update keypres_first, if_neg hka]

/-- The loop over the steps after the first one, on a table where these steps are fresh and
pairwise different: the step at position `i` gets the step before it as predecessor; it
becomes LAST when it is the final one and MID otherwise. -/
theorem annotate_rest_spec (rest : List FlowKey) :
    ∀ (fv : FlowVec) (p : FlowKey), rest.Nodup →
      (∀ a ∈ rest, ∃ f, vec_find fv a = some f ∧ Fresh f) →
      ∀ (i : Nat) (a : FlowKey), rest[i]? = some a →
        ∃ f, vec_find (annotate_rest fv p rest) a = some f ∧
          f.has_pred = true ∧ some f.pred = (p :: rest)[i]? ∧
          (i + 1 = rest.length → f.role = Role.ROLE_LAST ∧ f.has_succ = false) ∧
          (i + 1 < rest.length → f.role = Role.ROLE_MID ∧ f.has_succ = true) := by
  induction rest with
  | nil => intro fv p _ _ i a h; simp at h
  | cons x r ih =>
    intro fv p hnd hfresh i a hia
    rw [List.nodup_cons] at hnd
    obtain ⟨f0, hf0, hfr⟩ := hfresh x (List.mem_cons_self _ _)
    cases r with
    | nil =>
      cases i with
      | zero =>
        simp only [List.getElem?_cons_zero, Option.some.injEq] at hia
        subst hia
        refine ⟨write_last p f0, ?_, ?_⟩
        · show vec_find (vec_update fv x (write_last p)) x = _
          rw [vec_find_update (keypres_last p), if_pos rfl, hf0]
          rfl
        · obtain ⟨h1, h2, h3, h4⟩ := write_last_fresh p hfr
          refine ⟨h2, by rw [h3]; rfl, fun _ => ⟨h1, h4⟩, fun h => ?_⟩
          simp at h
      | succ j => simp at hia
    | cons y r2 =>
      have hfresh2 : ∀ a ∈ y :: r2, ∃ f, vec_find (annotate_mid fv x p) a = some f ∧ Fresh f := by
        intro a ha
        have hax : a ≠ x := fun e => hnd.1 (e ▸ ha)
        obtain ⟨f, hf, hfr2⟩ := hfresh a (List.mem_cons_of_mem _ ha)
        refine ⟨f, ?_, hfr2⟩
        show vec_find (vec_update fv x (write_mid p)) a = _
        rw [vec_find_update (keypres_mid p), if_neg hax, hf]
      cases i with
      | zero =>
        simp only [List.getElem?_cons_zero, Option.some.injEq] at hia
        subst hia
        refine ⟨write_mid p f0, ?_, rfl, rfl, fun h => ?_, fun _ => ⟨rfl, rfl⟩⟩
        · show vec_find (annotate_rest (annotate_mid fv x p) x (y :: r2)) x = _
          rw [annotate_rest_find_other _ _ _ _ hnd.1]
          show vec_find (vec_update fv x (write_mid p)) x = _
          rw [vec_find_update (keypres_mid p), if_pos rfl, hf0]
          rfl
        · simp at h
      | succ j =>
        simp only [List.getElem?_cons_succ] at hia
        obtain ⟨f, h1, h2, h3, h4, h5⟩ := ih (annotate_mid fv x p) x hnd.2 hfresh2 j a hia
        refine ⟨f, h1, h2, ?_, fun h => h4 (by simpa using h), fun h => h5 (by simpa using h)⟩
        simpa using h3

theorem collect_steps_eq (items : List JLeaf) :
    ∀ steps : List FlowKey, steps.length ≤ 512 →
      collect_steps items steps = (steps ++ items.filterMap line_hop).take 512 := by
  induction items with
  | nil =>
    intro steps h
    simp [collect_steps, List.take_of_length_le h]
  | cons line rest ih =>
    intro steps h
    unfold collect_steps
    by_cases ht : line.type ≠ JType.jString
    · rw [if_pos ht, ih steps h]
      have : line_hop line = none := by unfold line_hop; rw [if_pos ht]
      rw [List.filterMap_cons, this]
    · rw [if_neg ht]
      cases hp : parse_edge_epoch line.valuestring.toList with
      | none =>
        have : line_hop line = none := by unfold line_hop; rw [if_neg ht, hp]; rfl
        simp only
        rw [ih steps h, List.filterMap_cons, this]
      | some r =>
        obtain ⟨s, d, e⟩ := r
        have : line_hop line = some { src := s, dst := d, epoch := e } := by
          unfold line_hop; rw [if_neg ht, hp]; rfl
        simp only
        rw [List.filterMap_cons, this]
        by_cases hl : steps.length < 512
        · rw [if_pos hl, ih _ (by simp; omega)]
          simp
        · rw [if_neg hl]
          have h512 : steps.length = 512 := by omega
          rw [List.take_append_of_le_length (by omega), List.take_of_length_le (by omega)]

theorem collect_steps_of_le (e : JEntry) (h : (chain_hops e).length ≤ 512) :
    collect_steps e.child [] = chain_hops e := by
  rw [collect_steps_eq _ _ (by simp)]
  simp only [List.nil_append]
  exact List.take_of_length_le h

theorem mem_parse_7_flows_step_keys (fv : FlowVec) (it : JEntry) (k : FlowKey) :
    k ∈ (parse_7_flows_step fv it).map FlowInfo.key ↔
      (k ∈ fv.map FlowInfo.key ∨ (it.type = JType.jString ∧
        parse_flow_line_7 it.valuestring.toList = some (k.src, k.dst, k.epoch))) := by
  unfold parse_7_flows_step
  by_cases ht : it.type ≠ JType.jString
  · rw [if_pos ht]
    constructor
    · exact Or.inl
    · rintro (h | h)
      · exact h
      · exact absurd h.1 ht
  · rw [if_neg ht]
    have ht2 : it.type = JType.jString := by simpa using ht
    cases hp : parse_flow_line_7 it.valuestring.toList with
    | none => simp
    | some r =>
      obtain ⟨s, d, e⟩ := r
      simp only
      rw [vec_update_keys keypres_count]
      have hkey : (some (s, d, e) = some (k.src, k.dst, k.epoch)) ↔
          k = { src := s, dst := d, epoch := e } := by
        cases k
        simp only [Option.some.injEq, Prod.mk.injEq, FlowKey.mk.injEq]
        constructor
        · rintro ⟨a, b, c⟩; exact ⟨a.symm, b.symm, c.symm⟩
        · rintro ⟨a, b, c⟩; exact ⟨a.symm, b.symm, c.symm⟩
      rw [hkey]
      cases hfind : vec_find fv { src := s, dst := d, epoch := e } with
      | some x =>
        simp only
        constructor
        · exact Or.inl
        · rintro (h | ⟨_, h⟩)
          · exact h
          · rw [h]
            exact vec_find_isSome.1 (by rw [hfind]; rfl)
      | none =>
        simp only [vec_add, List.map_append, List.map_cons, List.map_nil, List.mem_append,
          List.mem_singleton]
        constructor
        · rintro (h | h)
          · exact Or.inl h
          · exact Or.inr ⟨ht2, h⟩
        · rintro (h | ⟨_, h⟩)
          · exact Or.inl h
          · exact Or.inr h

theorem mem_parse_7_flows_keys (root : ScheduleDoc) (k : FlowKey) :
    k ∈ (parse_7_flows_into_vec root []).map FlowInfo.key ↔ listed_in_7_flows root k := by
  have hfold : ∀ (es : List JEntry) (fv : FlowVec),
      k ∈ (es.foldl parse_7_flows_step fv).map FlowInfo.key ↔
        (k ∈ fv.map FlowInfo.key ∨ ∃ it ∈ es, it.type = JType.jString ∧
          parse_flow_line_7 it.valuestring.toList = some (k.src, k.dst, k.epoch)) := by
    intro es
    induction es with
    | nil => intro fv; simp
    | cons e es ih =>
      intro fv
      rw [List.foldl_cons, ih, mem_parse_7_flows_step_keys]
      simp only [List.mem_cons, exists_eq_or_imp]
      tauto
  unfold parse_7_flows_into_vec listed_in_7_flows
  cases h7 : root.flows7 with
  | none => simp
  | some flows =>
    simp only [Option.some.injEq, exists_eq_left']
    by_cases ht : flows.type ≠ JType.jArray
    · rw [if_pos ht]
      simp
      intro h
      exact absurd h ht
    · rw [if_neg ht, hfold]
      have ht2 : flows.type = JType.jArray := by simpa using ht
      simp [ht2]

/-- The annotation of one chain whose steps are pairwise different and fresh in the table. -/
theorem annotate_steps_spec (fv : FlowVec) (steps : List FlowKey) (hnd : steps.Nodup)
    (hfresh : ∀ a ∈ steps, ∃ f, vec_find fv a = some f ∧ Fresh f) :
    ∀ (i : Nat) (a : FlowKey), steps[i]? = some a →
      ∃ f, vec_find (annotate_steps fv steps) a = some f ∧
        (steps.length = 1 →
          f.role = Role.ROLE_NODIP ∧ f.has_pred = false ∧ f.has_succ = false) ∧
        (1 < steps.length → i = 0 →
          f.role = Role.ROLE_FIRST ∧ f.has_succ = true ∧ f.has_pred = false) ∧
        (1 < steps.length → 0 < i → i + 1 < steps.length →
          f.role = Role.ROLE_MID ∧ f.has_pred = true ∧ some f.pred = steps[i - 1]? ∧
            f.has_succ = true) ∧
        (1 < steps.length → i + 1 = steps.length →
          f.role = Role.ROLE_LAST ∧ f.has_pred = true ∧ some f.pred = steps[i - 1]? ∧
            f.has_succ = false) := by
  intro i a hia
  match steps, hnd, hfresh, hia with
  | [], _, _, hia => simp at hia
  | [a0], _, hfresh, hia =>
    cases i with
    | zero =>
      simp only [List.getElem?_cons_zero, Option.some.injEq] at hia
      subst hia
      obtain ⟨f0, hf0, hfr⟩ := hfresh a0 (List.mem_cons_self _ _)
      refine ⟨write_single f0, ?_, fun _ => write_single_fresh hfr, fun h => ?_, fun h => ?_,
        fun h => ?_⟩
      · show vec_find (vec_update fv a0 write_single) a0 = _
        rw [vec_find_update keypres_single, if_pos rfl, hf0]
        rfl
      · simp at h
      · simp at h
      · simp at h
    | succ j => simp at hia
  | a0 :: b :: rest, hnd, hfresh, hia =>
    rw [List.nodup_cons] at hnd
    obtain ⟨f0, hf0, hfr⟩ := hfresh a0 (List.mem_cons_self _ _)
    cases i with
    | zero =>
      simp only [List.getElem?_cons_zero, Option.some.injEq] at hia
      subst hia
      refine ⟨write_first f0, ?_, fun h => ?_, fun _ _ => write_first_fresh hfr,
        fun _ h => ?_, fun _ h => ?_⟩
      · show vec_find (annotate_rest (annotate_first fv a0) a0 (b :: rest)) a0 = _
        rw [annotate_rest_find_other _ _ _ _ hnd.1]
        show vec_find (vec_update fv a0 write_first) a0 = _
        rw [vec_find_update keypres_first, if_pos rfl, hf0]
        rfl
      · simp at h
      · omega
      · simp at h
    | succ j =>
      simp only [List.getElem?_cons_succ] at hia
      have hfresh2 : ∀ a ∈ b :: rest,
          ∃ f, vec_find (annotate_first fv a0) a = some f ∧ Fresh f := by
        intro a ha
        have hax : a ≠ a0 := fun e => hnd.1 (e ▸ ha)
        obtain ⟨f, hf, hfr2⟩ := hfresh a (List.mem_cons_of_mem _ ha)
        refine ⟨f, ?_, hfr2⟩
        show vec_find (vec_update fv a0 write_first) a = _
        rw [vec_find_update keypres_first, if_neg hax, hf]
      obtain ⟨f, h1, h2, h3, h4, h5⟩ :=
        annotate_rest_spec (b :: rest) (annotate_first fv a0) a0 hnd.2 hfresh2 j a hia
      refine ⟨f, h1, fun h => ?_, fun _ h => ?_, fun _ _ h => ?_, fun _ h => ?_⟩
      · simp at h
      · omega
      · obtain ⟨r1, r2⟩ := h5 (by simpa using h)
        exact ⟨r1, h2, by simpa using h3, r2⟩
      · obtain ⟨r1, r2⟩ := h4 (by simpa using h)
        exact ⟨r1, h2, by simpa using h3, r2⟩

theorem annotate_single_demand_eq (root : ScheduleDoc) (demand : JEntry) (fv : FlowVec)
    (hcp : root.chunk_paths = some { type := JType.jObject, child := [demand] })
    (harr : demand.type = JType.jArray) :
    annotate_8_chunk_paths root fv = annotate_steps fv (collect_steps demand.child []) := by
  unfold annotate_8_chunk_paths
  rw [hcp]
  simp only [ne_eq, not_true_eq_false, if_false, List.foldl_cons, List.foldl_nil]
  unfold annotate_demand
  rw [if_neg (by simp [harr])]

theorem fresh_of_listed (root : ScheduleDoc) (a : FlowKey) (h : listed_in_7_flows root a) :
    ∃ f, vec_find (parse_7_flows_into_vec root []) a = some f ∧ Fresh f := by
  have hm := (mem_parse_7_flows_keys root a).2 h
  have hs := vec_find_isSome.2 hm
  cases hf : vec_find (parse_7_flows_into_vec root []) a with
  | none => rw [hf] at hs; cases hs
  | some f => exact ⟨f, rfl, (parse_7_flows_inv root).2 f (vec_find_some_mem hf)⟩

/-- C6 (amended): for a schedule whose chunk-paths section holds a single demand with a
chain of `k <= 512` pairwise-distinct hops, each listed in "7-Flows": if `k = 1` the hop is
NODIP with no predecessor and no successor; if `k > 1` the first hop is FIRST (`has_succ`
set, no predecessor), the last hop is LAST (predecessor = the hop before it, `has_succ`
unset) and every intermediate hop is MID (predecessor = the hop before it, `has_succ` set). -/
theorem annotate_single_demand_roles (root : ScheduleDoc) (demand : JEntry)
    (hcp : root.chunk_paths = some { type := JType.jObject, child := [demand] })
    (harr : demand.type = JType.jArray)
    (hlen : (chain_hops demand).length ≤ 512)
    (hnd : (chain_hops demand).Nodup)
    (hlisted : ∀ a ∈ chain_hops demand, listed_in_7_flows root a) :
    ∀ (i : Nat) (a : FlowKey), (chain_hops demand)[i]? = some a →
      ∃ f, vec_find (annotate_8_chunk_paths root (parse_7_flows_into_vec root [])) a = some f ∧
        ((chain_hops demand).length = 1 →
          f.role = Role.ROLE_NODIP ∧ f.has_pred = false ∧ f.has_succ = false) ∧
        (1 < (chain_hops demand).length → i = 0 →
          f.role = Role.ROLE_FIRST ∧ f.has_succ = true ∧ f.has_pred = false) ∧
        (1 < (chain_hops demand).length → 0 < i → i + 1 < (chain_hops demand).length →
          f.role = Role.ROLE_MID ∧ f.has_pred = true ∧
            some f.pred = (chain_hops demand)[i - 1]? ∧ f.has_succ = true) ∧
        (1 < (chain_hops demand).length → i + 1 = (chain_hops demand).length →
          f.role = Role.ROLE_LAST ∧ f.has_pred = true ∧
            some f.pred = (chain_hops demand)[i - 1]? ∧ f.has_succ = false) := by
  rw [annotate_single_demand_eq root demand _ hcp harr, collect_steps_of_le demand hlen]
  exact annotate_steps_spec _ _ hnd (fun a ha => fresh_of_listed root a (hlisted a ha))

theorem chain_hops_S2 :
    chain_hops demand_S2 =
      [{ src := 0, dst := 1, epoch := 0 }, { src := 1, dst := 2, epoch := 1 }] := by
  decide

theorem listed_S2 : ∀ a ∈ chain_hops demand_S2, listed_in_7_flows doc_S2 a := by
  intro a ha
  rw [chain_hops_S2] at ha
  simp only [List.mem_cons, List.mem_singleton, List.not_mem_nil, or_false] at ha
  rcases ha with rfl | rfl
  · exact ⟨_, rfl, rfl, _, List.mem_cons_self _ _, rfl, by decide⟩
  · exact ⟨_, rfl, rfl, _, List.mem_cons_of_mem _ (List.mem_cons_self _ _), rfl, by decide⟩

/-- Witness of `annotate_single_demand_roles` (scenario S2): the chain has the two hops
`(0,1,0)` and `(1,2,1)`; the theorem applied at both gives FIRST and LAST. -/
theorem annotate_single_demand_roles_witness :
    (doc_S2.chunk_paths = some { type := JType.jObject, child := [demand_S2] } ∧
      demand_S2.type = JType.jArray ∧ (chain_hops demand_S2).length ≤ 512 ∧
      (chain_hops demand_S2).Nodup ∧ (∀ a ∈ chain_hops demand_S2, listed_in_7_flows doc_S2 a) ∧
      (chain_hops demand_S2)[0]? = some { src := 0, dst := 1, epoch := 0 } ∧
      (chain_hops demand_S2)[1]? = some { src := 1, dst := 2, epoch := 1 }) ∧
    (∃ f, vec_find (annotate_8_chunk_paths doc_S2 (parse_7_flows_into_vec doc_S2 []))
        { src := 0, dst := 1, epoch := 0 } = some f ∧
      f.role = Role.ROLE_FIRST ∧ f.has_succ = true ∧ f.has_pred = false) ∧
    (∃ f, vec_find (annotate_8_chunk_paths doc_S2 (parse_7_flows_into_vec doc_S2 []))
        { src := 1, dst := 2, epoch := 1 } = some f ∧
      f.role = Role.ROLE_LAST ∧ f.has_pred = true ∧
      f.pred = { src := 0, dst := 1, epoch := 0 } ∧ f.has_succ = false) := by
  have h0 := annotate_single_demand_roles doc_S2 demand_S2 rfl rfl (by decide) (by decide)
    listed_S2 0 { src := 0, dst := 1, epoch := 0 } (by decide)
  have h1 := annotate_single_demand_roles doc_S2 demand_S2 rfl rfl (by decide) (by decide)
    listed_S2 1 { src := 1, dst := 2, epoch := 1 } (by decide)
  have hlen : (chain_hops demand_S2).length = 2 := by decide
  refine ⟨⟨rfl, rfl, by decide, by decide, listed_S2, by decide, by decide⟩, ?_, ?_⟩
  · obtain ⟨f, hf, _, h, _, _⟩ := h0
    exact ⟨f, hf, h (by omega) rfl⟩
  · obtain ⟨f, hf, _, _, _, h⟩ := h1
    obtain ⟨r1, r2, r3, r4⟩ := h (by omega) (by omega)
    refine ⟨f, hf, r1, r2, ?_, r4⟩
    rw [chain_hops_S2] at r3
    simpa using r3

theorem strstr_pos_append_left (needle rest : List Char) (hne : needle ≠ []) :
    strstr_pos needle (needle ++ rest) = some 0 := by
  have hp : needle.isPrefixOf (needle ++ rest) = true :=
    List.isPrefixOf_iff_prefix.2 (List.prefix_append _ _)
  cases h : needle ++ rest with
  | nil =>
    exfalso
    apply hne
    exact (List.append_eq_nil.1 h).1
  | cons c cs =>
    rw [h] at hp
    unfold strstr_pos
    rw [if_pos hp]

theorem parse_flow_line_7_traveled_over (t : String) :
    parse_flow_line_7 ("traveled over " ++ t).toList = parse_edge_epoch t.toList := by
  unfold parse_flow_line_7
  have h1 : ("traveled over " ++ t).toList = "traveled over ".toList ++ t.toList :=
    String.data_append _ _
  rw [h1, strstr_pos_append_left _ _ (by decide)]
  simp only
  congr 1

set_option maxRecDepth 1000000 in
theorem parse_hop_text :
    ∀ i, i < 513 → parse_edge_epoch (hop_text i).toList =
      some ((i : Int), ((i + 1 : Nat) : Int), (i : Int)) := by
  decide!

theorem line_hop_hop_text (i : Nat) (hi : i < 513) :
    line_hop (jstr (hop_text i)) = some (hop_key i) := by
  unfold line_hop jstr
  simp only [ne_eq, not_true_eq_false, if_false]
  rw [parse_hop_text i hi]
  rfl

theorem chain_hops_long_chain (n : Nat) (hn : n ≤ 513) :
    chain_hops (demand_long_chain n) = (List.range n).map hop_key := by
  have hgen : ∀ l : List Nat, (∀ i ∈ l, i < 513) →
      ((l.map hop_text).map jstr).filterMap line_hop = l.map hop_key := by
    intro l
    induction l with
    | nil => intro _; rfl
    | cons x xs ih =>
      intro h
      rw [List.map_cons, List.map_cons, List.filterMap_cons,
        line_hop_hop_text x (h x (List.mem_cons_self _ _)), List.map_cons,
        ih (fun i hi => h i (List.mem_cons_of_mem _ hi))]
  unfold chain_hops demand_long_chain jdemand
  exact hgen _ (fun i hi => by have := List.mem_range.1 hi; omega)

theorem hop_key_injective : Function.Injective hop_key := by
  intro i j h
  unfold hop_key at h
  simp only [FlowKey.mk.injEq] at h
  omega

theorem listed_long_chain (n i : Nat) (hn : n ≤ 513) (hi : i < n) :
    listed_in_7_flows (doc_long_chain n) (hop_key i) := by
  refine ⟨_, rfl, rfl, jline ("traveled over " ++ hop_text i), ?_, rfl, ?_⟩
  · exact List.mem_map.2 ⟨i, List.mem_range.2 hi, rfl⟩
  · show parse_flow_line_7 ("traveled over " ++ hop_text i).toList = _
    rw [parse_flow_line_7_traveled_over, parse_hop_text i (by omega)]
    rfl

/-- C6 (counterexample): a single demand whose chain has 513 pairwise-distinct hops, all
listed in "7-Flows".  `annotate_8_chunk_paths` keeps 512 steps, so the last hop of the chain
is never annotated: its role stays UNKNOWN, not LAST, and it has no predecessor. -/
theorem annotate_chain_of_513_hops :
    (doc_long_chain 513).chunk_paths =
        some { type := JType.jObject, child := [demand_long_chain 513] } ∧
      (demand_long_chain 513).type = JType.jArray ∧
      (chain_hops (demand_long_chain 513)).length = 513 ∧
      (chain_hops (demand_long_chain 513)).Nodup ∧
      (∀ a ∈ chain_hops (demand_long_chain 513), listed_in_7_flows (doc_long_chain 513) a) ∧
      (chain_hops (demand_long_chain 513))[512]? = some (hop_key 512) ∧
      ∃ f, vec_find (annotate_8_chunk_paths (doc_long_chain 513)
            (parse_7_flows_into_vec (doc_long_chain 513) [])) (hop_key 512) = some f ∧
        f.role = Role.ROLE_UNKNOWN ∧ f.role ≠ Role.ROLE_LAST ∧ f.has_pred = false := by
  have hch := chain_hops_long_chain 513 (le_refl _)
  refine ⟨rfl, rfl, ?_, ?_, ?_, ?_, ?_⟩
  · rw [hch]; simp
  · rw [hch]; exact (List.nodup_range 513).map hop_key_injective
  · intro a ha
    rw [hch] at ha
    obtain ⟨i, hi, rfl⟩ := List.mem_map.1 ha
    exact listed_long_chain 513 i (le_refl _) (List.mem_range.1 hi)
  · rw [hch]
    simp [List.getElem?_range]
  · obtain ⟨f, hf, hfr⟩ := fresh_of_listed (doc_long_chain 513) (hop_key 512)
      (listed_long_chain 513 512 (le_refl _) (by omega))
    refine ⟨f, ?_, hfr.1, by rw [hfr.1]; decide, hfr.2.1⟩
    rw [annotate_single_demand_eq _ (demand_long_chain 513) _ rfl rfl,
      collect_steps_eq _ _ (by simp), annotate_steps_find_other _ _ _ ?_, hf]
    show hop_key 512 ∉ List.take 512 ([] ++ chain_hops (demand_long_chain 513))
    rw [List.nil_append, hch, ← List.map_take, List.take_range]
    intro hm
    obtain ⟨j, hj, hjk⟩ := List.mem_map.1 hm
    have := hop_key_injective hjk
    have := List.mem_range.1 hj
    omega

/-! ### Sorting, ids, sizes -/

theorem assign_ids_from_getElem? (l : FlowVec) :
    ∀ (i j : Nat), (assign_ids_from i l)[j]? =
      (l[j]?).map fun f => { f with id := ((i + j + 1 : Nat) : Int) } := by
  induction l with
  | nil => intro i j; simp [assign_ids_from]
  | cons x xs ih =>
    intro i j
    unfold assign_ids_from
    cases j with
    | zero => simp
    | succ k =>
      simp only [List.getElem?_cons_succ]
      rw [ih]
      have : i + 1 + k + 1 = i + (k + 1) + 1 := by omega
      rw [this]

theorem assign_ids_from_keys (l : FlowVec) :
    ∀ i : Nat, (assign_ids_from i l).map FlowInfo.key = l.map FlowInfo.key := by
  induction l with
  | nil => intro i; rfl
  | cons x xs ih => intro i; unfold assign_ids_from; simp [ih]

theorem assign_ids_from_length (l : FlowVec) :
    ∀ i : Nat, (assign_ids_from i l).length = l.length := by
  induction l with
  | nil => intro i; rfl
  | cons x xs ih => intro i; unfold assign_ids_from; simp [ih]

theorem compute_sizes_keys (nc : Int) (b : Nat) (l : FlowVec) :
    (compute_sizes nc b l).map FlowInfo.key = l.map FlowInfo.key := by
  unfold compute_sizes
  rw [List.map_map]
  rfl

theorem lowerer_flows_length (cfg : TopoCfg) (sroot : ScheduleDoc) :
    (lowerer_flows cfg sroot).length = (parse_7_flows_into_vec sroot []).length := by
  unfold lowerer_flows compute_sizes assign_ids_sorted
  rw [List.length_map, assign_ids_from_length, List.length_insertionSort]
  have h := congrArg List.length
    (annotate_8_chunk_paths_keys sroot (parse_7_flows_into_vec sroot []))
  simpa using h

theorem lowerer_flows_keys_nodup (cfg : TopoCfg) (sroot : ScheduleDoc) :
    ((lowerer_flows cfg sroot).map FlowInfo.key).Nodup := by
  unfold lowerer_flows assign_ids_sorted
  rw [compute_sizes_keys, assign_ids_from_keys]
  have hperm := (List.perm_insertionSort flow_le
    (annotate_8_chunk_paths sroot (parse_7_flows_into_vec sroot []))).map FlowInfo.key
  rw [hperm.nodup_iff, annotate_8_chunk_paths_keys]
  exact (parse_7_flows_inv sroot).1

theorem lowerer_flows_id (cfg : TopoCfg) (sroot : ScheduleDoc) (j : Nat) (f : FlowInfo)
    (hf : (lowerer_flows cfg sroot)[j]? = some f) : f.id = ((j + 1 : Nat) : Int) := by
  unfold lowerer_flows compute_sizes assign_ids_sorted at hf
  rw [List.getElem?_map, assign_ids_from_getElem?] at hf
  cases hs : (List.insertionSort flow_le
      (annotate_8_chunk_paths sroot (parse_7_flows_into_vec sroot [])))[j]? with
  | none => rw [hs] at hf; cases hf
  | some g =>
    rw [hs] at hf
    simp only [Option.map_some', Option.some.injEq] at hf
    rw [← hf]
    simp

/-! ### `succ_count` -/

theorem succ_count_step_eq (flows : FlowVec) (sc : List Int) (g : FlowInfo) :
    succ_count_step flows sc g =
      match succ_target flows g with
      | some i => sc.set i (sc.getD i 0 + 1)
      | none => sc := by
  unfold succ_count_step succ_target
  split
  · cases vec_find flows g.pred <;> rfl
  · rfl

theorem foldl_succ_count (flows : FlowVec) (gs : List FlowInfo) (j : Nat) :
    ∀ sc : List Int, j < sc.length →
      (gs.foldl (succ_count_step flows) sc).getD j 0 =
        sc.getD j 0 + ((gs.filter fun g => decide (succ_target flows g = some j)).length : Int) := by
  induction gs with
  | nil => intro sc _; simp
  | cons g gs ih =>
    intro sc hj
    rw [List.foldl_cons, succ_count_step_eq]
    cases ht : succ_target flows g with
    | none =>
      simp only
      rw [ih sc hj, List.filter_cons]
      simp [ht]
    | some i =>
      simp only
      rw [ih _ (by simpa using hj), List.filter_cons]
      by_cases hij : i = j
      · subst hij
        simp [ht, List.getD_eq_getElem?_getD, List.getElem?_set, hj]
        ring
      · have : ¬ (some i = some j) := fun e => hij (Option.some.inj e)
        simp [ht, List.getD_eq_getElem?_getD, List.getElem?_set, hij]

theorem succ_count_getD (flows : FlowVec) (j : Nat) (hj : j < flows.length) :
    (succ_count flows).getD j 0 =
      ((flows.filter fun g => decide (succ_target flows g = some j)).length : Int) := by
  unfold succ_count
  rw [foldl_succ_count flows flows j _ (by simpa using hj)]
  simp [List.getD_eq_getElem?_getD, List.getElem?_replicate, hj]

/-- On a table with pairwise different keys whose element at position `j` has id `j + 1`, the
counter of a flow is positive exactly when some flow has it as recorded predecessor. -/
theorem succ_count_pos_iff (flows : FlowVec) (hn : (flows.map FlowInfo.key).Nodup)
    (hid : ∀ j f, flows[j]? = some f → f.id = ((j + 1 : Nat) : Int))
    (j : Nat) (f : FlowInfo) (hf : flows[j]? = some f) :
    (succ_count flows).getD (f.id - 1).toNat 0 > 0 ↔
      ∃ g ∈ flows, g.has_pred = true ∧ g.pred = f.key := by
  have hidx : (f.id - 1).toNat = j := by rw [hid j f hf]; omega
  have hj : j < flows.length := by
    by_contra hc
    rw [List.getElem?_eq_none (by omega)] at hf
    cases hf
  have hmem : f ∈ flows := List.mem_iff_getElem?.2 ⟨j, hf⟩
  rw [hidx, succ_count_getD flows j hj]
  have hpos : ∀ l : List FlowInfo, ((l.length : Int) > 0) ↔ ∃ g, g ∈ l := by
    intro l
    cases l with
    | nil => simp
    | cons a as => simp
  rw [hpos]
  constructor
  · rintro ⟨g, hg⟩
    obtain ⟨hg1, hg2⟩ := List.mem_filter.1 hg
    refine ⟨g, hg1, ?_⟩
    simp only [decide_eq_true_eq] at hg2
    unfold succ_target at hg2
    split at hg2
    · rename_i hp
      cases hfind : vec_find flows g.pred with
      | none => rw [hfind] at hg2; cases hg2
      | some p =>
        rw [hfind] at hg2
        simp only [Option.map_some', Option.some.injEq] at hg2
        have hpm := vec_find_some_mem hfind
        obtain ⟨j2, hj2⟩ := List.getElem?_of_mem hpm
        have hid2 := hid j2 p hj2
        have hjj : j2 = j := by rw [hid2] at hg2; omega
        subst hjj
        rw [hf] at hj2
        cases hj2
        exact ⟨hp, (vec_find_some_key hfind).symm⟩
    · cases hg2
  · rintro ⟨g, hg1, hp, hk⟩
    refine ⟨g, List.mem_filter.2 ⟨hg1, ?_⟩⟩
    simp only [decide_eq_true_eq]
    unfold succ_target
    rw [if_pos hp, hk, vec_find_of_mem_nodup hn hmem]
    simp only [Option.map_some', hidx]

theorem CmLine.text_ne_empty (l : CmLine) : l.text ≠ "" := by
  intro h
  have hlen := congrArg String.length h
  have e0 : "".length = 0 := rfl
  have e1 : "Nodes ".length = 6 := rfl
  have e2 : "Connections ".length = 12 := rfl
  have e3 : "Triggers ".length = 9 := rfl
  have e4 : "->".length = 2 := rfl
  have e5 : "trigger id ".length = 11 := rfl
  cases l <;> simp only [CmLine.text, String.length_append, e0, e1, e2, e3, e4, e5] at hlen <;>
    omega

theorem conn_line_is_conn (flows : FlowVec) (sc : List Int) (f : FlowInfo) :
    (conn_line flows sc f).is_conn = true := by
  unfold conn_line
  simp only
  repeat' split
  all_goals rfl

/-- C10 (amended): the Lowerer writes the three header lines `Nodes N`, `Connections C`,
`Triggers T`, then exactly `C` connection lines, then exactly `T` lines
`trigger id i oneshot`, and no empty line anywhere; `C` is the number of flows in the flow
table.  `N` is the `int` product of `num_groups`, `leaf_routers` and `hosts_per_router`: it
lies in `[-2^31, 2^31)`, and it is `num_groups * leaf_routers * hosts_per_router` when
`num_groups * leaf_routers` and the whole product fit in an `int`. -/
theorem lowerer_file_layout (cfg : TopoCfg) (sroot : ScheduleDoc) :
    ∃ conns trigs : List CmLine,
      lowerer_main cfg sroot =
        [CmLine.nodes (lowerer_nodes cfg),
         CmLine.connections (conns.length : Nat), CmLine.triggers (trigs.length : Nat)]
        ++ conns ++ trigs ∧
      lowerer_file cfg sroot =
        ["Nodes " ++ toString (lowerer_nodes cfg),
         "Connections " ++ toString ((conns.length : Nat) : Int),
         "Triggers " ++ toString ((trigs.length : Nat) : Int)]
        ++ conns.map CmLine.text ++ trigs.map CmLine.text ∧
      conns.length = (parse_7_flows_into_vec sroot []).length ∧
      (∀ l ∈ conns, l.is_conn = true) ∧
      (∀ l ∈ trigs, ∃ i : Int, l = CmLine.oneshot i ∧
        l.text = "trigger id " ++ toString i ++ " oneshot") ∧
      (∀ s ∈ lowerer_file cfg sroot, s ≠ "") ∧
      (-2147483648 ≤ lowerer_nodes cfg ∧ lowerer_nodes cfg < 2147483648) ∧
      (-2147483648 ≤ cfg.num_groups * cfg.leaf_routers ∧
        cfg.num_groups * cfg.leaf_routers < 2147483648 ∧
        -2147483648 ≤ cfg.num_groups * cfg.leaf_routers * cfg.hosts_per_router ∧
        cfg.num_groups * cfg.leaf_routers * cfg.hosts_per_router < 2147483648 →
        lowerer_nodes cfg = cfg.num_groups * cfg.leaf_routers * cfg.hosts_per_router) := by
  refine ⟨(lowerer_flows cfg sroot).map
      (conn_line (lowerer_flows cfg sroot) (succ_count (lowerer_flows cfg sroot))),
    ((lowerer_flows cfg sroot).filter fun f =>
      decide ((succ_count (lowerer_flows cfg sroot)).getD (f.id - 1).toNat 0 > 0)).map
      fun f => CmLine.oneshot f.id, ?_, ?_, ?_, ?_, ?_, ?_, ?_, ?_⟩
  · simp only [lowerer_main, count_triggers, List.length_map]
  · simp only [lowerer_file, lowerer_main, count_triggers, List.length_map, List.map_append,
      List.map_cons, List.map_nil, CmLine.text]
  · rw [List.length_map, lowerer_flows_length]
  · intro l hl
    obtain ⟨f, _, rfl⟩ := List.mem_map.1 hl
    exact conn_line_is_conn _ _ _
  · intro l hl
    obtain ⟨f, _, rfl⟩ := List.mem_map.1 hl
    exact ⟨f.id, rfl, rfl⟩
  · intro s hs
    obtain ⟨l, _, rfl⟩ := List.mem_map.1 hs
    exact CmLine.text_ne_empty l
  · exact wrap_int_range _
  · rintro ⟨h1, h2, h3, h4⟩
    unfold lowerer_nodes
    rw [wrap_int_of_range _ h1 h2, wrap_int_of_range _ h3 h4]

set_option maxRecDepth 100000 in
/-- C10 (counterexample): with `num_groups = 65536`, `leaf_routers = 65536` and
`hosts_per_router = 1` the product is `4294967296`, which no `int` holds; the first line of
the file is not `Nodes 4294967296`. -/
theorem lowerer_nodes_overflow :
    cfg_wide.num_groups * cfg_wide.leaf_routers * cfg_wide.hosts_per_router = 4294967296 ∧
    lowerer_file cfg_wide doc_S2 =
      ["Nodes 0", "Connections 2", "Triggers 1",
       "0->1 id 1 start 0 size 1000 send_done_trigger 1",
       "1->2 id 2 trigger 1 size 1000",
       "trigger id 1 oneshot"] ∧
    (lowerer_file cfg_wide doc_S2)[0]? ≠ some "Nodes 4294967296" := by
  decide

theorem lowerer_main_getElem?_conn (cfg : TopoCfg) (sroot : ScheduleDoc) (j : Nat)
    (f : FlowInfo) (hf : (lowerer_flows cfg sroot)[j]? = some f) :
    (lowerer_main cfg sroot)[3 + j]? =
      some (conn_line (lowerer_flows cfg sroot) (succ_count (lowerer_flows cfg sroot)) f) := by
  have hj : j < (lowerer_flows cfg sroot).length := by
    by_contra hc
    rw [List.getElem?_eq_none (by omega)] at hf
    cases hf
  unfold lowerer_main
  simp only
  rw [List.append_assoc, List.getElem?_append_right (by simp)]
  simp only [List.length_cons, List.length_nil]
  have : 3 + j - (0 + 1 + 1 + 1) = j := by omega
  rw [this, List.getElem?_append_left (by simpa using hj), List.getElem?_map, hf]
  rfl

/-- C5: the flow at position `j` of the table has id `j + 1` and exactly the connection line
number `j` of the file, which reads, with `s` the flow's successor count and `p` the id of
its resolved predecessor: NODIP: `src->dst id i start 0 size B`; FIRST: the same, plus
` send_done_trigger i` iff `s > 0`; MID with `p != 0`: `src->dst id i trigger p size B`,
plus ` send_done_trigger i` iff `s > 0`; LAST with `p != 0`:
`src->dst id i trigger p size B`. -/
theorem lowerer_connection_line (cfg : TopoCfg) (sroot : ScheduleDoc) (j : Nat)
    (f : FlowInfo) (hf : (lowerer_flows cfg sroot)[j]? = some f) :
    f.id = ((j + 1 : Nat) : Int) ∧
    ∃ line, (lowerer_file cfg sroot)[3 + j]? = some line ∧
      (f.role = Role.ROLE_NODIP →
        line = start_form f.key.src f.key.dst f.id f.size_bytes) ∧
      (f.role = Role.ROLE_FIRST →
        line = if (succ_count (lowerer_flows cfg sroot)).getD (f.id - 1).toNat 0 > 0
          then start_form f.key.src f.key.dst f.id f.size_bytes ++ fire_suffix f.id
          else start_form f.key.src f.key.dst f.id f.size_bytes) ∧
      (f.role = Role.ROLE_MID → pred_id (lowerer_flows cfg sroot) f ≠ 0 →
        line = if (succ_count (lowerer_flows cfg sroot)).getD (f.id - 1).toNat 0 > 0
          then trigger_form f.key.src f.key.dst f.id (pred_id (lowerer_flows cfg sroot) f)
            f.size_bytes ++ fire_suffix f.id
          else trigger_form f.key.src f.key.dst f.id (pred_id (lowerer_flows cfg sroot) f)
            f.size_bytes) ∧
      (f.role = Role.ROLE_LAST → pred_id (lowerer_flows cfg sroot) f ≠ 0 →
        line = trigger_form f.key.src f.key.dst f.id (pred_id (lowerer_flows cfg sroot) f)
          f.size_bytes) := by
  refine ⟨lowerer_flows_id cfg sroot j f hf,
    (conn_line (lowerer_flows cfg sroot) (succ_count (lowerer_flows cfg sroot)) f).text,
    ?_, ?_, ?_, ?_, ?_⟩
  · unfold lowerer_file
    rw [List.getElem?_map, lowerer_main_getElem?_conn cfg sroot j f hf]
    rfl
  · intro hr
    unfold conn_line
    simp only
    rw [if_pos (Or.inl hr)]
    rfl
  · intro hr
    unfold conn_line
    simp only
    rw [if_neg (by rw [hr]; decide), if_pos hr]
    by_cases hs : (succ_count (lowerer_flows cfg sroot)).getD (f.id - 1).toNat 0 > 0
    · rw [if_pos hs, if_pos hs]
      simp only [CmLine.text, start_form, fire_suffix, String.append_assoc]
    · rw [if_neg hs, if_neg hs]
      rfl
  · intro hr hp
    unfold conn_line
    simp only
    rw [if_neg (by rw [hr]; decide), if_neg (by rw [hr]; decide), if_pos hr, if_neg hp]
    by_cases hs : (succ_count (lowerer_flows cfg sroot)).getD (f.id - 1).toNat 0 > 0
    · rw [if_pos hs, if_pos hs]
      simp only [CmLine.text, trigger_form, fire_suffix, String.append_assoc]
    · rw [if_neg hs, if_neg hs]
      rfl
  · intro hr hp
    unfold conn_line
    simp only
    rw [if_neg (by rw [hr]; decide), if_neg (by rw [hr]; decide),
      if_neg (by rw [hr]; decide), if_pos hr, if_neg hp]
    rfl

theorem is_recorded_pred_iff (flows : FlowVec) (f : FlowInfo) :
    is_recorded_pred flows f = true ↔ ∃ g ∈ flows, g.has_pred = true ∧ g.pred = f.key := by
  unfold is_recorded_pred
  rw [List.any_eq_true]
  constructor
  · rintro ⟨g, hg, h⟩
    rw [Bool.and_eq_true] at h
    exact ⟨g, hg, h.1, (key_eq_iff _ _).1 h.2⟩
  · rintro ⟨g, hg, h1, h2⟩
    exact ⟨g, hg, by rw [Bool.and_eq_true]; exact ⟨h1, (key_eq_iff _ _).2 h2⟩⟩

theorem count_triggers_eq (cfg : TopoCfg) (sroot : ScheduleDoc) :
    count_triggers (lowerer_flows cfg sroot) (succ_count (lowerer_flows cfg sroot)) =
      ((lowerer_flows cfg sroot).filter
        (is_recorded_pred (lowerer_flows cfg sroot))).length := by
  unfold count_triggers
  congr 1
  apply List.filter_congr
  intro f hf
  obtain ⟨j, hj⟩ := List.getElem?_of_mem hf
  have h := succ_count_pos_iff (lowerer_flows cfg sroot) (lowerer_flows_keys_nodup cfg sroot)
    (lowerer_flows_id cfg sroot) j f hj
  rw [Bool.eq_iff_iff, decide_eq_true_eq, h, is_recorded_pred_iff]

/-- What the header value `T` counts: the flows of the table that are the recorded
predecessor of at least one flow of the table, the recorded predecessor of a flow being the
one `pred` key that `annotate_8_chunk_paths` left in it. -/
theorem lowerer_triggers_header (cfg : TopoCfg) (sroot : ScheduleDoc) :
    (lowerer_main cfg sroot)[2]? = some (CmLine.triggers
      (((lowerer_flows cfg sroot).filter
        (is_recorded_pred (lowerer_flows cfg sroot))).length : Nat)) ∧
    (lowerer_file cfg sroot)[2]? = some ("Triggers " ++ toString
      ((((lowerer_flows cfg sroot).filter
        (is_recorded_pred (lowerer_flows cfg sroot))).length : Nat) : Int)) := by
  have h1 : (lowerer_main cfg sroot)[2]? = some (CmLine.triggers
      (((lowerer_flows cfg sroot).filter
        (is_recorded_pred (lowerer_flows cfg sroot))).length : Nat)) := by
    rw [← count_triggers_eq]
    simp [lowerer_main]
  refine ⟨h1, ?_⟩
  unfold lowerer_file
  rw [List.getElem?_map, h1]
  rfl

set_option maxRecDepth 100000 in
/-- C9: hosts 0 and 1 send to host 2 in epoch 0, host 2 forwards to host 3 in epoch 1.  The
flows 0 -> 2 and 1 -> 2 both have a successor in a demand chain (both occur at a non-last
position, both have `has_succ` set), yet the header reads `Triggers 1` and not
`Triggers 2`: the flow 2 -> 3 keeps only its last predecessor, its line waits on trigger 2
alone, and the flow 0 -> 2 fires nothing. -/
theorem lowerer_triggers_two_preds :
    lowerer_file cfg_demo doc_two_preds =
      ["Nodes 4", "Connections 3", "Triggers 1",
       "0->2 id 1 start 0 size 1000",
       "1->2 id 2 start 0 size 1000 send_done_trigger 2",
       "2->3 id 3 trigger 2 size 2000",
       "trigger id 2 oneshot"] ∧
    ((lowerer_flows cfg_demo doc_two_preds).filter
      fun f => occurs_non_last doc_two_preds f.key).length = 2 ∧
    ((lowerer_flows cfg_demo doc_two_preds).filter fun f => f.has_succ).length = 2 := by
  decide

set_option maxRecDepth 100000 in
/-- Witness of `lowerer_connection_line` (scenarios S4 and S2): the theorem applied to the
middle flow 1 -> 2 of S4, and the files of S4 and S2 read
`1->2 id 2 trigger 1 size B send_done_trigger 2`, resp.
`0->1 id 1 start 0 size B send_done_trigger 1`, `1->2 id 2 trigger 1 size B` and
`trigger id 1 oneshot`, with `B = 1000`. -/
theorem lowerer_connection_line_witness :
    (lowerer_flows cfg_demo doc_S4)[1]? = some flow_S4_mid ∧
    (flow_S4_mid.id = ((1 + 1 : Nat) : Int) ∧
      ∃ line, (lowerer_file cfg_demo doc_S4)[3 + 1]? = some line ∧
        (flow_S4_mid.role = Role.ROLE_NODIP →
          line = start_form flow_S4_mid.key.src flow_S4_mid.key.dst flow_S4_mid.id
            flow_S4_mid.size_bytes) ∧
        (flow_S4_mid.role = Role.ROLE_FIRST →
          line = if (succ_count (lowerer_flows cfg_demo doc_S4)).getD
              (flow_S4_mid.id - 1).toNat 0 > 0
            then start_form flow_S4_mid.key.src flow_S4_mid.key.dst flow_S4_mid.id
              flow_S4_mid.size_bytes ++ fire_suffix flow_S4_mid.id
            else start_form flow_S4_mid.key.src flow_S4_mid.key.dst flow_S4_mid.id
              flow_S4_mid.size_bytes) ∧
        (flow_S4_mid.role = Role.ROLE_MID →
          pred_id (lowerer_flows cfg_demo doc_S4) flow_S4_mid ≠ 0 →
          line = if (succ_count (lowerer_flows cfg_demo doc_S4)).getD
              (flow_S4_mid.id - 1).toNat 0 > 0
            then trigger_form flow_S4_mid.key.src flow_S4_mid.key.dst flow_S4_mid.id
              (pred_id (lowerer_flows cfg_demo doc_S4) flow_S4_mid) flow_S4_mid.size_bytes ++
                fire_suffix flow_S4_mid.id
            else trigger_form flow_S4_mid.key.src flow_S4_mid.key.dst flow_S4_mid.id
              (pred_id (lowerer_flows cfg_demo doc_S4) flow_S4_mid) flow_S4_mid.size_bytes) ∧
        (flow_S4_mid.role = Role.ROLE_LAST →
          pred_id (lowerer_flows cfg_demo doc_S4) flow_S4_mid ≠ 0 →
          line = trigger_form flow_S4_mid.key.src flow_S4_mid.key.dst flow_S4_mid.id
            (pred_id (lowerer_flows cfg_demo doc_S4) flow_S4_mid) flow_S4_mid.size_bytes)) ∧
    lowerer_file cfg_demo doc_S4 =
      ["Nodes 4", "Connections 3", "Triggers 2",
       "0->1 id 1 start 0 size 1000 send_done_trigger 1",
       "1->2 id 2 trigger 1 size 1000 send_done_trigger 2",
       "2->3 id 3 trigger 2 size 1000",
       "trigger id 1 oneshot", "trigger id 2 oneshot"] ∧
    lowerer_file cfg_demo doc_S2 =
      ["Nodes 4", "Connections 2", "Triggers 1",
       "0->1 id 1 start 0 size 1000 send_done_trigger 1",
       "1->2 id 2 trigger 1 size 1000",
       "trigger id 1 oneshot"] :=
  ⟨by decide, lowerer_connection_line cfg_demo doc_S4 1 flow_S4_mid (by decide),
    by decide, by decide⟩

set_option maxRecDepth 100000 in
/-- C4 (the code at the failing input): flow 2 (the hop 1 -> 2) is the last hop of the first
demand and the first hop of the second.  Its line carries no `send_done_trigger 2`, while
the line of flow 3 contains `trigger 2` and the trigger section lists `trigger id 2 oneshot`. -/
theorem lowerer_trigger_never_fired :
    lowerer_file cfg_demo doc_last_then_first =
      ["Nodes 4", "Connections 3", "Triggers 2",
       "0->1 id 1 start 0 size 1000 send_done_trigger 1",
       "1->2 id 2 trigger 1 size 1000",
       "2->3 id 3 trigger 2 size 1000",
       "trigger id 1 oneshot", "trigger id 2 oneshot"] ∧
    (lowerer_main cfg_demo doc_last_then_first)[4]? = some (CmLine.wait 1 2 2 1 1000) ∧
    (CmLine.wait 1 2 2 1 1000).fires 2 = false ∧
    (lowerer_main cfg_demo doc_last_then_first)[5]? = some (CmLine.wait 2 3 3 2 1000) ∧
    (CmLine.wait 2 3 3 2 1000).waits_on 2 = true ∧
    CmLine.oneshot 2 ∈ lowerer_main cfg_demo doc_last_then_first := by
  decide

/-- C7 (the code at the failing input): both chains of `doc_last_then_first` have all their
hops listed in "7-Flows"; the hop 1 -> 2 of epoch 1 occurs at a non-first position of the
first chain and at a non-last position of the second, both flags are set in its flow, and
its role is LAST, not MID. -/
theorem annotate_last_then_first_role :
    (∀ k : FlowKey, (occurs_non_first doc_last_then_first k = true ∨
        occurs_non_last doc_last_then_first k = true) →
      k ∈ (parse_7_flows_into_vec doc_last_then_first []).map FlowInfo.key) ∧
    occurs_non_first doc_last_then_first { src := 1, dst := 2, epoch := 1 } = true ∧
    occurs_non_last doc_last_then_first { src := 1, dst := 2, epoch := 1 } = true ∧
    vec_find (annotated_flows doc_last_then_first) { src := 1, dst := 2, epoch := 1 } =
      some { key := { src := 1, dst := 2, epoch := 1 }, count := 1, role := Role.ROLE_LAST,
             has_pred := true, pred := { src := 0, dst := 1, epoch := 0 }, has_succ := true,
             size_bytes := 0, id := 0 } := by
  refine ⟨?_, by decide, by decide, by decide⟩
  intro k hk
  have hkeys : (parse_7_flows_into_vec doc_last_then_first []).map FlowInfo.key =
      [{ src := 0, dst := 1, epoch := 0 }, { src := 1, dst := 2, epoch := 1 },
       { src := 2, dst := 3, epoch := 2 }] := by decide
  have hnf : ∀ k, occurs_non_first doc_last_then_first k = true →
      k ∈ [({ src := 1, dst := 2, epoch := 1 } : FlowKey), { src := 2, dst := 3, epoch := 2 }] := by
    intro k h
    have e : occurs_non_first doc_last_then_first k =
        ([({ src := 1, dst := 2, epoch := 1 } : FlowKey)].contains k ||
          ([({ src := 2, dst := 3, epoch := 2 } : FlowKey)].contains k || false)) := by
      have c1 : (chain_hops demand_0_to_2).tail = [{ src := 1, dst := 2, epoch := 1 }] := by
        decide
      have c2 : (chain_hops demand_1_to_3).tail = [{ src := 2, dst := 3, epoch := 2 }] := by
        decide
      simp only [occurs_non_first, doc_last_then_first, List.any_cons, List.any_nil, c1, c2]
      rfl
    rw [e] at h
    simp at h
    rcases h with h | h <;> simp [h]
  have hnl : ∀ k, occurs_non_last doc_last_then_first k = true →
      k ∈ [({ src := 0, dst := 1, epoch := 0 } : FlowKey), { src := 1, dst := 2, epoch := 1 }] := by
    intro k h
    have e : occurs_non_last doc_last_then_first k =
        ([({ src := 0, dst := 1, epoch := 0 } : FlowKey)].contains k ||
          ([({ src := 1, dst := 2, epoch := 1 } : FlowKey)].contains k || false)) := by
      have c1 : (chain_hops demand_0_to_2).dropLast = [{ src := 0, dst := 1, epoch := 0 }] := by
        decide
      have c2 : (chain_hops demand_1_to_3).dropLast = [{ src := 1, dst := 2, epoch := 1 }] := by
        decide
      simp only [occurs_non_last, doc_last_then_first, List.any_cons, List.any_nil, c1, c2]
      rfl
    rw [e] at h
    simp at h
    rcases h with h | h <;> simp [h]
  rw [hkeys]
  rcases hk with h | h
  · have := hnf k h
    simp at this ⊢
    tauto
  · have := hnl k h
    simp at this ⊢
    tauto

/-- C8 (the code at the failing input): `doc_first_then_last` lists the two demand entries of
`doc_last_then_first` in the other order; the flow of the hop 1 -> 2 gets role LAST from one
document and role MID from the other. -/
theorem annotate_role_depends_on_order :
    (∃ cp1 cp2, doc_last_then_first.chunk_paths = some cp1 ∧
      doc_first_then_last.chunk_paths = some cp2 ∧ cp1.type = cp2.type ∧
      cp1.child.Perm cp2.child) ∧
    doc_last_then_first.flows7 = doc_first_then_last.flows7 ∧
    (vec_find (annotated_flows doc_last_then_first) { src := 1, dst := 2, epoch := 1 }).map
      FlowInfo.role = some Role.ROLE_LAST ∧
    (vec_find (annotated_flows doc_first_then_last) { src := 1, dst := 2, epoch := 1 }).map
      FlowInfo.role = some Role.ROLE_MID := by
  refine ⟨⟨_, _, rfl, rfl, rfl, ?_⟩, rfl, by decide, by decide⟩
  exact List.Perm.swap _ _ _


/-! ## Theorems: Lowerer, continued (ids, occurrence counts, sizes, unresolved predecessors) -/

theorem flow_le_iff (x y : FlowInfo) : flow_le x y ↔ key_le x.key y.key := by
  unfold flow_le cmp_flow key_le
  split_ifs <;> omega

theorem key_le_total (a b : FlowKey) : key_le a b ∨ key_le b a := by
  unfold key_le; omega

theorem key_le_trans {a b c : FlowKey} (h1 : key_le a b) (h2 : key_le b c) : key_le a c := by
  unfold key_le at *; omega

theorem assign_ids_from_clear (l : FlowVec) :
    ∀ i : Nat, (assign_ids_from i l).map clear_id = l.map clear_id := by
  induction l with
  | nil => intro i; rfl
  | cons x xs ih => intro i; unfold assign_ids_from; simp [ih, clear_id]

theorem assign_ids_from_ids (l : FlowVec) :
    ∀ i : Nat, (assign_ids_from i l).map FlowInfo.id =
      (List.range' (i + 1) l.length).map fun (j : Nat) => (j : Int) := by
  induction l with
  | nil => intro i; rfl
  | cons x xs ih =>
    intro i
    unfold assign_ids_from
    simp [ih, List.range'_succ]

/-- C11: after `assign_ids_sorted` the flows are in non-decreasing lexicographic order of
`(epoch, src, dst)`, the flow at position `j` has id `j + 1`, the ids are `1, 2, ..., C` in
this order (so without repeats), and apart from the ids the table is a permutation of the
table before sorting. -/
theorem assign_ids_sorted_spec (fv : FlowVec) :
    (assign_ids_sorted fv).Pairwise (fun x y => key_le x.key y.key) ∧
    (∀ j f, (assign_ids_sorted fv)[j]? = some f → f.id = ((j + 1 : Nat) : Int)) ∧
    (assign_ids_sorted fv).length = fv.length ∧
    (assign_ids_sorted fv).map FlowInfo.id =
      (List.range' 1 fv.length).map (fun (j : Nat) => (j : Int)) ∧
    ((assign_ids_sorted fv).map FlowInfo.id).Nodup ∧
    ((assign_ids_sorted fv).map clear_id).Perm (fv.map clear_id) := by
  haveI : IsTotal FlowInfo flow_le := ⟨fun x y => by
    rw [flow_le_iff, flow_le_iff]; exact key_le_total _ _⟩
  haveI : IsTrans FlowInfo flow_le := ⟨fun x y z h1 h2 => by
    rw [flow_le_iff] at *; exact key_le_trans h1 h2⟩
  have hsorted := List.sorted_insertionSort flow_le fv
  have hperm := List.perm_insertionSort flow_le fv
  have hids : (assign_ids_sorted fv).map FlowInfo.id =
      (List.range' 1 fv.length).map (fun (j : Nat) => (j : Int)) := by
    unfold assign_ids_sorted
    rw [assign_ids_from_ids, List.length_insertionSort]
  refine ⟨?_, ?_, ?_, hids, ?_, ?_⟩
  · have hk : ((assign_ids_sorted fv).map FlowInfo.key).Pairwise key_le := by
      unfold assign_ids_sorted
      rw [assign_ids_from_keys, List.pairwise_map]
      exact hsorted.imp (fun h => (flow_le_iff _ _).1 h)
    exact List.pairwise_map.1 hk
  · intro j f hf
    unfold assign_ids_sorted at hf
    rw [assign_ids_from_getElem?] at hf
    cases hs : (List.insertionSort flow_le fv)[j]? with
    | none => rw [hs] at hf; cases hf
    | some g =>
      rw [hs] at hf
      simp only [Option.map_some', Option.some.injEq] at hf
      rw [← hf]
      simp
  · unfold assign_ids_sorted
    rw [assign_ids_from_length, List.length_insertionSort]
  · rw [hids]
    refine (List.nodup_range' 1 fv.length).map ?_
    intro a b h
    exact Int.ofNat.inj h
  · unfold assign_ids_sorted
    rw [assign_ids_from_clear]
    exact hperm.map _

theorem lowerer_flows_eq_nil_of_no_flows7 (cfg : TopoCfg) (sroot : ScheduleDoc)
    (h : sroot.flows7 = none) : lowerer_flows cfg sroot = [] := by
  have hl := lowerer_flows_length cfg sroot
  have h0 : parse_7_flows_into_vec sroot [] = [] := by
    unfold parse_7_flows_into_vec
    rw [h]
  rw [h0] at hl
  exact List.length_eq_zero.1 hl

/-- C12 (amended): when the schedule has no "7-Flows" section the flow table of the Lowerer
is empty, whatever the chunk-paths section holds: the file is the three header lines with
`Connections 0` and `Triggers 0`, and no connection or trigger line. -/
theorem lowerer_without_7_flows (cfg : TopoCfg) (sroot : ScheduleDoc)
    (h : sroot.flows7 = none) :
    lowerer_flows cfg sroot = [] ∧
    lowerer_main cfg sroot =
      [CmLine.nodes (lowerer_nodes cfg),
       CmLine.connections 0, CmLine.triggers 0] ∧
    lowerer_file cfg sroot =
      ["Nodes " ++ toString (lowerer_nodes cfg),
       "Connections 0", "Triggers 0"] := by
  have hnil := lowerer_flows_eq_nil_of_no_flows7 cfg sroot h
  have hmain : lowerer_main cfg sroot =
      [CmLine.nodes (lowerer_nodes cfg),
       CmLine.connections 0, CmLine.triggers 0] := by
    unfold lowerer_main
    simp only [hnil]
    rfl
  refine ⟨hnil, hmain, ?_⟩
  unfold lowerer_file
  rw [hmain]
  rfl

/-- Witness of `lowerer_without_7_flows`: scenario S1, which has no "7-Flows" section. -/
theorem lowerer_without_7_flows_witness :
    doc_S1.flows7 = none ∧
    lowerer_flows cfg_S1 doc_S1 = [] ∧
    lowerer_main cfg_S1 doc_S1 =
      [CmLine.nodes (cfg_S1.num_groups * cfg_S1.leaf_routers * cfg_S1.hosts_per_router),
       CmLine.connections 0, CmLine.triggers 0] ∧
    lowerer_file cfg_S1 doc_S1 =
      ["Nodes " ++ toString (cfg_S1.num_groups * cfg_S1.leaf_routers * cfg_S1.hosts_per_router),
       "Connections 0", "Triggers 0"] :=
  ⟨rfl, lowerer_without_7_flows cfg_S1 doc_S1 rfl⟩

/-- C12 (counterexample): scenario S1 has no "7-Flows" section and two distinct chain hops,
`(0,1,0)` and `(1,0,0)`; the Lowerer writes `Connections 0`, not `Connections 2`, and creates
no flow. -/
theorem lowerer_S1_without_7_flows :
    doc_S1.flows7 = none ∧
    all_chain_hops doc_S1 = [{ src := 0, dst := 1, epoch := 0 }, { src := 1, dst := 0, epoch := 0 }] ∧
    (all_chain_hops doc_S1).Nodup ∧ (all_chain_hops doc_S1).length = 2 ∧
    lowerer_flows cfg_S1 doc_S1 = [] ∧
    lowerer_file cfg_S1 doc_S1 = ["Nodes 2", "Connections 0", "Triggers 0"] := by
  decide

/-! ### Occurrence counts -/

theorem vec_find_append_singleton (v : FlowVec) (x : FlowInfo) (k : FlowKey) :
    vec_find (v ++ [x]) k =
      match vec_find v k with
      | some y => some y
      | none => if x.key = k then some x else none := by
  induction v with
  | nil =>
    by_cases hx : x.key = k
    · simp [vec_find, hx, key_eq_self]
    · have : ¬ key_eq x.key k = true := fun e => hx ((key_eq_iff _ _).1 e)
      simp [vec_find, hx, this]
  | cons y ys ih =>
    by_cases hy : y.key = k
    · rw [List.cons_append, vec_find_cons_pos hy, vec_find_cons_pos hy]
    · rw [List.cons_append, vec_find_cons_neg hy, vec_find_cons_neg hy, ih]

theorem is_flow_line_of_iff (k : FlowKey) (it : JEntry) :
    is_flow_line_of k it = true ↔
      (it.type = JType.jString ∧
        parse_flow_line_7 it.valuestring.toList = some (k.src, k.dst, k.epoch)) := by
  unfold is_flow_line_of
  rw [Bool.and_eq_true, decide_eq_true_eq, decide_eq_true_eq]

theorem is_flow_line_of_parsed (k : FlowKey) (it : JEntry) (s d e : Int)
    (ht : it.type = JType.jString)
    (hp : parse_flow_line_7 it.valuestring.toList = some (s, d, e)) :
    is_flow_line_of k it = true ↔ k = { src := s, dst := d, epoch := e } := by
  rw [is_flow_line_of_iff, hp]
  cases k
  simp only [Option.some.injEq, Prod.mk.injEq, FlowKey.mk.injEq]
  constructor
  · rintro ⟨_, a, b, c⟩; exact ⟨a.symm, b.symm, c.symm⟩
  · rintro ⟨a, b, c⟩; exact ⟨ht, a.symm, b.symm, c.symm⟩

/-- The count field found for a key, coded from a number of lines: nothing when the number is
0. -/
theorem count_code_step (fv : FlowVec) (it : JEntry) (m : FlowKey → Nat)
    (h : ∀ k, (vec_find fv k).map FlowInfo.count =
      if m k = 0 then none else some ((m k : Nat) : Int)) :
    ∀ k, (vec_find (parse_7_flows_step fv it) k).map FlowInfo.count =
      if m k + (if is_flow_line_of k it = true then 1 else 0) = 0 then none
      else some (((m k + (if is_flow_line_of k it = true then 1 else 0) : Nat)) : Int) := by
  intro k
  unfold parse_7_flows_step
  by_cases ht : it.type ≠ JType.jString
  · have hno : ¬ is_flow_line_of k it = true := by
      rw [is_flow_line_of_iff]
      exact fun e => ht e.1
    rw [if_pos ht, if_neg hno]
    simpa using h k
  · rw [if_neg ht]
    have ht2 : it.type = JType.jString := by simpa using ht
    cases hp : parse_flow_line_7 it.valuestring.toList with
    | none =>
      have hno : ¬ is_flow_line_of k it = true := by
        rw [is_flow_line_of_iff, hp]
        exact fun e => by cases e.2
      simp only
      rw [if_neg hno]
      simpa using h k
    | some r =>
      obtain ⟨s, d, e⟩ := r
      simp only
      rw [vec_find_update keypres_count]
      by_cases hk : k = { src := s, dst := d, epoch := e }
      · have hyes : is_flow_line_of k it = true :=
          (is_flow_line_of_parsed k it s d e ht2 hp).2 hk
        rw [if_pos hk, if_pos hyes]
        have hk0 := h k
        rw [hk] at hk0
        cases hfind : vec_find fv { src := s, dst := d, epoch := e } with
        | some x =>
          rw [hfind] at hk0
          simp only [Option.map_some'] at hk0 ⊢
          by_cases hm : m { src := s, dst := d, epoch := e } = 0
          · rw [if_pos hm] at hk0; cases hk0
          · rw [if_neg hm] at hk0
            rw [hfind, hk]
            simp only [Option.map_some', Option.some.injEq] at hk0 ⊢
            rw [if_neg (by omega), hk0]
            simp
        | none =>
          rw [hfind] at hk0
          have hm : m { src := s, dst := d, epoch := e } = 0 := by
            by_contra hc
            rw [if_neg hc] at hk0
            cases hk0
          simp only
          unfold vec_add
          rw [vec_find_append_singleton, hfind, hk]
          simp [hm]
      · have hno : ¬ is_flow_line_of k it = true := fun e2 =>
          hk ((is_flow_line_of_parsed k it s d e ht2 hp).1 e2)
        rw [if_neg hk, if_neg hno]
        cases hfind : vec_find fv { src := s, dst := d, epoch := e } with
        | some x =>
          simp only
          simpa using h k
        | none =>
          simp only
          unfold vec_add
          rw [vec_find_append_singleton]
          cases hfk : vec_find fv k with
          | some y =>
            simp only
            have := h k
            rw [hfk] at this
            simpa using this
          | none =>
            simp only
            rw [if_neg (fun e2 => hk e2.symm)]
            have := h k
            rw [hfk] at this
            simpa using this

theorem count_code_fold (es : List JEntry) :
    ∀ (fv : FlowVec) (m : FlowKey → Nat),
      (∀ k, (vec_find fv k).map FlowInfo.count =
        if m k = 0 then none else some ((m k : Nat) : Int)) →
      ∀ k, (vec_find (es.foldl parse_7_flows_step fv) k).map FlowInfo.count =
        if m k + (es.filter (is_flow_line_of k)).length = 0 then none
        else some (((m k + (es.filter (is_flow_line_of k)).length : Nat)) : Int) := by
  induction es with
  | nil => intro fv m h k; simpa using h k
  | cons e es ih =>
    intro fv m h k
    rw [List.foldl_cons]
    have h2 := ih (parse_7_flows_step fv e)
      (fun k => m k + (if is_flow_line_of k e = true then 1 else 0))
      (count_code_step fv e m h) k
    rw [h2, List.filter_cons]
    by_cases hl : is_flow_line_of k e = true
    · simp only [hl, if_true, List.length_cons]
      have : m k + 1 + (List.filter (is_flow_line_of k) es).length =
          m k + ((List.filter (is_flow_line_of k) es).length + 1) := by omega
      rw [this]
    · simp only [hl, if_false, Nat.add_zero]
      simp

theorem parse_7_flows_count_code (root : ScheduleDoc) (k : FlowKey) :
    (vec_find (parse_7_flows_into_vec root []) k).map FlowInfo.count =
      if flow_line_count root k = 0 then none
      else some ((flow_line_count root k : Nat) : Int) := by
  unfold parse_7_flows_into_vec flow_line_count
  cases h7 : root.flows7 with
  | none => simp [vec_find]
  | some flows =>
    simp only
    by_cases ht : flows.type ≠ JType.jArray
    · rw [if_pos ht, if_pos ht]
      simp [vec_find]
    · rw [if_neg ht, if_neg ht]
      have := count_code_fold flows.child [] (fun _ => 0) (fun k => by simp [vec_find]) k
      simpa using this


theorem vec_update_map_proj {β : Type} (π : FlowInfo → β) {f : FlowInfo → FlowInfo}
    (hf : ∀ x, π (f x) = π x) (v : FlowVec) (k : FlowKey) :
    (vec_update v k f).map π = v.map π := by
  induction v with
  | nil => rfl
  | cons y ys ih =>
    by_cases hk : y.key = k
    · rw [vec_update_cons_pos f hk, List.map_cons, List.map_cons, hf y]
    · rw [vec_update_cons_neg f hk, List.map_cons, List.map_cons, ih]

/-- The pair (key, count) of a flow: what the annotation leaves unchanged. -/
theorem key_count_writes :
    (∀ x, (write_single x).key = x.key ∧ (write_single x).count = x.count) ∧
    (∀ x, (write_first x).key = x.key ∧ (write_first x).count = x.count) ∧
    (∀ p x, (write_mid p x).key = x.key ∧ (write_mid p x).count = x.count) ∧
    (∀ p x, (write_last p x).key = x.key ∧ (write_last p x).count = x.count) := by
  refine ⟨?_, ?_, ?_, ?_⟩
  · intro x; unfold write_single; split <;> exact ⟨rfl, rfl⟩
  · intro x; unfold write_first; simp only; split
    · exact ⟨rfl, rfl⟩
    · split
      · split <;> exact ⟨rfl, rfl⟩
      · exact ⟨rfl, rfl⟩
  · intro p x; exact ⟨rfl, rfl⟩
  · intro p x; unfold write_last; simp only; split <;> exact ⟨rfl, rfl⟩

theorem annotate_rest_key_count (rest : List FlowKey) :
    ∀ (fv : FlowVec) (p : FlowKey),
      (annotate_rest fv p rest).map (fun f => (f.key, f.count)) =
        fv.map (fun f => (f.key, f.count)) := by
  induction rest with
  | nil => intro fv p; rfl
  | cons a r ih =>
    intro fv p
    cases r with
    | nil =>
      exact vec_update_map_proj _ (fun x => by
        rw [(key_count_writes.2.2.2 p x).1, (key_count_writes.2.2.2 p x).2]) fv a
    | cons b r2 =>
      show (annotate_rest (annotate_mid fv a p) a (b :: r2)).map _ = _
      rw [ih]
      exact vec_update_map_proj (fun f : FlowInfo => (f.key, f.count)) (f := write_mid p)
        (fun x => rfl) fv a

theorem annotate_steps_key_count (fv : FlowVec) (steps : List FlowKey) :
    (annotate_steps fv steps).map (fun f => (f.key, f.count)) =
      fv.map (fun f => (f.key, f.count)) := by
  match steps with
  | [] => rfl
  | [a] =>
    exact vec_update_map_proj _ (fun x => by
      rw [(key_count_writes.1 x).1, (key_count_writes.1 x).2]) fv a
  | a :: b :: rest =>
    show (annotate_rest (annotate_first fv a) a (b :: rest)).map _ = _
    rw [annotate_rest_key_count]
    exact vec_update_map_proj _ (fun x => by
      rw [(key_count_writes.2.1 x).1, (key_count_writes.2.1 x).2]) fv a

theorem annotate_8_chunk_paths_key_count (root : ScheduleDoc) (fv : FlowVec) :
    (annotate_8_chunk_paths root fv).map (fun f => (f.key, f.count)) =
      fv.map (fun f => (f.key, f.count)) := by
  have hd : ∀ (fv : FlowVec) (e : JEntry),
      (annotate_demand fv e).map (fun f => (f.key, f.count)) =
        fv.map (fun f => (f.key, f.count)) := by
    intro fv e
    unfold annotate_demand
    split
    · rfl
    · exact annotate_steps_key_count _ _
  have hfold : ∀ (es : List JEntry) (fv : FlowVec),
      (es.foldl annotate_demand fv).map (fun f => (f.key, f.count)) =
        fv.map (fun f => (f.key, f.count)) := by
    intro es
    induction es with
    | nil => intro fv; rfl
    | cons e es ih => intro fv; rw [List.foldl_cons, ih, hd]
  unfold annotate_8_chunk_paths
  split
  · rfl
  · split
    · rfl
    · exact hfold _ _

theorem assign_ids_from_key_count (l : FlowVec) :
    ∀ i : Nat, (assign_ids_from i l).map (fun f => (f.key, f.count)) =
      l.map (fun f => (f.key, f.count)) := by
  induction l with
  | nil => intro i; rfl
  | cons x xs ih => intro i; unfold assign_ids_from; simp [ih]

/-- Every flow of the final table has the key and the count of a flow read from "7-Flows",
and its count is the number of "7-Flows" lines of its key. -/
theorem lowerer_flows_count (cfg : TopoCfg) (sroot : ScheduleDoc) (f : FlowInfo)
    (hf : f ∈ lowerer_flows cfg sroot) :
    f.count = ((flow_line_count sroot f.key : Nat) : Int) ∧ 0 < flow_line_count sroot f.key := by
  have hmem : (f.key, f.count) ∈ (lowerer_flows cfg sroot).map (fun f => (f.key, f.count)) :=
    List.mem_map.2 ⟨f, hf, rfl⟩
  have hperm : ((lowerer_flows cfg sroot).map (fun f => (f.key, f.count))).Perm
      ((parse_7_flows_into_vec sroot []).map (fun f => (f.key, f.count))) := by
    unfold lowerer_flows compute_sizes assign_ids_sorted
    rw [List.map_map]
    have e1 : ((fun f : FlowInfo => (f.key, f.count)) ∘ fun f : FlowInfo =>
        { f with size_bytes :=
            (to_u64 f.count * to_u64 cfg.num_chunks * cfg.bytes_per_chunk) % 2 ^ 64 }) =
        fun f => (f.key, f.count) := rfl
    rw [e1, assign_ids_from_key_count]
    refine ((List.perm_insertionSort flow_le _).map _).trans ?_
    rw [annotate_8_chunk_paths_key_count]
  obtain ⟨g, hg, hgf⟩ := List.mem_map.1 (hperm.mem_iff.1 hmem)
  simp only [Prod.mk.injEq] at hgf
  have hfind := vec_find_of_mem_nodup (parse_7_flows_inv sroot).1 hg
  have hcode := parse_7_flows_count_code sroot g.key
  rw [hfind] at hcode
  simp only [Option.map_some'] at hcode
  by_cases h0 : flow_line_count sroot g.key = 0
  · rw [if_pos h0] at hcode; cases hcode
  · rw [if_neg h0] at hcode
    simp only [Option.some.injEq] at hcode
    rw [← hgf.1, ← hgf.2]
    exact ⟨hcode, by omega⟩

theorem lowerer_flows_size (cfg : TopoCfg) (sroot : ScheduleDoc) (f : FlowInfo)
    (hf : f ∈ lowerer_flows cfg sroot) :
    f.size_bytes = (to_u64 f.count * to_u64 cfg.num_chunks * cfg.bytes_per_chunk) % 2 ^ 64 := by
  unfold lowerer_flows compute_sizes at hf
  obtain ⟨g, _, rfl⟩ := List.mem_map.1 hf
  rfl

theorem to_u64_natCast (n : Nat) : to_u64 (n : Int) = n % 2 ^ 64 := by
  unfold to_u64
  omega

theorem to_u64_of_nonneg (x : Int) (h : 0 ≤ x) : to_u64 x = x.toNat % 2 ^ 64 := by
  unfold to_u64
  omega


theorem filter_key_length (l : FlowVec) (hn : (l.map FlowInfo.key).Nodup) (k : FlowKey) :
    (l.filter fun f => decide (f.key = k)).length = if k ∈ l.map FlowInfo.key then 1 else 0 := by
  induction l with
  | nil => simp
  | cons x xs ih =>
    rw [List.map_cons, List.nodup_cons] at hn
    rw [List.filter_cons]
    by_cases hx : x.key = k
    · have hnot : k ∉ xs.map FlowInfo.key := by rw [← hx]; exact hn.1
      have h0 := ih hn.2
      rw [if_neg hnot] at h0
      simp [hx, h0]
    · have := ih hn.2
      have hx2 : ¬ k = x.key := fun e => hx e.symm
      simp [hx, hx2, this]

theorem lowerer_flows_keys_perm (cfg : TopoCfg) (sroot : ScheduleDoc) :
    ((lowerer_flows cfg sroot).map FlowInfo.key).Perm
      ((parse_7_flows_into_vec sroot []).map FlowInfo.key) := by
  unfold lowerer_flows assign_ids_sorted
  rw [compute_sizes_keys, assign_ids_from_keys]
  refine ((List.perm_insertionSort flow_le _).map _).trans ?_
  rw [annotate_8_chunk_paths_keys]

theorem flow_line_count_pos_iff (sroot : ScheduleDoc) (k : FlowKey) :
    0 < flow_line_count sroot k ↔ listed_in_7_flows sroot k := by
  unfold flow_line_count listed_in_7_flows
  cases h7 : sroot.flows7 with
  | none => simp
  | some flows =>
    simp only [Option.some.injEq, exists_eq_left']
    by_cases ht : flows.type ≠ JType.jArray
    · rw [if_pos ht]
      simp only [Nat.lt_irrefl, false_iff, not_and]
      intro h
      exact absurd h ht
    · rw [if_neg ht]
      have ht2 : flows.type = JType.jArray := by simpa using ht
      rw [List.length_pos_iff_exists_mem]
      constructor
      · rintro ⟨it, hit⟩
        obtain ⟨h1, h2⟩ := List.mem_filter.1 hit
        exact ⟨ht2, it, h1, (is_flow_line_of_iff k it).1 h2⟩
      · rintro ⟨_, it, h1, h2⟩
        exact ⟨it, List.mem_filter.2 ⟨h1, (is_flow_line_of_iff k it).2 h2⟩⟩

theorem conn_line_size (flows : FlowVec) (sc : List Int) (f : FlowInfo) :
    (conn_line flows sc f).size = some f.size_bytes := by
  unfold conn_line
  simp only
  repeat' split
  all_goals rfl

theorem mul_mod_u64 (a b c : Nat) :
    (a % 2 ^ 64 * (b % 2 ^ 64) * c) % 2 ^ 64 = (a * b * c) % 2 ^ 64 := by
  rw [Nat.mul_mod (a % 2 ^ 64 * (b % 2 ^ 64)) c, ← Nat.mul_mod a b, ← Nat.mul_mod (a * b) c]

/-- C13: the size printed for the flow at position `j` is
`occurrence_count * num_chunks * bytes_per_chunk` reduced modulo `2 ^ 64`, the operands being
converted to unsigned 64-bit, where `occurrence_count` is the number of parseable "7-Flows"
lines whose `traveled over` edge is the flow's `(src, dst, epoch)`; the product is exact
whenever `num_chunks >= 0` and the product is below `2 ^ 64`. -/
theorem lowerer_flow_size (cfg : TopoCfg) (sroot : ScheduleDoc) (j : Nat) (f : FlowInfo)
    (hf : (lowerer_flows cfg sroot)[j]? = some f) :
    ∃ line, (lowerer_main cfg sroot)[3 + j]? = some line ∧
      line.size = some f.size_bytes ∧
      f.count = ((flow_line_count sroot f.key : Nat) : Int) ∧
      f.size_bytes =
        (flow_line_count sroot f.key % 2 ^ 64 * to_u64 cfg.num_chunks * cfg.bytes_per_chunk)
          % 2 ^ 64 ∧
      (0 ≤ cfg.num_chunks →
        flow_line_count sroot f.key * cfg.num_chunks.toNat * cfg.bytes_per_chunk < 2 ^ 64 →
        f.size_bytes =
          flow_line_count sroot f.key * cfg.num_chunks.toNat * cfg.bytes_per_chunk) := by
  have hmem : f ∈ lowerer_flows cfg sroot := List.mem_iff_getElem?.2 ⟨j, hf⟩
  have hcount := (lowerer_flows_count cfg sroot f hmem).1
  have hsize := lowerer_flows_size cfg sroot f hmem
  rw [hcount, to_u64_natCast] at hsize
  refine ⟨_, lowerer_main_getElem?_conn cfg sroot j f hf, conn_line_size _ _ _, hcount, hsize,
    ?_⟩
  intro hnc hlt
  rw [hsize, to_u64_of_nonneg _ hnc, mul_mod_u64]
  exact Nat.mod_eq_of_lt hlt

set_option maxRecDepth 100000 in
/-- Witness of `lowerer_flow_size`: the flow 2 -> 3 of `doc_two_preds` has two "7-Flows"
lines; with one chunk of 1000 bytes its line carries the size 2000. -/
theorem lowerer_flow_size_witness :
    (lowerer_flows cfg_demo doc_two_preds)[2]? = some flow_two_preds_last ∧
    flow_line_count doc_two_preds flow_two_preds_last.key = 2 ∧
    (lowerer_file cfg_demo doc_two_preds)[3 + 2]? = some "2->3 id 3 trigger 2 size 2000" ∧
    ∃ line, (lowerer_main cfg_demo doc_two_preds)[3 + 2]? = some line ∧
      line.size = some flow_two_preds_last.size_bytes ∧
      flow_two_preds_last.count =
        ((flow_line_count doc_two_preds flow_two_preds_last.key : Nat) : Int) ∧
      flow_two_preds_last.size_bytes =
        (flow_line_count doc_two_preds flow_two_preds_last.key % 2 ^ 64 *
          to_u64 cfg_demo.num_chunks * cfg_demo.bytes_per_chunk) % 2 ^ 64 ∧
      (0 ≤ cfg_demo.num_chunks →
        flow_line_count doc_two_preds flow_two_preds_last.key * cfg_demo.num_chunks.toNat *
          cfg_demo.bytes_per_chunk < 2 ^ 64 →
        flow_two_preds_last.size_bytes =
          flow_line_count doc_two_preds flow_two_preds_last.key * cfg_demo.num_chunks.toNat *
            cfg_demo.bytes_per_chunk) :=
  ⟨by decide, by decide, by decide,
    lowerer_flow_size cfg_demo doc_two_preds 2 flow_two_preds_last (by decide)⟩

/-- C14 (amended): for every hop `(u, v, e)` the final flow table holds exactly one flow, hence
the file exactly one connection line, if the hop is listed in "7-Flows", and none otherwise,
however many demand chains contain the hop; the occurrence count used for the size of that
line is the number of parseable "7-Flows" lines of the hop. -/
theorem lowerer_one_line_per_listed_hop (cfg : TopoCfg) (sroot : ScheduleDoc) (k : FlowKey) :
    ((lowerer_flows cfg sroot).filter fun f => decide (f.key = k)).length =
      (if 0 < flow_line_count sroot k then 1 else 0) ∧
    (0 < flow_line_count sroot k ↔ listed_in_7_flows sroot k) ∧
    (lowerer_main cfg sroot).drop 3 =
      (lowerer_flows cfg sroot).map
        (conn_line (lowerer_flows cfg sroot) (succ_count (lowerer_flows cfg sroot))) ++
      ((lowerer_flows cfg sroot).filter fun f =>
        decide ((succ_count (lowerer_flows cfg sroot)).getD (f.id - 1).toNat 0 > 0)).map
        (fun f => CmLine.oneshot f.id) ∧
    (∀ f ∈ lowerer_flows cfg sroot, f.key = k →
      f.count = ((flow_line_count sroot k : Nat) : Int) ∧
      f.size_bytes =
        (flow_line_count sroot k % 2 ^ 64 * to_u64 cfg.num_chunks * cfg.bytes_per_chunk)
          % 2 ^ 64) := by
  refine ⟨?_, flow_line_count_pos_iff sroot k, rfl, ?_⟩
  · rw [filter_key_length _ (lowerer_flows_keys_nodup cfg sroot)]
    have h1 : k ∈ (lowerer_flows cfg sroot).map FlowInfo.key ↔ 0 < flow_line_count sroot k := by
      rw [(lowerer_flows_keys_perm cfg sroot).mem_iff, mem_parse_7_flows_keys,
        flow_line_count_pos_iff]
    by_cases h : 0 < flow_line_count sroot k
    · rw [if_pos (h1.2 h), if_pos h]
    · rw [if_neg (fun e => h (h1.1 e)), if_neg h]
  · intro f hf hk
    have hcount := (lowerer_flows_count cfg sroot f hf).1
    have hsize := lowerer_flows_size cfg sroot f hf
    rw [hcount, to_u64_natCast, hk] at hsize
    rw [hk] at hcount
    exact ⟨hcount, hsize⟩

set_option maxRecDepth 100000 in
/-- C14 (counterexample): in `doc_last_then_first` the hop 1 -> 2 of epoch 1 is in the chains
of two demands and is listed once in "7-Flows"; the Lowerer writes one connection line for
it, with occurrence count 1 and size 1000, not count 2. -/
theorem lowerer_shared_hop_count :
    demands_containing doc_last_then_first { src := 1, dst := 2, epoch := 1 } = 2 ∧
    flow_line_count doc_last_then_first { src := 1, dst := 2, epoch := 1 } = 1 ∧
    ((lowerer_flows cfg_demo doc_last_then_first).filter
      fun f => decide (f.key = { src := 1, dst := 2, epoch := 1 })).map
        (fun f => (f.count, f.size_bytes)) = [(1, 1000)] ∧
    (lowerer_file cfg_demo doc_last_then_first)[4]? = some "1->2 id 2 trigger 1 size 1000" := by
  decide

/-- C15: a flow whose recorded predecessor key is not a flow of the table is written in the
`start 0` form: `src->dst id i start 0 size B` for a LAST, and for a MID the same followed by
` send_done_trigger i` iff its successor count is positive; and no line of the file has the
wait field `trigger 0`. -/
theorem lowerer_unresolved_pred (cfg : TopoCfg) (sroot : ScheduleDoc) (j : Nat) (f : FlowInfo)
    (hf : (lowerer_flows cfg sroot)[j]? = some f)
    (hnone : vec_find (lowerer_flows cfg sroot) f.pred = none) :
    (∃ line, (lowerer_file cfg sroot)[3 + j]? = some line ∧
      (f.role = Role.ROLE_LAST →
        line = start_form f.key.src f.key.dst f.id f.size_bytes) ∧
      (f.role = Role.ROLE_MID →
        line = if (succ_count (lowerer_flows cfg sroot)).getD (f.id - 1).toNat 0 > 0
          then start_form f.key.src f.key.dst f.id f.size_bytes ++ fire_suffix f.id
          else start_form f.key.src f.key.dst f.id f.size_bytes)) ∧
    (∀ l ∈ lowerer_main cfg sroot, l.waits_on 0 = false) := by
  have hp : pred_id (lowerer_flows cfg sroot) f = 0 := by
    unfold pred_id
    rw [hnone]
    split <;> rfl
  constructor
  · refine ⟨(conn_line (lowerer_flows cfg sroot) (succ_count (lowerer_flows cfg sroot)) f).text,
      ?_, ?_, ?_⟩
    · unfold lowerer_file
      rw [List.getElem?_map, lowerer_main_getElem?_conn cfg sroot j f hf]
      rfl
    · intro hr
      unfold conn_line
      simp only
      rw [if_neg (by rw [hr]; decide), if_neg (by rw [hr]; decide),
        if_neg (by rw [hr]; decide), if_pos hr, if_pos hp]
      rfl
    · intro hr
      unfold conn_line
      simp only
      rw [if_neg (by rw [hr]; decide), if_neg (by rw [hr]; decide), if_pos hr, if_pos hp]
      by_cases hs : (succ_count (lowerer_flows cfg sroot)).getD (f.id - 1).toNat 0 > 0
      · rw [if_pos hs, if_pos hs]
        simp only [CmLine.text, start_form, fire_suffix, String.append_assoc]
      · rw [if_neg hs, if_neg hs]
        rfl
  · intro l hl
    unfold lowerer_main at hl
    simp only [List.mem_append, List.mem_cons, List.mem_map, List.not_mem_nil, or_false] at hl
    rcases hl with ((h | h | h) | ⟨g, _, rfl⟩) | ⟨g, _, rfl⟩
    · subst h; rfl
    · subst h; rfl
    · subst h; rfl
    · unfold conn_line
      simp only
      repeat' split
      all_goals first
        | rfl
        | (simp only [CmLine.waits_on, decide_eq_false_iff_not]; assumption)
    · rfl

set_option maxRecDepth 100000 in
/-- Witness of `lowerer_unresolved_pred`: the chain 0 -> 1 -> 2 -> 3 with the first hop not
listed in "7-Flows"; the MID flow 1 -> 2 is written `1->2 id 1 start 0 size 1000
send_done_trigger 1`. -/
theorem lowerer_unresolved_pred_witness :
    (lowerer_flows cfg_demo doc_missing_pred)[0]? = some flow_missing_pred ∧
    vec_find (lowerer_flows cfg_demo doc_missing_pred) flow_missing_pred.pred = none ∧
    lowerer_file cfg_demo doc_missing_pred =
      ["Nodes 4", "Connections 2", "Triggers 1",
       "1->2 id 1 start 0 size 1000 send_done_trigger 1",
       "2->3 id 2 trigger 1 size 1000", "trigger id 1 oneshot"] ∧
    ((∃ line, (lowerer_file cfg_demo doc_missing_pred)[3 + 0]? = some line ∧
      (flow_missing_pred.role = Role.ROLE_LAST →
        line = start_form flow_missing_pred.key.src flow_missing_pred.key.dst
          flow_missing_pred.id flow_missing_pred.size_bytes) ∧
      (flow_missing_pred.role = Role.ROLE_MID →
        line = if (succ_count (lowerer_flows cfg_demo doc_missing_pred)).getD
            (flow_missing_pred.id - 1).toNat 0 > 0
          then start_form flow_missing_pred.key.src flow_missing_pred.key.dst
            flow_missing_pred.id flow_missing_pred.size_bytes ++
              fire_suffix flow_missing_pred.id
          else start_form flow_missing_pred.key.src flow_missing_pred.key.dst
            flow_missing_pred.id flow_missing_pred.size_bytes)) ∧
    (∀ l ∈ lowerer_main cfg_demo doc_missing_pred, l.waits_on 0 = false)) :=
  ⟨by decide, by decide, by decide,
    lowerer_unresolved_pred cfg_demo doc_missing_pred 0 flow_missing_pred (by decide)
      (by decide)⟩


/-! ## Simulator: theorems -/

theorem host_to_rank_lt (hosts : List Int) (h : Int) (u : Nat)
    (hu : host_to_rank hosts h = some u) : u < hosts.length := by
  induction hosts generalizing u with
  | nil => simp [host_to_rank] at hu
  | cons x xs ih =>
    unfold host_to_rank at hu
    by_cases hx : x = h
    · rw [if_pos hx] at hu
      cases hu
      simp
    · rw [if_neg hx] at hu
      cases hr : host_to_rank xs h with
      | none => rw [hr] at hu; simp at hu
      | some i =>
        rw [hr] at hu
        simp only [Option.map_some', Option.some.injEq] at hu
        have := ih i hr
        subst hu
        simp only [List.length_cons]
        omega

theorem push_msg_length (L : List (List Msg)) (who : Nat) (m : Msg) :
    (push_msg L who m).length = L.length := by
  simp [push_msg]

theorem push_msg_getD (L : List (List Msg)) (who : Nat) (m : Msg) (r : Nat)
    (hw : who < L.length) :
    (push_msg L who m).getD r [] = if r = who then L.getD r [] ++ [m] else L.getD r [] := by
  unfold push_msg
  simp only [List.getD_eq_getElem?_getD, List.getElem?_set]
  by_cases h : who = r
  · subst h
    simp [hw]
  · rw [if_neg h, if_neg (fun hh => h hh.symm)]

theorem records_from_append (hosts : List Int) (a b : List (JEntry × String)) (n : Int)
    (ra rb : List Msg) (ha : records_from hosts n a = some ra)
    (hb : records_from hosts (n + (ra.length : Int)) b = some rb) :
    records_from hosts n (a ++ b) = some (ra ++ rb) := by
  induction a generalizing n ra with
  | nil =>
    simp only [records_from, Option.some.injEq] at ha
    subst ha
    simpa using hb
  | cons p ps ih =>
    simp only [List.cons_append]
    unfold records_from at ha ⊢
    cases h1 : hop_record hosts n p with
    | none => rw [h1] at ha; simp at ha
    | some m =>
      cases h2 : records_from hosts (n + 1) ps with
      | none => rw [h1, h2] at ha; simp at ha
      | some ms =>
        rw [h1, h2] at ha
        simp only [Option.some.injEq] at ha
        subst ha
        have hb2 : records_from hosts (n + 1 + (ms.length : Int)) b = some rb := by
          have e : n + 1 + (ms.length : Int) = n + ((m :: ms).length : Int) := by
            simp only [List.length_cons, Nat.cast_add, Nat.cast_one]; ring
          rw [e]; exact hb
        rw [ih (n + 1) ms h2 hb2]
        rfl

theorem records_from_length (hosts : List Int) (ps : List (JEntry × String)) (n : Int)
    (recs : List Msg) (h : records_from hosts n ps = some recs) : recs.length = ps.length := by
  induction ps generalizing n recs with
  | nil =>
    simp only [records_from, Option.some.injEq] at h
    subst h; rfl
  | cons p ps ih =>
    unfold records_from at h
    cases h1 : hop_record hosts n p with
    | none => rw [h1] at h; simp at h
    | some m =>
      cases h2 : records_from hosts (n + 1) ps with
      | none => rw [h1, h2] at h; simp at h
      | some ms =>
        rw [h1, h2] at h
        simp only [Option.some.injEq] at h
        subst h
        simp [ih (n + 1) ms h2]

theorem records_from_getElem? (hosts : List Int) (ps : List (JEntry × String)) (n : Int)
    (recs : List Msg) (h : records_from hosts n ps = some recs) (k : Nat) (p : JEntry × String)
    (hp : ps[k]? = some p) :
    ∃ m, hop_record hosts (n + (k : Int)) p = some m ∧ recs[k]? = some m := by
  induction ps generalizing n recs k with
  | nil => simp at hp
  | cons q ps ih =>
    unfold records_from at h
    cases h1 : hop_record hosts n q with
    | none => rw [h1] at h; simp at h
    | some m =>
      cases h2 : records_from hosts (n + 1) ps with
      | none => rw [h1, h2] at h; simp at h
      | some ms =>
        rw [h1, h2] at h
        simp only [Option.some.injEq] at h
        subst h
        cases k with
        | zero =>
          simp only [List.getElem?_cons_zero, Option.some.injEq] at hp
          subst hp
          exact ⟨m, by simpa using h1, by simp⟩
        | succ j =>
          simp only [List.getElem?_cons_succ] at hp
          obtain ⟨m2, hm2, hr⟩ := ih (n + 1) ms h2 j hp
          refine ⟨m2, ?_, by simpa using hr⟩
          have e : n + ((j + 1 : Nat) : Int) = n + 1 + (j : Int) := by
            simp only [Nat.cast_add, Nat.cast_one]; ring
          rw [e]; exact hm2

theorem hop_record_seq (hosts : List Int) (n : Int) (p : JEntry × String) (m : Msg)
    (h : hop_record hosts n p = some m) : m.seq = n := by
  unfold hop_record at h
  split at h
  · simp at h
  · split at h
    · simp at h
    · split at h
      · split at h
        · simp only [Option.some.injEq] at h
          subst h; rfl
        · simp at h
      · simp at h

theorem hop_record_ranks (hosts : List Int) (n : Int) (p : JEntry × String) (m : Msg)
    (h : hop_record hosts n p = some m) :
    ∃ u v o : Nat, m.src = (u : Int) ∧ m.dst = (v : Int) ∧ m.origin = (o : Int) ∧
      u < hosts.length ∧ v < hosts.length ∧ o < hosts.length := by
  unfold hop_record at h
  split at h
  · simp at h
  · split at h
    · simp at h
    · split at h
      · split at h
        · rename_i o _ _ _ ho _ _ _ u v hu hv
          simp only [Option.some.injEq] at h
          subst h
          exact ⟨u, v, o, rfl, rfl, rfl, host_to_rank_lt _ _ _ hu, host_to_rank_lt _ _ _ hv,
            host_to_rank_lt _ _ _ ho⟩
        · simp at h
      · simp at h

theorem records_from_seq_ge (hosts : List Int) (ps : List (JEntry × String)) (n : Int)
    (recs : List Msg) (h : records_from hosts n ps = some recs) :
    (∀ x ∈ recs, n ≤ x.seq) ∧ recs.Nodup := by
  induction ps generalizing n recs with
  | nil =>
    simp only [records_from, Option.some.injEq] at h
    subst h; simp
  | cons q ps ih =>
    unfold records_from at h
    cases h1 : hop_record hosts n q with
    | none => rw [h1] at h; simp at h
    | some m =>
      cases h2 : records_from hosts (n + 1) ps with
      | none => rw [h1, h2] at h; simp at h
      | some ms =>
        rw [h1, h2] at h
        simp only [Option.some.injEq] at h
        subst h
        obtain ⟨i1, i2⟩ := ih (n + 1) ms h2
        have hs := hop_record_seq _ _ _ _ h1
        refine ⟨?_, ?_⟩
        · intro x hx
          rcases List.mem_cons.mp hx with rfl | hx
          · omega
          · have := i1 x hx; omega
        · refine List.nodup_cons.mpr ⟨?_, i2⟩
          intro hm
          have := i1 m hm
          omega

theorem build_items_spec (hosts : List Int) (ent : JEntry) (key : String)
    (hname : ent.name = some key) (d c s E : Int)
    (hkey : parse_demand_key key = some (d, c, s, E)) (o : Nat)
    (ho : host_to_rank hosts s = some o) (items : List JLeaf) (st st2 : BuildState)
    (hlen : hosts.length = st.per_rank.length)
    (h : build_items hosts o c items st = some st2) :
    ∃ recs, records_from hosts st.seq_global
        ((items.filter fun s => decide (s.type = JType.jString)).map fun s =>
          (ent, s.valuestring)) = some recs ∧
      st2.seq_global = st.seq_global + (recs.length : Int) ∧
      st2.per_rank.length = st.per_rank.length ∧
      ∀ r : Nat, r < st.per_rank.length →
        st2.per_rank.getD r [] = st.per_rank.getD r [] ++
          recs.filter fun m => decide (m.src = (r : Int) ∨ m.dst = (r : Int)) := by
  induction items generalizing st with
  | nil =>
    simp only [build_items, Option.some.injEq] at h
    subst h
    exact ⟨[], rfl, by simp, rfl, by simp⟩
  | cons it rest ih =>
    unfold build_items at h
    by_cases hty : it.type ≠ JType.jString
    · rw [if_pos hty] at h
      obtain ⟨recs, h1, h2, h3, h4⟩ := ih st hlen h
      refine ⟨recs, ?_, h2, h3, h4⟩
      rw [List.filter_cons_of_neg (by simpa using hty)]
      exact h1
    · rw [if_neg hty] at h
      have hty2 : it.type = JType.jString := not_not.mp hty
      rw [List.filter_cons_of_pos (by simpa using hty2)]
      cases hp : parse_msg_string it.valuestring with
      | none => rw [hp] at h; simp at h
      | some t =>
        obtain ⟨u_h, v_h, e⟩ := t
        rw [hp] at h
        simp only at h
        cases hu : host_to_rank hosts u_h with
        | none => rw [hu] at h; simp at h
        | some u =>
          cases hv : host_to_rank hosts v_h with
          | none => rw [hu, hv] at h; simp at h
          | some v =>
            rw [hu, hv] at h
            simp only at h
            have hul : u < st.per_rank.length := hlen ▸ host_to_rank_lt _ _ _ hu
            have hvl : v < st.per_rank.length := hlen ▸ host_to_rank_lt _ _ _ hv
            generalize hm : ({ src := (u : Int), dst := (v : Int), epoch := e,
                               seq := st.seq_global, origin := (o : Int), chunk := c } : Msg)
                = m at h
            have hsrc : m.src = (u : Int) := by rw [← hm]
            have hdst : m.dst = (v : Int) := by rw [← hm]
            have hrec : hop_record hosts st.seq_global (ent, it.valuestring) = some m := by
              unfold hop_record
              simp only [hname, hkey, ho, hp, hu, hv, hm]
            have hlen2 : (if u = v then push_msg st.per_rank u m
                else push_msg (push_msg st.per_rank u m) v m).length = st.per_rank.length := by
              split <;> simp [push_msg_length]
            obtain ⟨recs, h1, h2, h3, h4⟩ := ih _ (by rw [hlen2]; exact hlen) h
            simp only at h1 h2 h3 h4
            refine ⟨m :: recs, ?_, ?_, ?_, ?_⟩
            · simp only [List.map_cons]
              unfold records_from
              rw [hrec, h1]
            · rw [h2]
              simp only [List.length_cons, Nat.cast_add, Nat.cast_one]
              ring
            · rw [h3, hlen2]
            · intro r hr
              rw [h4 r (by rw [hlen2]; exact hr)]
              have hpush : (if u = v then push_msg st.per_rank u m
                  else push_msg (push_msg st.per_rank u m) v m).getD r [] =
                  st.per_rank.getD r [] ++
                    [m].filter fun m => decide (m.src = (r : Int) ∨ m.dst = (r : Int)) := by
                by_cases huv : u = v
                · rw [if_pos huv, push_msg_getD _ _ _ _ hul]
                  subst huv
                  by_cases hru : r = u
                  · subst hru
                    simp [hsrc]
                  · have : ¬ ((u : Int) = (r : Int)) := fun hh => hru (by exact_mod_cast hh.symm)
                    simp [hru, this, hsrc, hdst]
                · rw [if_neg huv, push_msg_getD _ _ _ _ (by rw [push_msg_length]; exact hvl),
                    push_msg_getD _ _ _ _ hul]
                  by_cases hru : r = u
                  · subst hru
                    have : r ≠ v := huv
                    simp [this, hsrc]
                  · have h1 : ¬ ((u : Int) = (r : Int)) :=
                      fun hh => hru (by exact_mod_cast hh.symm)
                    by_cases hrv : r = v
                    · subst hrv
                      simp [hru, h1, hsrc, hdst]
                    · have h2 : ¬ ((v : Int) = (r : Int)) :=
                        fun hh => hrv (by exact_mod_cast hh.symm)
                      simp [hru, hrv, h1, h2, hsrc, hdst]
              rw [hpush, List.append_assoc, ← List.filter_append]
              rfl

theorem build_entries_spec (hosts : List Int) (entries : List JEntry) (st st2 : BuildState)
    (hlen : hosts.length = st.per_rank.length)
    (h : build_entries hosts entries st = some st2) :
    ∃ recs, records_from hosts st.seq_global (path_strings entries) = some recs ∧
      st2.seq_global = st.seq_global + (recs.length : Int) ∧
      st2.per_rank.length = st.per_rank.length ∧
      ∀ r : Nat, r < st.per_rank.length →
        st2.per_rank.getD r [] = st.per_rank.getD r [] ++
          recs.filter fun m => decide (m.src = (r : Int) ∨ m.dst = (r : Int)) := by
  induction entries generalizing st with
  | nil =>
    simp only [build_entries, Option.some.injEq] at h
    subst h
    exact ⟨[], rfl, by simp, rfl, by simp⟩
  | cons ent rest ih =>
    unfold build_entries at h
    cases hname : ent.name with
    | none => rw [hname] at h; simp at h
    | some key =>
      rw [hname] at h
      simp only at h
      cases hkey : parse_demand_key key with
      | none => rw [hkey] at h; simp at h
      | some t =>
        obtain ⟨d, c, s, E⟩ := t
        rw [hkey] at h
        simp only at h
        cases ho : host_to_rank hosts s with
        | none => rw [ho] at h; simp at h
        | some o =>
          rw [ho] at h
          simp only at h
          cases hb : build_items hosts o c ent.child st with
          | none => rw [hb] at h; simp at h
          | some st1 =>
            rw [hb] at h
            simp only at h
            obtain ⟨ra, a1, a2, a3, a4⟩ :=
              build_items_spec hosts ent key hname d c s E hkey o ho ent.child st st1 hlen hb
            obtain ⟨rb, b1, b2, b3, b4⟩ := ih st1 (by rw [a3]; exact hlen) h
            refine ⟨ra ++ rb, ?_, ?_, ?_, ?_⟩
            · unfold path_strings
              exact records_from_append hosts _ _ _ ra rb a1 (by rw [← a2]; exact b1)
            · rw [b2, a2]
              simp only [List.length_append, Nat.cast_add]
              ring
            · rw [b3, a3]
            · intro r hr
              rw [b4 r (by rw [a3]; exact hr), a4 r hr, List.append_assoc, List.filter_append]

theorem sort_per_rank_length (L : List (List Msg)) : (sort_per_rank L).length = L.length := by
  simp [sort_per_rank]

theorem sort_per_rank_perm (L : List (List Msg)) (r : Nat) :
    ((sort_per_rank L).getD r []).Perm (L.getD r []) := by
  unfold sort_per_rank
  simp only [List.getD_eq_getElem?_getD, List.getElem?_map]
  cases L[r]? with
  | none => simp
  | some l =>
    simp only [Option.map_some', Option.getD_some]
    split
    · exact List.perm_insertionSort _ _
    · exact List.Perm.refl _

theorem build_messages_rank0_spec (root : ScheduleDoc) (world_size : Int) (L : Loaded)
    (h : build_messages_rank0 root world_size = some L) :
    ∃ paths recs, root.chunk_paths = some paths ∧ paths.type = JType.jObject ∧
      doc_records L.host_ids paths = some recs ∧
      recs.length = (path_strings paths.child).length ∧
      (L.host_ids.length : Int) = world_size ∧ L.per_rank.length = L.host_ids.length ∧
      ∀ r : Nat, r < L.host_ids.length →
        (L.per_rank.getD r []).Perm
          (recs.filter fun m => decide (m.src = (r : Int) ∨ m.dst = (r : Int))) := by
  unfold build_messages_rank0 at h
  cases hcp : root.chunk_paths with
  | none => rw [hcp] at h; simp at h
  | some paths =>
    rw [hcp] at h
    simp only at h
    by_cases hty : paths.type ≠ JType.jObject
    · rw [if_pos hty] at h; simp at h
    · rw [if_neg hty] at h
      cases hs : scan_hosts_entries paths.child [] with
      | none => rw [hs] at h; simp at h
      | some hosts =>
        rw [hs] at h
        simp only at h
        by_cases hw : world_size ≠ (hosts.length : Int)
        · rw [if_pos hw] at h; simp at h
        · rw [if_neg hw] at h
          have hw2 : world_size = (hosts.length : Int) := not_not.mp hw
          cases hb : build_entries hosts paths.child
              { per_rank := List.replicate world_size.toNat [], seq_global := 0,
                max_epoch := 0 } with
          | none => rw [hb] at h; simp at h
          | some st =>
            rw [hb] at h
            simp only [Option.some.injEq] at h
            subst h
            have hl : hosts.length = (List.replicate world_size.toNat ([] : List Msg)).length := by
              rw [List.length_replicate, hw2]; simp
            obtain ⟨recs, a1, -, a3, a4⟩ := build_entries_spec hosts paths.child _ st hl hb
            simp only at a1 a3 a4
            refine ⟨paths, recs, rfl, not_not.mp hty, a1, records_from_length _ _ _ _ a1,
              hw2.symm, ?_, ?_⟩
            · simp only [sort_per_rank_length]
              rw [a3, ← hl]
            · intro r hr
              refine (sort_per_rank_perm _ r).trans ?_
              simp only at hr
              rw [a4 r (by rw [← hl]; exact hr)]
              have : (List.replicate world_size.toNat ([] : List Msg)).getD r [] = [] := by
                simp only [List.getD_eq_getElem?_getD, List.getElem?_replicate]
                split <;> rfl
              rw [this, List.nil_append]

theorem records_from_seq (hosts : List Int) (ps : List (JEntry × String)) (n : Int)
    (recs : List Msg) (h : records_from hosts n ps = some recs) (i : Nat) (x : Msg)
    (hx : recs[i]? = some x) :
    x.seq = n + (i : Int) ∧ ∃ p, ps[i]? = some p ∧ hop_record hosts (n + (i : Int)) p = some x := by
  have hl := records_from_length _ _ _ _ h
  have hi : i < ps.length := by
    rw [← hl]
    exact (List.getElem?_eq_some.mp hx).1
  obtain ⟨m, hm1, hm2⟩ := records_from_getElem? hosts ps n recs h i ps[i]
    (List.getElem?_eq_getElem hi)
  rw [hx] at hm2
  cases hm2
  exact ⟨hop_record_seq _ _ _ _ hm1, ps[i], List.getElem?_eq_getElem hi, hm1⟩

theorem nodup_all_eq (l : List Msg) (m : Msg) (hn : l.Nodup) (ha : ∀ x ∈ l, x = m) :
    l = if m ∈ l then [m] else [] := by
  match l, hn, ha with
  | [], _, _ => simp
  | [a], _, ha =>
    have := ha a (by simp)
    subst this
    simp
  | a :: b :: t, hn, ha =>
    have h1 := ha a (by simp)
    have h2 := ha b (by simp)
    rw [h1, h2] at hn
    simp at hn

theorem sum_indicator_two (u v n : Nat) :
    ((List.range n).map fun r => if r = u ∨ r = v then 1 else 0).sum =
      (if u < n then 1 else 0) + (if v < n ∧ v ≠ u then 1 else 0) := by
  induction n with
  | zero => simp
  | succ n ih =>
    rw [List.range_succ, List.map_append, List.sum_append, ih]
    simp only [List.map_cons, List.map_nil, List.sum_cons, List.sum_nil, add_zero]
    split_ifs <;> omega

/-- C16: when `build_messages_rank0` returns, the path-string at position `k` of the document
(`k = 0, 1, 2, ...`) has one hop record `m` with `seq = k`, `src` and `dst` the ranks `u`, `v`
of its two hosts, `origin` the rank of the origin host of its demand and `chunk` the chunk of
its demand (`hop_record`).  In the list of worker `r` the records with `seq = k` are exactly
`[m]` when `r = u` or `r = v` and none otherwise, so no list holds two records with one `seq`
and over all lists there are two identical records with `seq = k` when `u ≠ v` (one when
`u = v`).  Every record of a list is the hop record of some path-string, and every record a
worker is to receive also stands in the list of its sender. -/
theorem build_messages_rank0_records (root : ScheduleDoc) (world_size : Int) (L : Loaded)
    (h : build_messages_rank0 root world_size = some L) :
    ∃ paths, root.chunk_paths = some paths ∧ (L.per_rank.length : Int) = world_size ∧
      (∀ (k : Nat) (p : JEntry × String), (path_strings paths.child)[k]? = some p →
        ∃ (m : Msg) (u v : Nat), hop_record L.host_ids (k : Int) p = some m ∧
          m.seq = (k : Int) ∧ m.src = (u : Int) ∧ m.dst = (v : Int) ∧
          u < L.per_rank.length ∧ v < L.per_rank.length ∧
          (∀ r : Nat, r < L.per_rank.length →
            ((L.per_rank.getD r []).filter fun x => decide (x.seq = (k : Int)))
              = if r = u ∨ r = v then [m] else []) ∧
          ((List.range L.per_rank.length).map fun r =>
            ((L.per_rank.getD r []).filter fun x => decide (x.seq = (k : Int))).length).sum
              = if u = v then 1 else 2) ∧
      (∀ (r : Nat) (x : Msg), x ∈ L.per_rank.getD r [] →
        (x.src = (r : Int) ∨ x.dst = (r : Int)) ∧
        ∃ (k : Nat) (p : JEntry × String), (path_strings paths.child)[k]? = some p ∧
          hop_record L.host_ids (k : Int) p = some x) ∧
      (∀ (r : Nat) (x : Msg), x ∈ L.per_rank.getD r [] → x.dst = (r : Int) → x.src ≠ x.dst →
        ∃ u : Nat, x.src = (u : Int) ∧ x ∈ L.per_rank.getD u []) := by
  obtain ⟨paths, recs, hcp, -, hrecs, hrl, hW, hlen, hperm⟩ :=
    build_messages_rank0_spec root world_size L h
  unfold doc_records at hrecs
  have hnodup := (records_from_seq_ge _ _ _ _ hrecs).2
  have hmem : ∀ (r : Nat) (x : Msg), x ∈ L.per_rank.getD r [] →
      r < L.host_ids.length ∧ x ∈ recs ∧ (x.src = (r : Int) ∨ x.dst = (r : Int)) := by
    intro r x hx
    have hr : r < L.host_ids.length := by
      by_contra hcon
      rw [List.getD_eq_default _ _ (by omega)] at hx
      simp at hx
    have := (hperm r hr).mem_iff.mp hx
    rw [List.mem_filter] at this
    exact ⟨hr, this.1, by simpa using this.2⟩
  have hof : ∀ x ∈ recs, ∃ (k : Nat) (p : JEntry × String),
      (path_strings paths.child)[k]? = some p ∧ hop_record L.host_ids (k : Int) p = some x ∧
      recs[k]? = some x := by
    intro x hx
    obtain ⟨i, hi⟩ := List.getElem?_of_mem hx
    obtain ⟨-, p, hp1, hp2⟩ := records_from_seq _ _ _ _ hrecs i x hi
    rw [zero_add] at hp2
    exact ⟨i, p, hp1, hp2, hi⟩
  refine ⟨paths, hcp, by rw [hlen]; exact hW, ?_, ?_, ?_⟩
  · intro k p hp
    obtain ⟨m, hm1, hm2⟩ := records_from_getElem? _ _ _ _ hrecs k p hp
    rw [zero_add] at hm1
    obtain ⟨u, v, o, hu, hv, -, hul, hvl, -⟩ := hop_record_ranks _ _ _ _ hm1
    have hfil : ∀ r : Nat, r < L.per_rank.length →
        ((L.per_rank.getD r []).filter fun x => decide (x.seq = (k : Int)))
          = if r = u ∨ r = v then [m] else [] := by
      intro r hr
      have hP := (hperm r (by omega)).filter fun x => decide (x.seq = (k : Int))
      have hG := nodup_all_eq
        ((recs.filter fun m => decide (m.src = (r : Int) ∨ m.dst = (r : Int))).filter
          fun x => decide (x.seq = (k : Int))) m ((hnodup.filter _).filter _) (by
          intro x hx
          simp only [List.mem_filter, decide_eq_true_eq] at hx
          obtain ⟨⟨hxr, -⟩, hxs⟩ := hx
          obtain ⟨i, hi⟩ := List.getElem?_of_mem hxr
          have := (records_from_seq _ _ _ _ hrecs i x hi).1
          have hik : i = k := by omega
          subst hik
          rw [hi] at hm2
          exact Option.some.inj hm2)
      have hmG : m ∈ ((recs.filter fun m => decide (m.src = (r : Int) ∨ m.dst = (r : Int))).filter
          fun x => decide (x.seq = (k : Int))) ↔ (r = u ∨ r = v) := by
        have hmr : m ∈ recs := (List.mem_iff_getElem?.mpr ⟨k, hm2⟩)
        simp only [List.mem_filter, decide_eq_true_eq, hu, hv, hop_record_seq _ _ _ _ hm1,
          and_true, hmr, true_and]
        constructor
        · rintro (h | h)
          · left; exact_mod_cast h.symm
          · right; exact_mod_cast h.symm
        · rintro (h | h)
          · left; rw [h]
          · right; rw [h]
      rw [hG] at hP
      by_cases hc : r = u ∨ r = v
      · rw [if_pos hc]
        rw [if_pos (hmG.mpr hc)] at hP
        exact List.perm_singleton.mp hP
      · rw [if_neg hc]
        rw [if_neg (fun hh => hc (hmG.mp hh))] at hP
        exact List.perm_nil.mp hP
    refine ⟨m, u, v, hm1, hop_record_seq _ _ _ _ hm1, hu, hv, by omega, by omega, hfil, ?_⟩
    have hmap : ((List.range L.per_rank.length).map fun r =>
        ((L.per_rank.getD r []).filter fun x => decide (x.seq = (k : Int))).length)
        = (List.range L.per_rank.length).map fun r => if r = u ∨ r = v then 1 else 0 := by
      apply List.map_congr_left
      intro r hr
      rw [hfil r (List.mem_range.mp hr)]
      split <;> rfl
    rw [hmap, sum_indicator_two]
    have h1 : u < L.per_rank.length := by omega
    have h2 : v < L.per_rank.length := by omega
    by_cases huv : u = v
    · simp [h1, h2, huv]
    · have : v ≠ u := fun hh => huv hh.symm
      simp [h1, h2, huv, this]
  · intro r x hx
    obtain ⟨-, hxr, hsd⟩ := hmem r x hx
    obtain ⟨k, p, h1, h2, -⟩ := hof x hxr
    exact ⟨hsd, k, p, h1, h2⟩
  · intro r x hx hd hne
    obtain ⟨-, hxr, -⟩ := hmem r x hx
    obtain ⟨k, p, -, h2, -⟩ := hof x hxr
    obtain ⟨u, v, o, hu, -, -, hul, -, -⟩ := hop_record_ranks _ _ _ _ h2
    refine ⟨u, hu, ?_⟩
    apply (hperm u hul).mem_iff.mpr
    rw [List.mem_filter]
    exact ⟨hxr, by simp [hu]⟩

set_option maxRecDepth 100000 in
/-- Witness of C16: the schedule `doc_two_deliveries` with three workers. -/
theorem build_messages_rank0_records_witness :
    build_messages_rank0 doc_two_deliveries 3 = some loaded_two_deliveries ∧
    ∃ paths, doc_two_deliveries.chunk_paths = some paths ∧
      (loaded_two_deliveries.per_rank.length : Int) = 3 ∧
      (∀ (k : Nat) (p : JEntry × String), (path_strings paths.child)[k]? = some p →
        ∃ (m : Msg) (u v : Nat), hop_record loaded_two_deliveries.host_ids (k : Int) p = some m ∧
          m.seq = (k : Int) ∧ m.src = (u : Int) ∧ m.dst = (v : Int) ∧
          u < loaded_two_deliveries.per_rank.length ∧
          v < loaded_two_deliveries.per_rank.length ∧
          (∀ r : Nat, r < loaded_two_deliveries.per_rank.length →
            ((loaded_two_deliveries.per_rank.getD r []).filter fun x =>
              decide (x.seq = (k : Int))) = if r = u ∨ r = v then [m] else []) ∧
          ((List.range loaded_two_deliveries.per_rank.length).map fun r =>
            ((loaded_two_deliveries.per_rank.getD r []).filter fun x =>
              decide (x.seq = (k : Int))).length).sum = if u = v then 1 else 2) ∧
      (∀ (r : Nat) (x : Msg), x ∈ loaded_two_deliveries.per_rank.getD r [] →
        (x.src = (r : Int) ∨ x.dst = (r : Int)) ∧
        ∃ (k : Nat) (p : JEntry × String), (path_strings paths.child)[k]? = some p ∧
          hop_record loaded_two_deliveries.host_ids (k : Int) p = some x) ∧
      (∀ (r : Nat) (x : Msg), x ∈ loaded_two_deliveries.per_rank.getD r [] → x.dst = (r : Int) →
        x.src ≠ x.dst → ∃ u : Nat, x.src = (u : Int) ∧
          x ∈ loaded_two_deliveries.per_rank.getD u []) :=
  ⟨by decide, build_messages_rank0_records doc_two_deliveries 3 loaded_two_deliveries
    (by decide)⟩


/-- C18 (amended): when `build_messages_rank0` returns, the list of worker `v` holds, for
every pair `(origin, chunk)`, exactly one record with `dst = v`, `src ≠ v` and that pair for
each path-string of the document whose hop record has `dst = v`, `src ≠ v` and that pair:
as many receives into one slot as there are path-strings that deliver it. -/
theorem build_messages_rank0_receives (root : ScheduleDoc) (world_size : Int) (L : Loaded)
    (h : build_messages_rank0 root world_size = some L) :
    ∃ paths recs, root.chunk_paths = some paths ∧ doc_records L.host_ids paths = some recs ∧
      recs.length = (path_strings paths.child).length ∧
      ∀ (v : Nat) (origin chunk : Int), v < L.per_rank.length →
        ((L.per_rank.getD v []).filter fun x =>
          decide (x.dst = (v : Int) ∧ x.src ≠ (v : Int) ∧ x.origin = origin ∧ x.chunk = chunk)).length
          = (recs.filter fun x =>
          decide (x.dst = (v : Int) ∧ x.src ≠ (v : Int) ∧ x.origin = origin ∧ x.chunk = chunk)).length := by
  obtain ⟨paths, recs, hcp, -, hrecs, hrl, -, hlen, hperm⟩ :=
    build_messages_rank0_spec root world_size L h
  refine ⟨paths, recs, hcp, hrecs, hrl, ?_⟩
  intro v origin chunk hv
  rw [((hperm v (by omega)).filter _).length_eq, List.filter_filter]
  congr 1
  apply List.filter_congr
  intro x _
  by_cases hd : x.dst = (v : Int) <;> simp [hd]

set_option maxRecDepth 100000 in
/-- Witness of C18 (amended): the schedule `doc_two_deliveries` with three workers. -/
theorem build_messages_rank0_receives_witness :
    build_messages_rank0 doc_two_deliveries 3 = some loaded_two_deliveries ∧
    ∃ paths recs, doc_two_deliveries.chunk_paths = some paths ∧
      doc_records loaded_two_deliveries.host_ids paths = some recs ∧
      recs.length = (path_strings paths.child).length ∧
      ∀ (v : Nat) (origin chunk : Int), v < loaded_two_deliveries.per_rank.length →
        ((loaded_two_deliveries.per_rank.getD v []).filter fun x =>
          decide (x.dst = (v : Int) ∧ x.src ≠ (v : Int) ∧ x.origin = origin ∧ x.chunk = chunk)).length
          = (recs.filter fun x =>
          decide (x.dst = (v : Int) ∧ x.src ≠ (v : Int) ∧ x.origin = origin ∧ x.chunk = chunk)).length :=
  ⟨by decide, build_messages_rank0_receives doc_two_deliveries 3 loaded_two_deliveries
    (by decide)⟩

set_option maxRecDepth 100000 in
/-- C18 (counterexample): `doc_two_deliveries` loads with three workers (host 2 is rank 0,
host 0 rank 1, host 1 rank 2).  Two path-strings carry chunk 0 of host 0 from host 0 to
host 1, so the list of worker 2 holds two records with `dst = 2`, `src ≠ 2`, origin 1 and
chunk 0, and in epoch 0 worker 2 posts two receives into the same slot (offset 4 with one
chunk of four integers per host). -/
theorem build_messages_rank0_two_receives_one_slot :
    build_messages_rank0 doc_two_deliveries 3 = some loaded_two_deliveries ∧
    ((loaded_two_deliveries.per_rank.getD 2 []).filter fun x =>
      decide (x.dst = 2 ∧ x.src ≠ 2 ∧ x.origin = 1 ∧ x.chunk = 0)) =
      [{ src := 1, dst := 2, epoch := 0, seq := 0, origin := 1, chunk := 0 },
       { src := 1, dst := 2, epoch := 0, seq := 2, origin := 1, chunk := 0 }] ∧
    simulate_epochs 2 (loaded_two_deliveries.per_rank.getD 2 []) (data_per_host_of 1 4) 4
        loaded_two_deliveries.max_epoch =
      [[Request.irecv 4 4 1 0, Request.irecv 4 4 1 2], [Request.isend 4 4 0 1]] := by
  decide

/-- C19 (amended): with `chunk_ints > 0` and a buffer size `W * num_chunks * chunk_ints` that
fits in an `int`, the slot of `(origin, chunk)` with `0 ≤ origin < W` and
`0 ≤ chunk < num_chunks` starts at `origin * num_chunks * chunk_ints + chunk * chunk_ints`,
lies with its `chunk_ints` integers inside the buffer of
`total_ints = W * num_chunks * chunk_ints` integers, and the slots of two different pairs do
not overlap. -/
theorem slot_in_buffer_disjoint (W num_chunks chunk_ints origin chunk origin2 chunk2 : Int)
    (hci : 0 < chunk_ints) (hfit : W * num_chunks * chunk_ints < 2147483648)
    (ho : 0 ≤ origin ∧ origin < W) (hc : 0 ≤ chunk ∧ chunk < num_chunks)
    (ho2 : 0 ≤ origin2 ∧ origin2 < W) (hc2 : 0 ≤ chunk2 ∧ chunk2 < num_chunks) :
    slot_offset origin chunk (data_per_host_of num_chunks chunk_ints) chunk_ints
        = origin * num_chunks * chunk_ints + chunk * chunk_ints ∧
    total_ints_of (data_per_host_of num_chunks chunk_ints) W = W * num_chunks * chunk_ints ∧
    0 ≤ slot_offset origin chunk (data_per_host_of num_chunks chunk_ints) chunk_ints ∧
    slot_offset origin chunk (data_per_host_of num_chunks chunk_ints) chunk_ints + chunk_ints
        ≤ total_ints_of (data_per_host_of num_chunks chunk_ints) W ∧
    ((origin, chunk) ≠ (origin2, chunk2) →
      slot_offset origin chunk (data_per_host_of num_chunks chunk_ints) chunk_ints + chunk_ints
          ≤ slot_offset origin2 chunk2 (data_per_host_of num_chunks chunk_ints) chunk_ints ∨
      slot_offset origin2 chunk2 (data_per_host_of num_chunks chunk_ints) chunk_ints + chunk_ints
          ≤ slot_offset origin chunk (data_per_host_of num_chunks chunk_ints) chunk_ints) := by
  obtain ⟨ho0, ho1⟩ := ho
  obtain ⟨hc0, hc1⟩ := hc
  obtain ⟨ho20, ho21⟩ := ho2
  obtain ⟨hc20, hc21⟩ := hc2
  have hN : 0 < num_chunks := by omega
  have hD : 0 < num_chunks * chunk_ints := mul_pos hN hci
  have hW : 1 ≤ W := by omega
  have hWD : num_chunks * chunk_ints ≤ W * (num_chunks * chunk_ints) :=
    le_mul_of_one_le_left hD.le hW
  have hfit2 : W * (num_chunks * chunk_ints) < 2147483648 := by
    rw [← mul_assoc]; exact hfit
  have k1 : chunk * chunk_ints + chunk_ints ≤ num_chunks * chunk_ints := by nlinarith
  have k2 : chunk2 * chunk_ints + chunk_ints ≤ num_chunks * chunk_ints := by nlinarith
  have k3 : 0 ≤ chunk * chunk_ints := mul_nonneg hc0 hci.le
  have k4 : 0 ≤ chunk2 * chunk_ints := mul_nonneg hc20 hci.le
  have k5 : 0 ≤ origin * (num_chunks * chunk_ints) := mul_nonneg ho0 hD.le
  have k6 : 0 ≤ origin2 * (num_chunks * chunk_ints) := mul_nonneg ho20 hD.le
  have e7 : (origin + 1) * (num_chunks * chunk_ints) =
      origin * (num_chunks * chunk_ints) + num_chunks * chunk_ints := by ring
  have e8 : (origin2 + 1) * (num_chunks * chunk_ints) =
      origin2 * (num_chunks * chunk_ints) + num_chunks * chunk_ints := by ring
  have k7 : (origin + 1) * (num_chunks * chunk_ints) ≤ W * (num_chunks * chunk_ints) :=
    mul_le_mul_of_nonneg_right (by omega) hD.le
  have k8 : (origin2 + 1) * (num_chunks * chunk_ints) ≤ W * (num_chunks * chunk_ints) :=
    mul_le_mul_of_nonneg_right (by omega) hD.le
  have hd : data_per_host_of num_chunks chunk_ints = num_chunks * chunk_ints := by
    unfold data_per_host_of
    exact wrap_int_of_range _ (by linarith) (by linarith)
  have ht : total_ints_of (num_chunks * chunk_ints) W = W * num_chunks * chunk_ints := by
    unfold total_ints_of
    rw [wrap_int_of_range _ (by linarith) (by linarith)]
    ring
  have hs1 : slot_offset origin chunk (num_chunks * chunk_ints) chunk_ints =
      origin * (num_chunks * chunk_ints) + chunk * chunk_ints := by
    unfold slot_offset
    rw [wrap_int_of_range _ (by linarith) (by linarith),
      wrap_int_of_range _ (by linarith) (by linarith)]
  have hs2 : slot_offset origin2 chunk2 (num_chunks * chunk_ints) chunk_ints =
      origin2 * (num_chunks * chunk_ints) + chunk2 * chunk_ints := by
    unfold slot_offset
    rw [wrap_int_of_range _ (by linarith) (by linarith),
      wrap_int_of_range _ (by linarith) (by linarith)]
  rw [hd, ht, hs1, hs2]
  refine ⟨by ring, rfl, by linarith, ?_, ?_⟩
  · have e : (origin + 1) * (num_chunks * chunk_ints) =
        origin * (num_chunks * chunk_ints) + num_chunks * chunk_ints := by ring
    have e2 : W * num_chunks * chunk_ints = W * (num_chunks * chunk_ints) := by ring
    linarith
  · intro hne
    rcases lt_trichotomy origin origin2 with h | h | h
    · left
      have h1 : (origin + 1) * (num_chunks * chunk_ints) ≤ origin2 * (num_chunks * chunk_ints) :=
        mul_le_mul_of_nonneg_right (by omega) hD.le
      have e : (origin + 1) * (num_chunks * chunk_ints) =
          origin * (num_chunks * chunk_ints) + num_chunks * chunk_ints := by ring
      linarith
    · subst h
      have hcne : chunk ≠ chunk2 := fun h => hne (by rw [h])
      rcases lt_or_gt_of_ne hcne with h | h
      · left
        have h1 : (chunk + 1) * chunk_ints ≤ chunk2 * chunk_ints :=
          mul_le_mul_of_nonneg_right (by omega) hci.le
        have e : (chunk + 1) * chunk_ints = chunk * chunk_ints + chunk_ints := by ring
        linarith
      · right
        have h1 : (chunk2 + 1) * chunk_ints ≤ chunk * chunk_ints :=
          mul_le_mul_of_nonneg_right (by omega) hci.le
        have e : (chunk2 + 1) * chunk_ints = chunk2 * chunk_ints + chunk_ints := by ring
        linarith
    · right
      have h1 : (origin2 + 1) * (num_chunks * chunk_ints) ≤ origin * (num_chunks * chunk_ints) :=
        mul_le_mul_of_nonneg_right (by omega) hD.le
      have e : (origin2 + 1) * (num_chunks * chunk_ints) =
          origin2 * (num_chunks * chunk_ints) + num_chunks * chunk_ints := by ring
      linarith

/-- Witness of C19 (amended): three workers, two chunks of four integers, slots `(1, 1)` and
`(2, 0)`. -/
theorem slot_in_buffer_disjoint_witness :
    ((0 : Int) < 4 ∧ (3 : Int) * 2 * 4 < 2147483648 ∧ ((0 : Int) ≤ 1 ∧ (1 : Int) < 3) ∧
      ((0 : Int) ≤ 1 ∧ (1 : Int) < 2) ∧ ((0 : Int) ≤ 2 ∧ (2 : Int) < 3) ∧
      ((0 : Int) ≤ 0 ∧ (0 : Int) < 2)) ∧
    slot_offset 1 1 (data_per_host_of 2 4) 4 = 1 * 2 * 4 + 1 * 4 ∧
    total_ints_of (data_per_host_of 2 4) 3 = 3 * 2 * 4 ∧
    0 ≤ slot_offset 1 1 (data_per_host_of 2 4) 4 ∧
    slot_offset 1 1 (data_per_host_of 2 4) 4 + 4 ≤ total_ints_of (data_per_host_of 2 4) 3 ∧
    (((1 : Int), (1 : Int)) ≠ (2, 0) →
      slot_offset 1 1 (data_per_host_of 2 4) 4 + 4 ≤ slot_offset 2 0 (data_per_host_of 2 4) 4 ∨
      slot_offset 2 0 (data_per_host_of 2 4) 4 + 4 ≤ slot_offset 1 1 (data_per_host_of 2 4) 4) :=
  ⟨by decide, slot_in_buffer_disjoint 3 2 4 1 1 2 0 (by decide) (by decide) (by decide)
    (by decide) (by decide) (by decide)⟩

/-- C19 (counterexample): four workers, four chunks of one gigabyte (250000000 integers
each): origin 3 and chunk 0 are in range, the slot should start at `3 * 4 * 250000000`
inside a buffer of `4 * 4 * 250000000` integers, but neither number fits in an `int`: the
offset the code computes is negative and so is `total_ints`. -/
theorem slot_offset_overflow :
    chunk_ints_of 1000000000 = 250000000 ∧
    (3 : Int) * 4 * 250000000 + 0 * 250000000 = 3000000000 ∧
    (4 : Int) * 4 * 250000000 = 4000000000 ∧
    data_per_host_of 4 250000000 = 1000000000 ∧
    total_ints_of (data_per_host_of 4 250000000) 4 = -294967296 ∧
    slot_offset 3 0 (data_per_host_of 4 250000000) 250000000 = -1294967296 ∧
    ¬ (0 ≤ slot_offset 3 0 (data_per_host_of 4 250000000) 250000000) := by
  decide

theorem first_mismatch_none_iff (sim ref : List Int) (total : Nat) :
    first_mismatch sim ref total = none ↔ ∀ i, i < total → sim.getD i 0 = ref.getD i 0 := by
  unfold first_mismatch
  rw [List.find?_eq_none]
  simp

theorem first_mismatch_some (sim ref : List Int) (total i : Nat)
    (h : first_mismatch sim ref total = some i) :
    i < total ∧ sim.getD i 0 ≠ ref.getD i 0 ∧ ∀ j, j < i → sim.getD j 0 = ref.getD j 0 := by
  unfold first_mismatch at h
  rw [List.find?_range_eq_some] at h
  obtain ⟨hp, hm, hall⟩ := h
  refine ⟨List.mem_range.mp hm, by simpa using hp, ?_⟩
  intro j hj
  simpa using hall j hj

theorem local_ok_eq_one_iff (sim ref : List Int) (total : Nat) :
    local_ok sim ref total = 1 ↔ ∀ i, i < total → sim.getD i 0 = ref.getD i 0 := by
  unfold local_ok
  split
  · rename_i h
    simp only [true_iff]
    simpa using h
  · rename_i h
    simp only [zero_ne_one, false_iff]
    simpa using h

theorem getD_ext (sim ref : List Int) (total : Nat) (h1 : sim.length = total)
    (h2 : ref.length = total) :
    (∀ i, i < total → sim.getD i 0 = ref.getD i 0) ↔ sim = ref := by
  constructor
  · intro h
    apply List.ext_getElem (by omega)
    intro i hi1 hi2
    have := h i (by omega)
    rwa [List.getD_eq_getElem _ _ hi1, List.getD_eq_getElem _ _ hi2] at this
  · rintro rfl i _
    rfl

/-- C20: for buffers of `total_ints = W * data_per_host` integers with `data_per_host > 0`
the comparison of `main` reports OK exactly when the buffers are equal; otherwise it reports
the least index `i` where they differ, the two values there, `slice = i / data_per_host` and
`pos = i % data_per_host`, with `i = slice * data_per_host + pos`, `0 ≤ pos < data_per_host`
and `0 ≤ slice < W`.  The flag `local_ok` is 1 exactly when the report is OK, and the reduced
value `all_ok` is non-zero (rank 0 prints the success line) exactly when the flag of every
worker is 1. -/
theorem compare_report_spec (sim_global mpi_buf : List Int) (W total_ints : Nat)
    (data_per_host : Int) (hsim : sim_global.length = total_ints)
    (hmpi : mpi_buf.length = total_ints) (htot : (total_ints : Int) = W * data_per_host)
    (hd : 0 < data_per_host) :
    (compare_report sim_global mpi_buf total_ints data_per_host = CompareReport.ok ↔
      sim_global = mpi_buf) ∧
    (compare_report sim_global mpi_buf total_ints data_per_host ≠ CompareReport.ok →
      ∃ i : Nat, i < total_ints ∧ sim_global.getD i 0 ≠ mpi_buf.getD i 0 ∧
        (∀ j, j < i → sim_global.getD j 0 = mpi_buf.getD j 0) ∧
        compare_report sim_global mpi_buf total_ints data_per_host =
          CompareReport.mismatch (i : Int) ((i : Int) / data_per_host) ((i : Int) % data_per_host)
            (sim_global.getD i 0) (mpi_buf.getD i 0) ∧
        (i : Int) = (i : Int) / data_per_host * data_per_host + (i : Int) % data_per_host ∧
        0 ≤ (i : Int) % data_per_host ∧ (i : Int) % data_per_host < data_per_host ∧
        0 ≤ (i : Int) / data_per_host ∧ (i : Int) / data_per_host < (W : Int)) ∧
    (local_ok sim_global mpi_buf total_ints = 1 ↔
      compare_report sim_global mpi_buf total_ints data_per_host = CompareReport.ok) ∧
    (local_ok sim_global mpi_buf total_ints = 1 ∨ local_ok sim_global mpi_buf total_ints = 0) ∧
    (∀ workers : List (List Int × List Int),
      (all_ok (workers.map fun b => local_ok b.1 b.2 total_ints) ≠ 0 ↔
        ∀ b ∈ workers, local_ok b.1 b.2 total_ints = 1) ∧
      (result_line (all_ok (workers.map fun b => local_ok b.1 b.2 total_ints))
          = "[RESULT] Tutti i rank hanno sim_global == MPI_Allgather " ↔
        ∀ b ∈ workers, local_ok b.1 b.2 total_ints = 1)) := by
  have hok : compare_report sim_global mpi_buf total_ints data_per_host = CompareReport.ok ↔
      first_mismatch sim_global mpi_buf total_ints = none := by
    unfold compare_report
    cases first_mismatch sim_global mpi_buf total_ints <;> simp
  refine ⟨?_, ?_, ?_, ?_, ?_⟩
  · rw [hok, first_mismatch_none_iff, getD_ext _ _ _ hsim hmpi]
  · intro hne
    rw [Ne, hok] at hne
    obtain ⟨i, hi⟩ := Option.ne_none_iff_exists'.mp hne
    obtain ⟨h1, h2, h3⟩ := first_mismatch_some _ _ _ _ hi
    have hi0 : (0 : Int) ≤ (i : Int) := Int.ofNat_nonneg i
    refine ⟨i, h1, h2, h3, ?_, ?_, ?_, ?_, ?_, ?_⟩
    · unfold compare_report
      rw [hi]
      simp only [Int.tdiv_eq_ediv hi0 hd.le, Int.tmod_eq_emod hi0 hd.le]
    · have := Int.ediv_add_emod (i : Int) data_per_host
      linarith [mul_comm data_per_host ((i : Int) / data_per_host)]
    · exact Int.emod_nonneg _ hd.ne'
    · exact Int.emod_lt_of_pos _ hd
    · exact Int.ediv_nonneg hi0 hd.le
    · apply Int.ediv_lt_of_lt_mul hd
      have : (i : Int) < (total_ints : Int) := by exact_mod_cast h1
      linarith
  · rw [hok, first_mismatch_none_iff, local_ok_eq_one_iff]
  · unfold local_ok
    split
    · exact Or.inl rfl
    · exact Or.inr rfl
  · intro workers
    have hall : all_ok (workers.map fun b => local_ok b.1 b.2 total_ints) ≠ 0 ↔
        ∀ b ∈ workers, local_ok b.1 b.2 total_ints = 1 := by
      unfold all_ok
      have key : ((workers.map fun b => local_ok b.1 b.2 total_ints).all
          fun x => decide (x ≠ 0)) = true ↔ ∀ b ∈ workers, local_ok b.1 b.2 total_ints = 1 := by
        simp only [List.all_eq_true, List.mem_map, forall_exists_index, and_imp,
          forall_apply_eq_imp_iff₂, decide_eq_true_eq]
        constructor
        · intro h b hb
          have := h b hb
          unfold local_ok at this ⊢
          split
          · rfl
          · rename_i hh; rw [if_neg hh] at this; exact absurd rfl this
        · intro h b hb
          rw [h b hb]; decide
      split
      · rename_i h
        simp only [ne_eq, one_ne_zero, not_false_eq_true, true_iff]
        exact key.mp h
      · rename_i h
        simp only [ne_eq, not_true_eq_false, false_iff]
        exact fun hh => h (key.mpr hh)
    refine ⟨hall, ?_⟩
    rw [← hall]
    unfold result_line
    split
    · rename_i h; simp [h]
    · rename_i h
      simp only [h, iff_false]
      decide

/-- Witness of C20: `sim_demo` against `mpi_demo`, two workers with two integers each. -/
theorem compare_report_spec_witness :
    (sim_demo.length = 4 ∧ mpi_demo.length = 4 ∧ ((4 : Nat) : Int) = (2 : Nat) * 2 ∧
      (0 : Int) < 2) ∧
    (compare_report sim_demo mpi_demo 4 2 = CompareReport.ok ↔ sim_demo = mpi_demo) ∧
    (compare_report sim_demo mpi_demo 4 2 ≠ CompareReport.ok →
      ∃ i : Nat, i < 4 ∧ sim_demo.getD i 0 ≠ mpi_demo.getD i 0 ∧
        (∀ j, j < i → sim_demo.getD j 0 = mpi_demo.getD j 0) ∧
        compare_report sim_demo mpi_demo 4 2 =
          CompareReport.mismatch (i : Int) ((i : Int) / 2) ((i : Int) % 2)
            (sim_demo.getD i 0) (mpi_demo.getD i 0) ∧
        (i : Int) = (i : Int) / 2 * 2 + (i : Int) % 2 ∧
        0 ≤ (i : Int) % 2 ∧ (i : Int) % 2 < 2 ∧
        0 ≤ (i : Int) / 2 ∧ (i : Int) / 2 < ((2 : Nat) : Int)) ∧
    (local_ok sim_demo mpi_demo 4 = 1 ↔
      compare_report sim_demo mpi_demo 4 2 = CompareReport.ok) ∧
    (local_ok sim_demo mpi_demo 4 = 1 ∨ local_ok sim_demo mpi_demo 4 = 0) ∧
    (∀ workers : List (List Int × List Int),
      (all_ok (workers.map fun b => local_ok b.1 b.2 4) ≠ 0 ↔
        ∀ b ∈ workers, local_ok b.1 b.2 4 = 1) ∧
      (result_line (all_ok (workers.map fun b => local_ok b.1 b.2 4))
          = "[RESULT] Tutti i rank hanno sim_global == MPI_Allgather " ↔
        ∀ b ∈ workers, local_ok b.1 b.2 4 = 1)) :=
  ⟨⟨rfl, rfl, by decide, by decide⟩,
    compare_report_spec sim_demo mpi_demo 2 4 2 rfl rfl (by decide) (by decide)⟩

/-! ## Theorems: error paths, chunk size, path-strings, host table, record order -/

/-! ### Validator: skipped items -/

theorem process_entry_bad_key (st : Collected) (bad : JEntry)
    (hbad : ∀ key, bad.name = some key → parse_demand_key key = none) :
    process_entry st bad = st := by
  unfold process_entry
  cases hn : bad.name with
  | none => rfl
  | some key => simp only [hbad key hn]

theorem process_path_item_bad (src dst chunk : Int) (st : Collected) (item : JLeaf)
    (hitem : item.type ≠ JType.jString ∨ parse_path_string item.valuestring = none) :
    process_path_item src dst chunk st item = st := by
  unfold process_path_item
  by_cases h : item.type ≠ JType.jString
  · rw [if_pos h]
  · rw [if_neg h]
    rcases hitem with h2 | h2
    · exact absurd h2 h
    · simp only [h2]

theorem process_entry_drop_item (st : Collected) (e : JEntry) (ipre ipost : List JLeaf)
    (item : JLeaf)
    (hitem : item.type ≠ JType.jString ∨ parse_path_string item.valuestring = none) :
    process_entry st { e with child := ipre ++ item :: ipost } =
      process_entry st { e with child := ipre ++ ipost } := by
  unfold process_entry
  cases hn : e.name with
  | none => simp only [hn]
  | some key =>
    simp only [hn]
    cases hk : parse_demand_key key with
    | none => rfl
    | some t =>
      obtain ⟨dst, chunk, src, E⟩ := t
      simp only [List.foldl_append, List.foldl_cons, process_path_item_bad _ _ _ _ _ hitem]

/-- C21: in `process_chunk_paths` an entry whose key does not read as
`Demand at .. for chunk .. from .. met by epoch ..` and a path-string that
`parse_path_string` rejects are skipped: the state (host list, switch list, transmission
list) is the same after the skipped item as before it, and the whole result, also the report
of `main`, is the one of the document without the skipped item. -/
theorem process_chunk_paths_skips (ty : JType) (pre post : List JEntry) (bad e : JEntry)
    (ipre ipost : List JLeaf) (item : JLeaf) (total_chunks : Nat)
    (hbad : ∀ key, bad.name = some key → parse_demand_key key = none)
    (hitem : item.type = JType.jString ∧ parse_path_string item.valuestring = none) :
    (∀ st, process_entry st bad = st) ∧
    (∀ src dst chunk st, process_path_item src dst chunk st item = st) ∧
    process_chunk_paths { type := ty, child := pre ++ bad :: post } =
      process_chunk_paths { type := ty, child := pre ++ post } ∧
    process_chunk_paths { type := ty, child := pre ++ { e with child := ipre ++ item :: ipost } :: post } =
      process_chunk_paths { type := ty, child := pre ++ { e with child := ipre ++ ipost } :: post } ∧
    validator_report total_chunks { type := ty, child := pre ++ bad :: post } =
      validator_report total_chunks { type := ty, child := pre ++ post } ∧
    validator_report total_chunks
        { type := ty, child := pre ++ { e with child := ipre ++ item :: ipost } :: post } =
      validator_report total_chunks
        { type := ty, child := pre ++ { e with child := ipre ++ ipost } :: post } := by
  have h1 : process_chunk_paths { type := ty, child := pre ++ bad :: post } =
      process_chunk_paths { type := ty, child := pre ++ post } := by
    unfold process_chunk_paths
    simp only [List.foldl_append, List.foldl_cons, process_entry_bad_key _ _ hbad]
  have h2 : process_chunk_paths
        { type := ty, child := pre ++ { e with child := ipre ++ item :: ipost } :: post } =
      process_chunk_paths
        { type := ty, child := pre ++ { e with child := ipre ++ ipost } :: post } := by
    unfold process_chunk_paths
    simp only [List.foldl_append, List.foldl_cons]
    rw [process_entry_drop_item _ e ipre ipost item (Or.inr hitem.2)]
  refine ⟨fun st => process_entry_bad_key st bad hbad,
    fun src dst chunk st => process_path_item_bad src dst chunk st item (Or.inr hitem.2),
    h1, h2, ?_, ?_⟩
  · unfold validator_report
    rw [h1]
  · unfold validator_report
    rw [h2]

set_option maxRecDepth 100000 in
/-- Witness of C21: the member `entry_bad_key` and the string `item_bad_path` inside the
section of scenario S3. -/
theorem process_chunk_paths_skips_witness :
    ((∀ key, entry_bad_key.name = some key → parse_demand_key key = none) ∧
      item_bad_path.type = JType.jString ∧
      parse_path_string item_bad_path.valuestring = none) ∧
    (∀ st, process_entry st entry_bad_key = st) ∧
    (∀ src dst chunk st, process_path_item src dst chunk st item_bad_path = st) ∧
    process_chunk_paths { type := JType.jObject, child := cp_S3.child ++ entry_bad_key :: [] } =
      process_chunk_paths { type := JType.jObject, child := cp_S3.child ++ [] } ∧
    process_chunk_paths { type := JType.jObject, child := cp_S3.child ++ { entry_demand_1_from_0 with child := [jstr "0->1 in epoch 0 via switches 7"] ++ item_bad_path :: [] } :: [] } =
      process_chunk_paths { type := JType.jObject, child := cp_S3.child ++ { entry_demand_1_from_0 with child := [jstr "0->1 in epoch 0 via switches 7"] ++ [] } :: [] } ∧
    validator_report 1 { type := JType.jObject, child := cp_S3.child ++ entry_bad_key :: [] } =
      validator_report 1 { type := JType.jObject, child := cp_S3.child ++ [] } ∧
    validator_report 1
        { type := JType.jObject, child := cp_S3.child ++ { entry_demand_1_from_0 with child := [jstr "0->1 in epoch 0 via switches 7"] ++ item_bad_path :: [] } :: [] } =
      validator_report 1
        { type := JType.jObject, child := cp_S3.child ++ { entry_demand_1_from_0 with child := [jstr "0->1 in epoch 0 via switches 7"] ++ [] } :: [] } :=
  ⟨⟨fun key h => by cases h; decide, by decide⟩,
    process_chunk_paths_skips JType.jObject cp_S3.child [] entry_bad_key entry_demand_1_from_0
      [jstr "0->1 in epoch 0 via switches 7"] [] item_bad_path 1
      (fun key h => by cases h; decide) (by decide)⟩

theorem isdigit_iff (c : Char) : isdigit c = true ↔ 48 ≤ c.toNat ∧ c.toNat ≤ 57 := by
  unfold isdigit
  simp

theorem isdigit_not_space {c : Char} (h : isdigit c = true) : isspace c = false := by
  rw [isdigit_iff] at h
  unfold isspace
  simp
  omega

theorem isdigit_ne {c d : Char} (h : isdigit c = true) (hd : d.toNat < 48 ∨ 57 < d.toNat) :
    c ≠ d := by
  rw [isdigit_iff] at h
  rintro rfl
  omega

theorem digitChar_spec (k : Nat) (hk : k < 10) :
    isdigit (Nat.digitChar k) = true ∧ (Nat.digitChar k).toNat - 48 = k := by
  interval_cases k <;> decide

theorem digits_value_append (acc : Nat) (l r : List Char) :
    digits_value acc (l ++ r) = digits_value (digits_value acc l) r := by
  unfold digits_value
  rw [List.foldl_append]

theorem toDigitsCore_spec (fuel : Nat) :
    ∀ (n : Nat) (ds : List Char), n < fuel →
      ∃ l, Nat.toDigitsCore 10 fuel n ds = l ++ ds ∧ l ≠ [] ∧
        (∀ c ∈ l, isdigit c = true) ∧ digits_value 0 l = n ∧
        ∀ k, n < 10 ^ (k + 1) → l.length ≤ k + 1 := by
  induction fuel with
  | zero => intro n ds h; omega
  | succ fuel ih =>
    intro n ds hn
    unfold Nat.toDigitsCore
    simp only
    have hd := digitChar_spec (n % 10) (Nat.mod_lt _ (by omega))
    by_cases h0 : n / 10 = 0
    · rw [if_pos h0]
      refine ⟨[Nat.digitChar (n % 10)], rfl, by simp, ?_, ?_, ?_⟩
      · intro c hc
        rw [List.mem_singleton] at hc
        rw [hc]; exact hd.1
      · unfold digits_value
        simp only [List.foldl_cons, List.foldl_nil, hd.2]
        omega
      · intro k _
        simp
    · rw [if_neg h0]
      have hlt : n / 10 < fuel := by omega
      obtain ⟨l, hl, hne, hdig, hval, hlen⟩ := ih (n / 10) (Nat.digitChar (n % 10) :: ds) hlt
      refine ⟨l ++ [Nat.digitChar (n % 10)], ?_, by simp, ?_, ?_, ?_⟩
      · rw [hl]; simp
      · intro c hc
        rw [List.mem_append, List.mem_singleton] at hc
        rcases hc with hc | hc
        · exact hdig c hc
        · rw [hc]; exact hd.1
      · rw [digits_value_append, hval]
        unfold digits_value
        simp only [List.foldl_cons, List.foldl_nil, hd.2]
        omega
      · intro k hk
        cases k with
        | zero => omega
        | succ j =>
          have : n / 10 < 10 ^ (j + 1) := by
            rw [Nat.div_lt_iff_lt_mul (by omega)]
            calc n < 10 ^ (j + 1 + 1) := hk
              _ = 10 ^ (j + 1) * 10 := by ring
          have := hlen j this
          simp only [List.length_append, List.length_singleton]
          omega

theorem repr_spec (n : Nat) :
    (Nat.repr n).toList ≠ [] ∧ (∀ c ∈ (Nat.repr n).toList, isdigit c = true) ∧
      digits_value 0 (Nat.repr n).toList = n ∧
      ∀ k, n < 10 ^ (k + 1) → (Nat.repr n).toList.length ≤ k + 1 := by
  obtain ⟨l, hl, hne, hdig, hval, hlen⟩ := toDigitsCore_spec (n + 1) n [] (by omega)
  have e : (Nat.repr n).toList = l := by
    show Nat.toDigits 10 n = l
    unfold Nat.toDigits
    rw [hl, List.append_nil]
  rw [e]
  exact ⟨hne, hdig, hval, hlen⟩

/-- What may follow a numeral: the end of the text or a character that is not a digit. -/
theorem scan_digits_append (l : List Char) (hl : ∀ c ∈ l, isdigit c = true) (rest : List Char)
    (hrest : ∀ c r, rest = c :: r → isdigit c = false) :
    ∀ acc, scan_digits acc (l ++ rest) = (digits_value acc l, rest) := by
  induction l with
  | nil =>
    intro acc
    simp only [List.nil_append]
    cases rest with
    | nil => rfl
    | cons c r =>
      unfold scan_digits
      rw [hrest c r rfl]
      rfl
  | cons c l ih =>
    intro acc
    simp only [List.cons_append]
    unfold scan_digits
    rw [hl c (List.mem_cons_self _ _), if_pos rfl,
      ih (fun d hd => hl d (List.mem_cons_of_mem _ hd))]
    rfl

theorem skip_ws_digit (c : Char) (cs : List Char) (h : isdigit c = true) :
    skip_ws (c :: cs) = c :: cs := by
  unfold skip_ws
  rw [isdigit_not_space h]
  rfl

theorem scan_int_digits (l : List Char) (hne : l ≠ []) (hl : ∀ c ∈ l, isdigit c = true)
    (rest : List Char) (hrest : ∀ c r, rest = c :: r → isdigit c = false) :
    scan_int (l ++ rest) = some (wrap_int (strtol_value false (digits_value 0 l)), rest) := by
  cases l with
  | nil => exact absurd rfl hne
  | cons c cs =>
    have hc := hl c (List.mem_cons_self _ _)
    have h1 : c ≠ '-' := isdigit_ne hc (by decide)
    have h2 : c ≠ '+' := isdigit_ne hc (by decide)
    have hsd := scan_digits_append (c :: cs) hl rest hrest 0
    simp only [List.cons_append] at hsd ⊢
    unfold scan_int
    rw [skip_ws_digit c _ hc]
    unfold scan_sign
    simp only [h1, h2, if_false, hc, if_true, hsd]

/-- What `%d` stores for the numeral of `n`, whatever its size. -/
theorem scan_int_repr_wide (n : Nat) (rest : List Char)
    (hrest : ∀ c r, rest = c :: r → isdigit c = false) :
    scan_int ((Nat.repr n).toList ++ rest) = some (wrap_int (strtol_value false n), rest) := by
  obtain ⟨hne, hdig, hval, -⟩ := repr_spec n
  rw [scan_int_digits _ hne hdig rest hrest, hval]

theorem scan_int_repr (n : Nat) (hn : n < 2 ^ 31) (rest : List Char)
    (hrest : ∀ c r, rest = c :: r → isdigit c = false) :
    scan_int ((Nat.repr n).toList ++ rest) = some ((n : Int), rest) := by
  rw [scan_int_repr_wide n rest hrest, strtol_value_of_lt n hn]

/-! ### `strstr` past a prefix without the first character of the needle -/

theorem strstr_pos_cons (needle : List Char) (p : Char) (t : List Char) :
    strstr_pos needle (p :: t) =
      if needle.isPrefixOf (p :: t) then some 0
      else (strstr_pos needle t).map fun i => i + 1 := by
  rw [strstr_pos]

theorem strstr_pos_skip (c : Char) (n : List Char) (pre : List Char) (hay : List Char)
    (hpre : c ∉ pre) :
    strstr_pos (c :: n) (pre ++ hay) =
      (strstr_pos (c :: n) hay).map fun i => i + pre.length := by
  induction pre with
  | nil => simp
  | cons p ps ih =>
    have hp : c ≠ p := fun h => hpre (h ▸ List.mem_cons_self _ _)
    have hps : c ∉ ps := fun h => hpre (List.mem_cons_of_mem _ h)
    simp only [List.cons_append]
    have hnot : (c :: n).isPrefixOf (p :: (ps ++ hay)) = false := by
      simp [List.isPrefixOf, hp]
    rw [strstr_pos_cons, hnot, ih hps]
    simp only [Bool.false_eq_true, if_false, Option.map_map, List.length_cons]
    cases strstr_pos (c :: n) hay with
    | none => rfl
    | some i => simp only [Option.map_some', Function.comp]; congr 1

theorem strstr_pos_after (needle pre rest : List Char) (c : Char) (n : List Char)
    (hneedle : needle = c :: n) (hpre : c ∉ pre) :
    strstr_pos needle (pre ++ (needle ++ rest)) = some pre.length := by
  subst hneedle
  rw [strstr_pos_skip c n pre _ hpre, strstr_pos_append_left _ _ (by simp)]
  simp

theorem not_mem_repr (n : Nat) (d : Char) (hd : d.toNat < 48 ∨ 57 < d.toNat) :
    d ∉ (Nat.repr n).toList := by
  intro h
  exact isdigit_ne ((repr_spec n).2.1 d h) hd rfl

theorem repr_length_le (n : Nat) (h : n < 2 ^ 31) : (Nat.repr n).toList.length ≤ 10 := by
  exact (repr_spec n).2.2.2 9 (by omega)

/-! ### `parse_path_string` on a path-string written from its fields -/

theorem host_text_no_blank (a b : Nat) (d : Char) (hd : d.toNat < 45 ∨ 62 < d.toNat) :
    d ∉ (Nat.repr a).toList ++ "->".toList ++ (Nat.repr b).toList := by
  intro h
  simp only [List.mem_append] at h
  rcases h with (h | h) | h
  · exact not_mem_repr a d (by omega) h
  · have : d = '-' ∨ d = '>' := by simpa using h
    rcases this with rfl | rfl
    · revert hd; decide
    · revert hd; decide
  · exact not_mem_repr b d (by omega) h

theorem sscanf_host_part (a b : Nat) (ha : a < 2 ^ 31) (hb : b < 2 ^ 31) :
    sscanf_run (parse_format "%d->%d".toList)
      ((Nat.repr a).toList ++ "->".toList ++ (Nat.repr b).toList) = [(a : Int), (b : Int)] := by
  have hf : parse_format "%d->%d".toList =
      [Directive.int, Directive.lit '-', Directive.lit '>', Directive.int] := by decide
  rw [hf, List.append_assoc]
  have h1 := scan_int_repr a ha ("->".toList ++ (Nat.repr b).toList) (by
    intro c r h
    have : c = '-' := by
      have := congrArg List.head? h
      simpa using this.symm
    rw [this]; decide)
  have h2 := scan_int_repr b hb [] (by intro c r h; cases h)
  rw [List.append_nil] at h2
  simp only [sscanf_run, h1]
  show (a : Int) :: sscanf_run [Directive.int] (Nat.repr b).toList = _
  simp only [sscanf_run, h2]

theorem sscanf_in_epoch (e : Nat) (he : e < 2 ^ 31) (rest : List Char)
    (hrest : ∀ c r, rest = c :: r → isdigit c = false) :
    sscanf_run (parse_format " in epoch %d".toList)
      (" in epoch ".toList ++ ((Nat.repr e).toList ++ rest)) = [(e : Int)] := by
  have hf : parse_format " in epoch %d".toList =
      [Directive.ws, Directive.lit 'i', Directive.lit 'n', Directive.ws, Directive.lit 'e',
       Directive.lit 'p', Directive.lit 'o', Directive.lit 'c', Directive.lit 'h',
       Directive.ws, Directive.int] := by decide
  obtain ⟨hne, hdig, -, -⟩ := repr_spec e
  have hsk : skip_ws ((Nat.repr e).toList ++ rest) = (Nat.repr e).toList ++ rest := by
    cases hl : (Nat.repr e).toList with
    | nil => exact absurd hl hne
    | cons c cs =>
      exact skip_ws_digit c _ (hdig c (by rw [hl]; exact List.mem_cons_self _ _))
  rw [hf]
  show sscanf_run [Directive.int] (skip_ws ((Nat.repr e).toList ++ rest)) = _
  rw [hsk]
  simp only [sscanf_run, scan_int_repr e he rest hrest]

theorem hop_head_no_v (a b e : Nat) : 'v' ∉ hop_head a b e ++ " ".toList := by
  intro h
  unfold hop_head at h
  rcases List.mem_append.mp h with h | h
  · rcases List.mem_append.mp h with h | h
    · rcases List.mem_append.mp h with h | h
      · exact host_text_no_blank a b 'v' (by decide) h
      · revert h; decide
    · exact not_mem_repr e 'v' (by decide) h
  · revert h; decide

theorem parse_path_string_hop (a b e : Nat) (rest : List Char) (ha : a < 2 ^ 31)
    (hb : b < 2 ^ 31) (he : e < 2 ^ 31) (hrest : ∀ c r, rest = c :: r → isdigit c = false) :
    parse_path_string (String.mk (hop_head a b e ++ rest)) =
      match strstr_pos "via switches ".toList (hop_head a b e ++ rest) with
      | none => none
      | some v =>
        some { start_epoch := (e : Int), src_host := (a : Int), dst_host := (b : Int),
               switches := parse_switches (((hop_head a b e ++ rest).drop (v + 13)).length + 1)
                 ((hop_head a b e ++ rest).drop (v + 13)),
               end_epoch := 0 } := by
  have hstr : hop_head a b e ++ rest =
      ((Nat.repr a).toList ++ "->".toList ++ (Nat.repr b).toList) ++
        (" in epoch ".toList ++ ((Nat.repr e).toList ++ rest)) := by
    unfold hop_head
    simp only [List.append_assoc]
  have hpos : strstr_pos " in epoch ".toList (hop_head a b e ++ rest) =
      some ((Nat.repr a).toList ++ "->".toList ++ (Nat.repr b).toList).length := by
    rw [hstr]
    exact strstr_pos_after " in epoch ".toList _ _ ' ' "in epoch ".toList rfl
      (host_text_no_blank a b ' ' (by decide))
  have hlen : ((Nat.repr a).toList ++ "->".toList ++ (Nat.repr b).toList).length ≤ 49 := by
    have h1 := repr_length_le a ha
    have h2 := repr_length_le b hb
    simp only [List.length_append]
    have : "->".toList.length = 2 := by decide
    omega
  have hdrop1 : (hop_head a b e ++ rest).drop
        ((Nat.repr a).toList ++ "->".toList ++ (Nat.repr b).toList).length =
      " in epoch ".toList ++ ((Nat.repr e).toList ++ rest) := by
    rw [hstr]
    exact List.drop_left _ _
  have htake : (hop_head a b e ++ rest).take
        (min ((Nat.repr a).toList ++ "->".toList ++ (Nat.repr b).toList).length 49) =
      (Nat.repr a).toList ++ "->".toList ++ (Nat.repr b).toList := by
    rw [Nat.min_eq_left hlen, hstr]
    exact List.take_left _ _
  have hep := sscanf_in_epoch e he rest hrest
  have hs : (String.mk (hop_head a b e ++ rest)).toList = hop_head a b e ++ rest := rfl
  unfold parse_path_string
  simp only [hs, hpos, htake, sscanf_host_part a b ha hb, hdrop1, hep]

theorem parse_path_string_text (a b e : Nat) (tail : List Char) (ha : a < 2 ^ 31)
    (hb : b < 2 ^ 31) (he : e < 2 ^ 31) :
    parse_path_string (String.mk (hop_head a b e ++ " via switches ".toList ++ tail)) = some
      { start_epoch := (e : Int), src_host := (a : Int), dst_host := (b : Int),
        switches := parse_switches (tail.length + 1) tail, end_epoch := 0 } := by
  have e1 : hop_head a b e ++ " via switches ".toList ++ tail =
      hop_head a b e ++ (" via switches ".toList ++ tail) := List.append_assoc _ _ _
  have e2 : hop_head a b e ++ (" via switches ".toList ++ tail) =
      (hop_head a b e ++ " ".toList) ++ ("via switches ".toList ++ tail) := by
    simp only [List.append_assoc]
    rfl
  have hvia : strstr_pos "via switches ".toList
      (hop_head a b e ++ (" via switches ".toList ++ tail)) =
      some (hop_head a b e ++ " ".toList).length := by
    rw [e2]
    exact strstr_pos_after "via switches ".toList _ _ 'v' "ia switches ".toList rfl
      (hop_head_no_v a b e)
  have hdrop : (hop_head a b e ++ (" via switches ".toList ++ tail)).drop
      ((hop_head a b e ++ " ".toList).length + 13) = tail := by
    have e3 : hop_head a b e ++ (" via switches ".toList ++ tail) =
        ((hop_head a b e ++ " ".toList) ++ "via switches ".toList) ++ tail := by
      simp only [List.append_assoc]
      rfl
    have e4 : (hop_head a b e ++ " ".toList).length + 13 =
        ((hop_head a b e ++ " ".toList) ++ "via switches ".toList).length := by
      rw [List.length_append _ "via switches ".toList]
      rfl
    rw [e3, e4]
    exact List.drop_left _ _
  rw [e1, parse_path_string_hop a b e _ ha hb he (by
    intro c r h
    have : c = ' ' := by
      have := congrArg List.head? h
      simpa using this.symm
    rw [this]; decide)]
  simp only [hvia, hdrop]

theorem parse_path_string_bare (a b e : Nat) (ha : a < 2 ^ 31) (hb : b < 2 ^ 31)
    (he : e < 2 ^ 31) :
    parse_path_string (path_text_bare a b e) = none := by
  have e2 : hop_head a b e ++ " via switches".toList =
      (hop_head a b e ++ " ".toList) ++ "via switches".toList := by
    simp only [List.append_assoc]
    rfl
  have hvia : strstr_pos "via switches ".toList (hop_head a b e ++ " via switches".toList) =
      none := by
    rw [e2, show "via switches ".toList = 'v' :: "ia switches ".toList from rfl,
      strstr_pos_skip 'v' _ _ _ (hop_head_no_v a b e)]
    have : strstr_pos ('v' :: "ia switches ".toList) "via switches".toList = none := by decide
    rw [this]
    rfl
  unfold path_text_bare
  rw [parse_path_string_hop a b e _ ha hb he (by
    intro c r h
    have : c = ' ' := by
      have := congrArg List.head? h
      simpa using this.symm
    rw [this]; decide)]
  simp only [hvia]

theorem switches_text_length (sw : List Nat) : sw.length ≤ (switches_text sw).length := by
  induction sw with
  | nil => simp [switches_text]
  | cons s t ih =>
    cases t with
    | nil =>
      have := (repr_spec s).1
      have : 0 < (Nat.repr s).toList.length := List.length_pos.mpr this
      simp only [switches_text, List.length_singleton]
      omega
    | cons t r =>
      simp only [switches_text, List.length_append, List.length_cons] at ih ⊢
      have := (repr_spec s).1
      have : 0 < (Nat.repr s).toList.length := List.length_pos.mpr this
      omega

theorem parse_switches_text (sw : List Nat) :
    (∀ s ∈ sw, s < 2 ^ 31) → ∀ fuel, sw.length ≤ fuel →
      parse_switches fuel (switches_text sw) = sw.map fun (s : Nat) => (s : Int) := by
  induction sw with
  | nil =>
    intro _ fuel _
    cases fuel with
    | zero => rfl
    | succ f => rfl
  | cons s t ih =>
    intro hsw fuel hf
    have hs : s < 2 ^ 31 := hsw s (List.mem_cons_self _ _)
    have ht : ∀ x ∈ t, x < 2 ^ 31 := fun x hx => hsw x (List.mem_cons_of_mem _ hx)
    cases fuel with
    | zero => simp at hf
    | succ f =>
      cases t with
      | nil =>
        have h := scan_int_repr s hs [] (by intro c r h; cases h)
        rw [List.append_nil] at h
        simp only [switches_text, parse_switches, h]
        rfl
      | cons t r =>
        have h := scan_int_repr s hs (" -> ".toList ++ switches_text (t :: r)) (by
          intro c r h
          have : c = ' ' := by
            have := congrArg List.head? h
            simpa using this.symm
          rw [this]; decide)
        have hpre : " -> ".toList.isPrefixOf (" -> ".toList ++ switches_text (t :: r)) = true :=
          List.isPrefixOf_iff_prefix.2 (List.prefix_append _ _)
        have hdrop : (" -> ".toList ++ switches_text (t :: r)).drop 4 = switches_text (t :: r) :=
          List.drop_left " -> ".toList (switches_text (t :: r))
        have := ih ht f (by simpa using hf)
        simp only [switches_text, List.append_assoc, parse_switches, h, hpre, if_true, hdrop,
          this, List.map_cons]

/-- C26 (amended): for `a`, `b` and `e` below `2^31`, `parse_path_string` accepts the
path-string `a->b in epoch e via switches ` that ends with the blank after the word
`switches`, with `src = a`, `dst = b`, start epoch `e` and no switch; it rejects the
path-string `a->b in epoch e via switches` that ends right after the word, because it looks
for the text `via switches ` with the blank. -/
theorem parse_path_string_zero_switches (a b e : Nat) (ha : a < 2 ^ 31) (hb : b < 2 ^ 31)
    (he : e < 2 ^ 31) :
    parse_path_string (path_text a b e []) = some
      { start_epoch := (e : Int), src_host := (a : Int), dst_host := (b : Int),
        switches := [], end_epoch := 0 } ∧
    parse_path_string (path_text_bare a b e) = none := by
  refine ⟨?_, parse_path_string_bare a b e ha hb he⟩
  unfold path_text
  rw [parse_path_string_text a b e _ ha hb he]
  rfl

set_option maxRecDepth 100000 in
/-- Witness of C26 (amended): `a = 0`, `b = 1`, `e = 0`. -/
theorem parse_path_string_zero_switches_witness :
    ((0 : Nat) < 2 ^ 31 ∧ (1 : Nat) < 2 ^ 31 ∧ (0 : Nat) < 2 ^ 31) ∧
    (path_text 0 1 0 [] = "0->1 in epoch 0 via switches " ∧
      path_text_bare 0 1 0 = "0->1 in epoch 0 via switches") ∧
    parse_path_string (path_text 0 1 0 []) = some
      { start_epoch := ((0 : Nat) : Int), src_host := ((0 : Nat) : Int),
        dst_host := ((1 : Nat) : Int), switches := [], end_epoch := 0 } ∧
    parse_path_string (path_text_bare 0 1 0) = none :=
  ⟨⟨by decide, by decide, by decide⟩, by decide,
    parse_path_string_zero_switches 0 1 0 (by decide) (by decide) (by decide)⟩

set_option maxRecDepth 100000 in
/-- C26 (counterexample): the path-string of scenario S1, `0->1 in epoch 0 via switches`,
is rejected by `parse_path_string`. -/
theorem parse_path_string_S1_rejected :
    path_text_bare 0 1 0 = "0->1 in epoch 0 via switches" ∧
    parse_path_string "0->1 in epoch 0 via switches" = none := by
  decide

/-- C27 (amended): for `a`, `b`, `e` below `2^31` and every list of switches `s1, ..., sk`
below `2^31`, `parse_path_string` accepts the path-string
`a->b in epoch e via switches s1 -> s2 -> ... -> sk` and returns `src = a`, `dst = b`, start
epoch `e` and the switches `s1, ..., sk` in order, `k` of them, for every `k`. -/
theorem parse_path_string_switches (a b e : Nat) (sw : List Nat) (ha : a < 2 ^ 31)
    (hb : b < 2 ^ 31) (he : e < 2 ^ 31) (hsw : ∀ s ∈ sw, s < 2 ^ 31) :
    ∃ cp, parse_path_string (path_text a b e sw) = some cp ∧
      cp.src_host = (a : Int) ∧ cp.dst_host = (b : Int) ∧ cp.start_epoch = (e : Int) ∧
      cp.switches = sw.map (fun (s : Nat) => (s : Int)) ∧ cp.switches.length = sw.length := by
  unfold path_text
  rw [parse_path_string_text a b e _ ha hb he]
  have h := parse_switches_text sw hsw ((switches_text sw).length + 1)
    (Nat.le_succ_of_le (switches_text_length sw))
  exact ⟨_, rfl, rfl, rfl, rfl, h, by simp only [h, List.length_map]⟩

set_option maxRecDepth 100000 in
/-- Witness of C27 (amended): a hop over nine switches. -/
theorem parse_path_string_switches_witness :
    ((0 : Nat) < 2 ^ 31 ∧ (1 : Nat) < 2 ^ 31 ∧ (0 : Nat) < 2 ^ 31 ∧
      ∀ s ∈ [1, 2, 3, 4, 5, 6, 7, 8, 9], s < 2 ^ 31) ∧
    path_text 0 1 0 [1, 2, 3, 4, 5, 6, 7, 8, 9] =
      "0->1 in epoch 0 via switches 1 -> 2 -> 3 -> 4 -> 5 -> 6 -> 7 -> 8 -> 9" ∧
    ∃ cp, parse_path_string (path_text 0 1 0 [1, 2, 3, 4, 5, 6, 7, 8, 9]) = some cp ∧
      cp.src_host = ((0 : Nat) : Int) ∧ cp.dst_host = ((1 : Nat) : Int) ∧
      cp.start_epoch = ((0 : Nat) : Int) ∧
      cp.switches = [1, 2, 3, 4, 5, 6, 7, 8, 9].map (fun (s : Nat) => (s : Int)) ∧
      cp.switches.length = [1, 2, 3, 4, 5, 6, 7, 8, 9].length :=
  ⟨⟨by decide, by decide, by decide, by decide⟩, by decide,
    parse_path_string_switches 0 1 0 [1, 2, 3, 4, 5, 6, 7, 8, 9] (by decide) (by decide)
      (by decide) (by decide)⟩

set_option maxRecDepth 100000 in
/-- C27 (counterexample): the switch id `4294967297` does not fit in an `int`; for the
path-string `0->1 in epoch 0 via switches 4294967297 -> 2` the switch list returned is
`[1, 2]`, not `[4294967297, 2]`. -/
theorem parse_path_string_wide_switch :
    path_text 0 1 0 [4294967297, 2] = "0->1 in epoch 0 via switches 4294967297 -> 2" ∧
    parse_path_string "0->1 in epoch 0 via switches 4294967297 -> 2" = some
      { start_epoch := 0, src_host := 0, dst_host := 1, switches := [1, 2], end_epoch := 0 } := by
  decide

/-! ### Host table -/

theorem host_to_rank_eq_find_host_index (T : List Int) (h : Int) :
    host_to_rank T h = find_host_index T h := by
  induction T with
  | nil => rfl
  | cons x xs ih => unfold host_to_rank find_host_index; rw [ih]

theorem add_unique_host_eq (T : List Int) (h : Int) :
    add_unique_host T h = int_array_append_unique T h := rfl

theorem host_table_append (xs : List Int) (x : Int) :
    host_table (xs ++ [x]) = add_unique_host (host_table xs) x := by
  unfold host_table
  rw [List.foldl_append]
  rfl

theorem host_table_inv (xs : List Int) :
    (host_table xs).Nodup ∧ (∀ h, h ∈ host_table xs ↔ h ∈ xs) ∧
      (host_table xs).Pairwise fun a b => xs.indexOf a < xs.indexOf b := by
  induction xs using List.reverseRecOn with
  | nil => simp [host_table]
  | append_singleton xs x ih =>
    obtain ⟨hn, hm, hp⟩ := ih
    rw [host_table_append]
    unfold add_unique_host
    by_cases hx : x ∈ host_table xs
    · rw [if_pos hx]
      refine ⟨hn, ?_, ?_⟩
      · intro h
        rw [hm, List.mem_append, List.mem_singleton]
        constructor
        · exact Or.inl
        · rintro (h1 | h1)
          · exact h1
          · rw [h1]; exact (hm x).mp hx
      · refine hp.imp_of_mem ?_
        intro a b ha hb hab
        rw [List.indexOf_append_of_mem ((hm a).mp ha), List.indexOf_append_of_mem ((hm b).mp hb)]
        exact hab
    · rw [if_neg hx]
      have hx2 : x ∉ xs := fun h => hx ((hm x).mpr h)
      refine ⟨?_, ?_, ?_⟩
      · exact List.Nodup.append hn (List.nodup_singleton x) (by
          intro a ha hb
          rw [List.mem_singleton] at hb
          exact hx (hb ▸ ha))
      · intro h
        simp only [List.mem_append, List.mem_singleton, hm]
      · rw [List.pairwise_append]
        refine ⟨?_, List.pairwise_singleton _ _, ?_⟩
        · refine hp.imp_of_mem ?_
          intro a b ha hb hab
          rw [List.indexOf_append_of_mem ((hm a).mp ha),
            List.indexOf_append_of_mem ((hm b).mp hb)]
          exact hab
        · intro a ha b hb
          rw [List.mem_singleton] at hb
          subst hb
          rw [List.indexOf_append_of_mem ((hm a).mp ha), List.indexOf_append_of_not_mem hx2]
          have := List.indexOf_lt_length.mpr ((hm a).mp ha)
          omega

/-- C29: the table `host_table xs` that a sequence `xs` of `add_unique_host` calls leaves on
the empty table (the same list `int_array_append_unique` builds) holds every inserted id
once and no other id, in the order of first insertion; `host_to_rank` and
`find_host_index` are the same search, they return `i` for the id stored at position `i`,
the id stored at the rank returned for `h` is `h`, and they return "not found" exactly for
the ids that were never inserted. -/
theorem host_table_spec (xs : List Int) :
    xs.foldl int_array_append_unique [] = host_table xs ∧
    (host_table xs).Nodup ∧
    (∀ h, h ∈ host_table xs ↔ h ∈ xs) ∧
    (∀ i j, i < j → j < (host_table xs).length →
      xs.indexOf ((host_table xs).getD i 0) < xs.indexOf ((host_table xs).getD j 0)) ∧
    (∀ h, host_to_rank (host_table xs) h = find_host_index (host_table xs) h) ∧
    (∀ i, i < (host_table xs).length →
      find_host_index (host_table xs) ((host_table xs).getD i 0) = some i) ∧
    (∀ h r, find_host_index (host_table xs) h = some r →
      r < (host_table xs).length ∧ (host_table xs).getD r 0 = h) ∧
    (∀ h, h ∈ xs → ∃ r, find_host_index (host_table xs) h = some r) ∧
    (∀ h, find_host_index (host_table xs) h = none ↔ h ∉ xs) := by
  obtain ⟨hn, hm, hp⟩ := host_table_inv xs
  refine ⟨rfl, hn, hm, ?_, host_to_rank_eq_find_host_index _, ?_, ?_, ?_, ?_⟩
  · intro i j hij hj
    have := List.pairwise_iff_getElem.mp hp i j (by omega) hj hij
    rw [List.getD_eq_getElem _ _ (by omega), List.getD_eq_getElem _ _ hj]
    exact this
  · intro i hi
    exact find_host_index_getD hn hi
  · intro h r hr
    exact find_host_index_some hr
  · intro h hh
    exact find_host_index_of_mem ((hm h).mpr hh)
  · intro h
    constructor
    · intro hnone hh
      obtain ⟨r, hr⟩ := find_host_index_of_mem ((hm h).mpr hh)
      rw [hnone] at hr
      cases hr
    · intro hh
      cases hf : find_host_index (host_table xs) h with
      | none => rfl
      | some r =>
        exfalso
        obtain ⟨h1, h2⟩ := find_host_index_some hf
        apply hh
        rw [← hm, ← h2, List.getD_eq_getElem _ _ h1]
        exact List.getElem_mem _

/-! ### Simulator: load errors, record bounds, order of the lists -/

theorem scan_hosts_items_bad (ipre ipost : List JLeaf) (item : JLeaf)
    (hty : item.type = JType.jString) (hp : parse_msg_string item.valuestring = none) :
    ∀ hosts, scan_hosts_items (ipre ++ item :: ipost) hosts = none := by
  induction ipre with
  | nil =>
    intro hosts
    simp only [List.nil_append]
    unfold scan_hosts_items
    rw [if_neg (by simp [hty]), hp]
  | cons it rest ih =>
    intro hosts
    simp only [List.cons_append]
    unfold scan_hosts_items
    split
    · exact ih _
    · split
      · rfl
      · exact ih _

theorem scan_hosts_entries_bad_key (pre post : List JEntry) (bad : JEntry) (key : String)
    (hn : bad.name = some key) (hk : parse_demand_key key = none) :
    ∀ hosts, scan_hosts_entries (pre ++ bad :: post) hosts = none := by
  induction pre with
  | nil =>
    intro hosts
    simp only [List.nil_append]
    unfold scan_hosts_entries
    simp only [hn, hk]
  | cons e rest ih =>
    intro hosts
    simp only [List.cons_append]
    unfold scan_hosts_entries
    split
    · exact ih _
    · split
      · rfl
      · split
        · rfl
        · exact ih _

theorem scan_hosts_entries_bad_item (pre post : List JEntry) (e : JEntry) (key : String)
    (ipre ipost : List JLeaf) (item : JLeaf) (hn : e.name = some key)
    (hc : e.child = ipre ++ item :: ipost) (hty : item.type = JType.jString)
    (hp : parse_msg_string item.valuestring = none) :
    ∀ hosts, scan_hosts_entries (pre ++ e :: post) hosts = none := by
  induction pre with
  | nil =>
    intro hosts
    simp only [List.nil_append]
    unfold scan_hosts_entries
    simp only [hn]
    split
    · rfl
    · rw [hc, scan_hosts_items_bad ipre ipost item hty hp]
  | cons e2 rest ih =>
    intro hosts
    simp only [List.cons_append]
    unfold scan_hosts_entries
    split
    · exact ih _
    · split
      · rfl
      · split
        · rfl
        · exact ih _

/-- C22 (amended): `build_messages_rank0` does not skip what it cannot parse.  When the
chunk-paths section has a member whose key is not a demand key, or a named member with a
string item that `parse_msg_string` rejects, the first pass reaches `MPI_Abort`: the function
returns nothing, whatever else the document holds and for every number of workers. -/
theorem build_messages_rank0_aborts (root : ScheduleDoc) (paths : JSection)
    (pre post : List JEntry) (e : JEntry) (key : String) (world_size : Int)
    (hcp : root.chunk_paths = some paths) (hch : paths.child = pre ++ e :: post)
    (hn : e.name = some key)
    (hbad : parse_demand_key key = none ∨
      ∃ ipre item ipost, e.child = ipre ++ item :: ipost ∧ item.type = JType.jString ∧
        parse_msg_string item.valuestring = none) :
    build_messages_rank0 root world_size = none := by
  have hscan : scan_hosts_entries paths.child [] = none := by
    rw [hch]
    rcases hbad with hk | ⟨ipre, item, ipost, hc, hty, hp⟩
    · exact scan_hosts_entries_bad_key pre post e key hn hk []
    · exact scan_hosts_entries_bad_item pre post e key ipre ipost item hn hc hty hp []
  unfold build_messages_rank0
  simp only [hcp, hscan]
  split <;> rfl

set_option maxRecDepth 100000 in
/-- Witness of C22 (amended): `doc_bad_key`, whose first member has the key
`Demand 1 chunk 0`. -/
theorem build_messages_rank0_aborts_witness :
    (doc_bad_key.chunk_paths = some
        { type := JType.jObject,
          child := [] ++ jdemand "Demand 1 chunk 0" ["0->1 in epoch 0 via switches 7"] ::
            [jdemand "Demand at 1 for chunk 0 from 0 met by epoch 0"
              ["0->1 in epoch 0 via switches 7"]] } ∧
      parse_demand_key "Demand 1 chunk 0" = none) ∧
    build_messages_rank0 doc_bad_key 2 = none :=
  ⟨⟨rfl, by decide⟩,
    build_messages_rank0_aborts doc_bad_key _ []
      [jdemand "Demand at 1 for chunk 0 from 0 met by epoch 0" ["0->1 in epoch 0 via switches 7"]]
      (jdemand "Demand 1 chunk 0" ["0->1 in epoch 0 via switches 7"]) "Demand 1 chunk 0" 2
      rfl rfl rfl (Or.inl (by decide))⟩

set_option maxRecDepth 100000 in
/-- C22 (counterexample): `doc_one_demand` loads with two workers; with one more member
whose key is not a demand key (`doc_bad_key`), or one more string that is not a path-string
(`doc_bad_path`), the load is aborted instead of continuing without the bad item. -/
theorem build_messages_rank0_bad_item_aborts :
    build_messages_rank0 doc_one_demand 2 = some loaded_one_demand ∧
    build_messages_rank0 doc_bad_key 2 = none ∧
    build_messages_rank0 doc_bad_path 2 = none := by
  decide

theorem mem_path_strings (es : List JEntry) (p : JEntry × String) (h : p ∈ path_strings es) :
    p.1 ∈ es := by
  induction es with
  | nil => simp [path_strings] at h
  | cons e rest ih =>
    unfold path_strings at h
    rw [List.mem_append] at h
    rcases h with h | h
    · rw [List.mem_map] at h
      obtain ⟨s, -, hs⟩ := h
      rw [← hs]
      exact List.mem_cons_self _ _
    · exact List.mem_cons_of_mem _ (ih h)

theorem hop_record_chunk (hosts : List Int) (n : Int) (p : JEntry × String) (m : Msg)
    (h : hop_record hosts n p = some m) :
    ∃ key d s E, p.1.name = some key ∧ parse_demand_key key = some (d, m.chunk, s, E) := by
  unfold hop_record at h
  split at h
  · simp at h
  · rename_i key hkey
    split at h
    · simp at h
    · rename_i d c s E hk
      split at h
      · split at h
        · simp only [Option.some.injEq] at h
          subst h
          exact ⟨key, d, s, E, hkey, hk⟩
        · simp at h
      · simp at h

set_option maxRecDepth 100000 in
/-- C28: `doc_chunk_5` asks for chunk 5; with `num_chunks = 1` the Simulator loads it with
two workers and keeps `chunk = 5` in the records, so `chunk` is not in `[0, num_chunks)`.
With four integers per chunk the buffer has `2 * 1 * 4 = 8` integers, the slot of the record
starts at offset 24, and worker 0 posts the receive of four integers into it, outside the
buffer.  The Validator skips the same delivery as out of range. -/
theorem build_messages_rank0_chunk_out_of_range :
    build_messages_rank0 doc_chunk_5 2 = some loaded_chunk_5 ∧
    loaded_chunk_5.per_rank.getD 0 [] =
      [{ src := 1, dst := 0, epoch := 0, seq := 0, origin := 1, chunk := 5 }] ∧
    ¬ ((5 : Int) < 1) ∧
    total_ints_of (data_per_host_of 1 4) 2 = 8 ∧
    slot_offset 1 5 (data_per_host_of 1 4) 4 = 24 ∧
    simulate_epochs 0 (loaded_chunk_5.per_rank.getD 0 []) (data_per_host_of 1 4) 4
        loaded_chunk_5.max_epoch = [[Request.irecv 24 4 1 0]] ∧
    validator_main 1 doc_chunk_5 =
      some { hosts := [0, 1], switches := [7],
             missing := ["Missing chunk 0 from src 0 to dst 1",
                         "Missing chunk 0 from src 1 to dst 0"],
             allgather := false } := by
  decide

theorem msg_le_iff (x y : Msg) : msg_le x y ↔ msg_lex_le x y := by
  unfold msg_le cmp_msg msg_lex_le
  split_ifs <;> omega

theorem msg_lex_le_total (a b : Msg) : msg_lex_le a b ∨ msg_lex_le b a := by
  unfold msg_lex_le; omega

theorem msg_lex_le_trans {a b c : Msg} (h1 : msg_lex_le a b) (h2 : msg_lex_le b c) :
    msg_lex_le a c := by
  unfold msg_lex_le at *; omega

theorem cmp_msg_eq_zero_iff (x y : Msg) : cmp_msg x y = 0 ↔ x = y := by
  constructor
  · intro h
    unfold cmp_msg at h
    split_ifs at h <;> first | omega | skip
    cases x; cases y
    simp_all
  · rintro rfl
    simp [cmp_msg]

theorem sort_per_rank_sorted (L : List (List Msg)) (r : Nat) :
    ((sort_per_rank L).getD r []).Pairwise msg_le := by
  haveI : IsTotal Msg msg_le := ⟨fun a b => by
    rw [msg_le_iff, msg_le_iff]; exact msg_lex_le_total a b⟩
  haveI : IsTrans Msg msg_le := ⟨fun a b c h1 h2 => by
    rw [msg_le_iff] at *; exact msg_lex_le_trans h1 h2⟩
  unfold sort_per_rank
  simp only [List.getD_eq_getElem?_getD, List.getElem?_map]
  cases L[r]? with
  | none => simp
  | some l =>
    simp only [Option.map_some', Option.getD_some]
    split
    · exact List.sorted_insertionSort msg_le l
    · rename_i h
      match l, h with
      | [], _ => exact List.Pairwise.nil
      | [a], _ => exact List.pairwise_singleton _ _
      | a :: b :: t, h => simp at h

theorem build_messages_rank0_unfold (root : ScheduleDoc) (world_size : Int) (L : Loaded)
    (h : build_messages_rank0 root world_size = some L) :
    ∃ paths st, root.chunk_paths = some paths ∧ paths.type = JType.jObject ∧
      scan_hosts_entries paths.child [] = some L.host_ids ∧
      world_size = (L.host_ids.length : Int) ∧
      build_entries L.host_ids paths.child (build_init world_size) = some st ∧
      L.per_rank = sort_per_rank st.per_rank ∧ L.max_epoch = st.max_epoch := by
  unfold build_messages_rank0 at h
  cases hcp : root.chunk_paths with
  | none => rw [hcp] at h; simp at h
  | some paths =>
    rw [hcp] at h
    simp only at h
    by_cases hty : paths.type ≠ JType.jObject
    · rw [if_pos hty] at h; simp at h
    · rw [if_neg hty] at h
      cases hs : scan_hosts_entries paths.child [] with
      | none => rw [hs] at h; simp at h
      | some hosts =>
        rw [hs] at h
        simp only at h
        by_cases hw : world_size ≠ (hosts.length : Int)
        · rw [if_pos hw] at h; simp at h
        · rw [if_neg hw] at h
          cases hb : build_entries hosts paths.child
              { per_rank := List.replicate world_size.toNat [], seq_global := 0,
                max_epoch := 0 } with
          | none => rw [hb] at h; simp at h
          | some st =>
            rw [hb] at h
            simp only [Option.some.injEq] at h
            subst h
            exact ⟨paths, st, rfl, not_not.mp hty, hs, not_not.mp hw, hb, rfl, rfl⟩

/-- C30: when `build_messages_rank0` returns, the list of every worker is a permutation of
the records the second pass appended to it, and it is sorted in non-decreasing lexicographic
order of `(epoch, seq, src, dst, origin, chunk)`, the order of `cmp_msg`; `cmp_msg` returns
0 only for records equal in all six fields; the records of one list have pairwise different
`seq`, so each list is strictly increasing in `(epoch, seq)`. -/
theorem build_messages_rank0_sorted (root : ScheduleDoc) (world_size : Int) (L : Loaded)
    (h : build_messages_rank0 root world_size = some L) :
    (∀ x y : Msg, cmp_msg x y = 0 ↔ x = y) ∧
    (∀ x y : Msg, cmp_msg x y ≤ 0 ↔ msg_lex_le x y) ∧
    ∃ paths st, root.chunk_paths = some paths ∧
      build_entries L.host_ids paths.child (build_init world_size) = some st ∧
      ∀ r : Nat,
        (L.per_rank.getD r []).Perm (st.per_rank.getD r []) ∧
        (L.per_rank.getD r []).Pairwise msg_lex_le ∧
        (L.per_rank.getD r []).Pairwise (fun x y => x.seq ≠ y.seq) ∧
        (L.per_rank.getD r []).Pairwise epoch_seq_lt := by
  refine ⟨cmp_msg_eq_zero_iff, fun x y => msg_le_iff x y, ?_⟩
  obtain ⟨paths, st, hcp, -, -, hw, hb, hL, -⟩ := build_messages_rank0_unfold root world_size L h
  obtain ⟨paths2, recs, hcp2, -, hrecs, -, -, hlen, hperm⟩ :=
    build_messages_rank0_spec root world_size L h
  rw [hcp] at hcp2
  cases hcp2
  refine ⟨paths, st, hcp, hb, ?_⟩
  intro r
  have hP : (L.per_rank.getD r []).Perm (st.per_rank.getD r []) := by
    rw [hL]; exact sort_per_rank_perm _ r
  have hS : (L.per_rank.getD r []).Pairwise msg_lex_le := by
    rw [hL]
    exact (sort_per_rank_sorted st.per_rank r).imp fun hab => (msg_le_iff _ _).mp hab
  have hrecs_seq : recs.Pairwise (fun x y => x.seq ≠ y.seq) := by
    rw [List.pairwise_iff_getElem]
    intro i j hi hj hij
    unfold doc_records at hrecs
    have h1 := (records_from_seq _ _ _ _ hrecs i recs[i] (List.getElem?_eq_getElem hi)).1
    have h2 := (records_from_seq _ _ _ _ hrecs j recs[j] (List.getElem?_eq_getElem hj)).1
    omega
  have hD : (L.per_rank.getD r []).Pairwise (fun x y => x.seq ≠ y.seq) := by
    by_cases hr : r < L.host_ids.length
    · have hf := hrecs_seq.filter fun m => decide (m.src = (r : Int) ∨ m.dst = (r : Int))
      exact (hperm r hr).symm.pairwise hf (fun {a b} hab => fun e => hab e.symm)
    · rw [List.getD_eq_default _ _ (by omega)]
      exact List.Pairwise.nil
  refine ⟨hP, hS, hD, ?_⟩
  have hboth := hS.and hD
  refine hboth.imp ?_
  intro a b hab
  obtain ⟨h1, h2⟩ := hab
  unfold msg_lex_le at h1
  unfold epoch_seq_lt
  omega

set_option maxRecDepth 100000 in
/-- Witness of C30: the schedule `doc_two_deliveries` with three workers. -/
theorem build_messages_rank0_sorted_witness :
    build_messages_rank0 doc_two_deliveries 3 = some loaded_two_deliveries ∧
    (∀ x y : Msg, cmp_msg x y = 0 ↔ x = y) ∧
    (∀ x y : Msg, cmp_msg x y ≤ 0 ↔ msg_lex_le x y) ∧
    ∃ paths st, doc_two_deliveries.chunk_paths = some paths ∧
      build_entries loaded_two_deliveries.host_ids paths.child (build_init 3) = some st ∧
      ∀ r : Nat,
        (loaded_two_deliveries.per_rank.getD r []).Perm (st.per_rank.getD r []) ∧
        (loaded_two_deliveries.per_rank.getD r []).Pairwise msg_lex_le ∧
        (loaded_two_deliveries.per_rank.getD r []).Pairwise (fun x y => x.seq ≠ y.seq) ∧
        (loaded_two_deliveries.per_rank.getD r []).Pairwise epoch_seq_lt :=
  ⟨by decide, build_messages_rank0_sorted doc_two_deliveries 3 loaded_two_deliveries
    (by decide)⟩

/-! ### Missing chunk-paths section; chunk size -/

theorem assign_ids_from_mem (l : FlowVec) :
    ∀ (i : Nat) (f : FlowInfo), f ∈ assign_ids_from i l →
      ∃ g ∈ l, f.role = g.role ∧ f.has_pred = g.has_pred ∧ f.key = g.key := by
  induction l with
  | nil => intro i f h; simp [assign_ids_from] at h
  | cons x xs ih =>
    intro i f h
    unfold assign_ids_from at h
    rcases List.mem_cons.mp h with rfl | h
    · exact ⟨x, List.mem_cons_self _ _, rfl, rfl, rfl⟩
    · obtain ⟨g, hg, h1⟩ := ih _ _ h
      exact ⟨g, List.mem_cons_of_mem _ hg, h1⟩

theorem lowerer_flows_fresh_of_no_chunk_paths (cfg : TopoCfg) (sroot : ScheduleDoc)
    (h : sroot.chunk_paths = none) :
    ∀ f ∈ lowerer_flows cfg sroot, f.role = Role.ROLE_UNKNOWN ∧ f.has_pred = false := by
  intro f hf
  unfold lowerer_flows compute_sizes assign_ids_sorted annotate_8_chunk_paths at hf
  simp only [h] at hf
  rw [List.mem_map] at hf
  obtain ⟨g, hg, rfl⟩ := hf
  obtain ⟨g2, hg2, h1, h2, -⟩ := assign_ids_from_mem _ _ _ hg
  have hg3 : g2 ∈ parse_7_flows_into_vec sroot [] :=
    (List.perm_insertionSort flow_le _).mem_iff.mp hg2
  obtain ⟨r1, r2, -⟩ := (parse_7_flows_inv sroot).2 g2 hg3
  exact ⟨by simpa [h1] using r1, by simpa [h2] using r2⟩

theorem foldl_succ_count_no_pred (flows : FlowVec) (gs : List FlowInfo)
    (h : ∀ f ∈ gs, f.has_pred = false) :
    ∀ sc : List Int, gs.foldl (succ_count_step flows) sc = sc := by
  induction gs with
  | nil => intro sc; rfl
  | cons g rest ih =>
    intro sc
    rw [List.foldl_cons]
    have hg : succ_count_step flows sc g = sc := by
      unfold succ_count_step
      rw [h g (List.mem_cons_self _ _)]
      rfl
    rw [hg]
    exact ih (fun f hf => h f (List.mem_cons_of_mem _ hf)) sc

/-- C24 (amended): a schedule document without the "8-Chunk paths" member stops the Validator
(`return 1`, no verdict) and the Simulator (`MPI_Abort`, no simulation).  The Lowerer does
not stop: it warns, leaves every flow read from "7-Flows" without a role and without a
predecessor, and writes the `.cm` file: the header with `Triggers 0`, then one
`start 0` line for each flow, and no trigger line. -/
theorem no_chunk_paths_section (sroot : ScheduleDoc) (total_chunks world_size : Int)
    (cfg : TopoCfg) (h : sroot.chunk_paths = none) :
    validator_main total_chunks sroot = none ∧
    build_messages_rank0 sroot world_size = none ∧
    (∀ f ∈ lowerer_flows cfg sroot, f.role = Role.ROLE_UNKNOWN ∧ f.has_pred = false) ∧
    (lowerer_flows cfg sroot).length = (parse_7_flows_into_vec sroot []).length ∧
    lowerer_main cfg sroot =
      [CmLine.nodes (lowerer_nodes cfg),
       CmLine.connections ((lowerer_flows cfg sroot).length : Nat),
       CmLine.triggers 0]
      ++ (lowerer_flows cfg sroot).map fun f =>
        CmLine.start f.key.src f.key.dst f.id f.size_bytes := by
  have hfresh := lowerer_flows_fresh_of_no_chunk_paths cfg sroot h
  have hsc : succ_count (lowerer_flows cfg sroot) =
      List.replicate (lowerer_flows cfg sroot).length 0 := by
    unfold succ_count
    exact foldl_succ_count_no_pred _ _ (fun f hf => (hfresh f hf).2) _
  have hfilter : ((lowerer_flows cfg sroot).filter fun f =>
      decide ((succ_count (lowerer_flows cfg sroot)).getD (f.id - 1).toNat 0 > 0)) = [] := by
    rw [List.filter_eq_nil_iff]
    intro f _
    rw [hsc]
    simp
  refine ⟨?_, ?_, hfresh, lowerer_flows_length cfg sroot, ?_⟩
  · unfold validator_main
    split
    · rfl
    · simp only [h]
  · unfold build_messages_rank0
    simp only [h]
  · unfold lowerer_main count_triggers
    simp only [hfilter, List.length_nil, List.map_nil, List.append_nil, Nat.cast_zero]
    congr 1
    apply List.map_congr_left
    intro f hf
    unfold conn_line
    simp only [(hfresh f hf).1, or_true, if_true]

set_option maxRecDepth 100000 in
/-- Witness of C24 (amended): `doc_no_chunk_paths` with the configuration `cfg_demo`. -/
theorem no_chunk_paths_section_witness :
    doc_no_chunk_paths.chunk_paths = none ∧
    validator_main 1 doc_no_chunk_paths = none ∧
    build_messages_rank0 doc_no_chunk_paths 2 = none ∧
    (∀ f ∈ lowerer_flows cfg_demo doc_no_chunk_paths,
      f.role = Role.ROLE_UNKNOWN ∧ f.has_pred = false) ∧
    (lowerer_flows cfg_demo doc_no_chunk_paths).length =
      (parse_7_flows_into_vec doc_no_chunk_paths []).length ∧
    lowerer_main cfg_demo doc_no_chunk_paths =
      [CmLine.nodes (cfg_demo.num_groups * cfg_demo.leaf_routers * cfg_demo.hosts_per_router),
       CmLine.connections ((lowerer_flows cfg_demo doc_no_chunk_paths).length : Nat),
       CmLine.triggers 0]
      ++ (lowerer_flows cfg_demo doc_no_chunk_paths).map fun f =>
        CmLine.start f.key.src f.key.dst f.id f.size_bytes :=
  ⟨rfl, no_chunk_paths_section doc_no_chunk_paths 1 2 cfg_demo rfl⟩

set_option maxRecDepth 100000 in
/-- C24 (counterexample): for `doc_no_chunk_paths` the Lowerer writes a complete `.cm` file
with one connection. -/
theorem lowerer_writes_without_chunk_paths :
    doc_no_chunk_paths.chunk_paths = none ∧
    lowerer_file cfg_demo doc_no_chunk_paths =
      ["Nodes 4", "Connections 1", "Triggers 0", "0->1 id 1 start 0 size 1000"] := by
  decide

/-! ### Chunk size in `double` arithmetic -/

theorem annotate_rest_forall {P : FlowInfo → Prop}
    (hm : ∀ p x, P x → P (write_mid p x)) (hl : ∀ p x, P x → P (write_last p x))
    (rest : List FlowKey) :
    ∀ (fv : FlowVec) (p : FlowKey), (∀ x ∈ fv, P x) → ∀ x ∈ annotate_rest fv p rest, P x := by
  induction rest with
  | nil => intro fv p h; exact h
  | cons a t ih =>
    intro fv p h
    cases t with
    | nil => exact vec_update_forall (hl p) fv a h
    | cons b r =>
      unfold annotate_rest
      exact ih _ a (vec_update_forall (hm p) fv a h)

theorem annotate_steps_forall {P : FlowInfo → Prop}
    (hs : ∀ x, P x → P (write_single x)) (hf : ∀ x, P x → P (write_first x))
    (hm : ∀ p x, P x → P (write_mid p x)) (hl : ∀ p x, P x → P (write_last p x))
    (fv : FlowVec) (steps : List FlowKey) (h : ∀ x ∈ fv, P x) :
    ∀ x ∈ annotate_steps fv steps, P x := by
  match steps with
  | [] => exact h
  | [a] => exact vec_update_forall hs fv a h
  | a :: b :: rest =>
    unfold annotate_steps
    exact annotate_rest_forall hm hl _ _ a (vec_update_forall hf fv a h)

theorem annotate_8_chunk_paths_forall {P : FlowInfo → Prop}
    (hs : ∀ x, P x → P (write_single x)) (hf : ∀ x, P x → P (write_first x))
    (hm : ∀ p x, P x → P (write_mid p x)) (hl : ∀ p x, P x → P (write_last p x))
    (root : ScheduleDoc) (fv : FlowVec) (h : ∀ x ∈ fv, P x) :
    ∀ x ∈ annotate_8_chunk_paths root fv, P x := by
  have hfold : ∀ (es : List JEntry) (fv : FlowVec), (∀ x ∈ fv, P x) →
      ∀ x ∈ es.foldl annotate_demand fv, P x := by
    intro es
    induction es with
    | nil => intro fv h; exact h
    | cons e es ih =>
      intro fv h
      rw [List.foldl_cons]
      apply ih
      unfold annotate_demand
      split
      · exact h
      · exact annotate_steps_forall hs hf hm hl fv _ h
  unfold annotate_8_chunk_paths
  split
  · exact h
  · split
    · exact h
    · exact hfold _ _ h

theorem role_flags_ok_fresh {f : FlowInfo} (h : Fresh f) : role_flags_ok f := by
  obtain ⟨h1, h2, h3⟩ := h
  unfold role_flags_ok
  simp [h1, h2, h3]

theorem role_flags_ok_single (x : FlowInfo) (h : role_flags_ok x) :
    role_flags_ok (write_single x) := by
  unfold write_single
  split
  · rename_i hr
    unfold role_flags_ok at h ⊢
    have := h.2.2.2 (Or.inr hr)
    simp [this]
  · exact h

theorem role_flags_ok_first (x : FlowInfo) (h : role_flags_ok x) :
    role_flags_ok (write_first x) := by
  obtain ⟨h1, h2, h3, h4⟩ := h
  unfold write_first
  simp only
  cases hr : x.role with
  | ROLE_UNKNOWN =>
    have := h4 (Or.inr hr)
    simp [role_flags_ok, hr, this]
  | ROLE_NODIP =>
    have := h4 (Or.inl hr)
    simp [role_flags_ok, hr, this]
  | ROLE_FIRST =>
    have := h1 hr
    simp [role_flags_ok, hr, this]
  | ROLE_MID =>
    have := h2 hr
    simp [role_flags_ok, hr, this]
  | ROLE_LAST =>
    have := h3 hr
    simp [role_flags_ok, hr, this]

theorem role_flags_ok_mid (p : FlowKey) (x : FlowInfo) (_h : role_flags_ok x) :
    role_flags_ok (write_mid p x) := by
  simp [role_flags_ok, write_mid]

theorem role_flags_ok_last (p : FlowKey) (x : FlowInfo) (_h : role_flags_ok x) :
    role_flags_ok (write_last p x) := by
  unfold write_last
  simp only
  cases hs : x.has_succ <;> simp [role_flags_ok, hs]

theorem has_pred_iff_of_role_flags_ok (f : FlowInfo) (h : role_flags_ok f) :
    f.has_pred = true ↔ (f.role = Role.ROLE_MID ∨ f.role = Role.ROLE_LAST) := by
  obtain ⟨h1, h2, h3, h4⟩ := h
  constructor
  · intro hp
    cases hr : f.role with
    | ROLE_UNKNOWN => have := (h4 (Or.inr hr)).1; rw [hp] at this; cases this
    | ROLE_NODIP => have := (h4 (Or.inl hr)).1; rw [hp] at this; cases this
    | ROLE_FIRST => have := (h1 hr).2; rw [hp] at this; cases this
    | ROLE_MID => exact Or.inl rfl
    | ROLE_LAST => exact Or.inr rfl
  · rintro (hr | hr)
    · exact (h2 hr).1
    · exact h3 hr

theorem assign_ids_from_mem_eq (l : FlowVec) :
    ∀ (i : Nat) (f : FlowInfo), f ∈ assign_ids_from i l → ∃ g ∈ l, f = { g with id := f.id } := by
  induction l with
  | nil => intro i f h; simp [assign_ids_from] at h
  | cons x xs ih =>
    intro i f h
    unfold assign_ids_from at h
    rcases List.mem_cons.mp h with rfl | h
    · exact ⟨x, List.mem_cons_self _ _, rfl⟩
    · obtain ⟨g, hg, h1⟩ := ih _ _ h
      exact ⟨g, List.mem_cons_of_mem _ hg, h1⟩

theorem lowerer_flows_mem_annotated (cfg : TopoCfg) (sroot : ScheduleDoc) (f : FlowInfo)
    (hf : f ∈ lowerer_flows cfg sroot) :
    ∃ g ∈ annotated_flows sroot, f = { g with id := f.id, size_bytes := f.size_bytes } := by
  unfold lowerer_flows compute_sizes assign_ids_sorted at hf
  rw [List.mem_map] at hf
  obtain ⟨g1, hg1, rfl⟩ := hf
  obtain ⟨g, hg, h1⟩ := assign_ids_from_mem_eq _ _ _ hg1
  have hg2 : g ∈ annotated_flows sroot := (List.perm_insertionSort flow_le _).mem_iff.mp hg
  refine ⟨g, hg2, ?_⟩
  rw [h1]

theorem annotated_flows_role_flags_ok (sroot : ScheduleDoc) :
    ∀ f ∈ annotated_flows sroot, role_flags_ok f := by
  unfold annotated_flows
  exact annotate_8_chunk_paths_forall role_flags_ok_single role_flags_ok_first role_flags_ok_mid
    role_flags_ok_last sroot _ (fun x hx => role_flags_ok_fresh ((parse_7_flows_inv sroot).2 x hx))

theorem lowerer_flows_role_flags_ok (cfg : TopoCfg) (sroot : ScheduleDoc) :
    ∀ f ∈ lowerer_flows cfg sroot, role_flags_ok f := by
  intro f hf
  obtain ⟨g, hg, he⟩ := lowerer_flows_mem_annotated cfg sroot f hf
  have := annotated_flows_role_flags_ok sroot g hg
  rw [he]
  exact this

/-- C31: `annotate_8_chunk_paths` keeps the relation between role and flags: if it holds for
every flow of a table (as it does for the flows `vec_add` creates), it holds for every flow
after the annotation, for any chunk-paths section.  So in the table annotated from "7-Flows"
and in the table `main` writes from, every flow has: role FIRST implies `has_succ` set and
`has_pred` unset; role MID implies both set; role LAST implies `has_pred` set; role NODIP or
UNKNOWN implies both unset; and `has_pred` is set exactly when the role is MID or LAST. -/
theorem annotate_role_flags (root : ScheduleDoc) (cfg : TopoCfg) :
    (∀ fv : FlowVec, (∀ f ∈ fv, role_flags_ok f) →
      ∀ f ∈ annotate_8_chunk_paths root fv, role_flags_ok f) ∧
    (∀ f ∈ annotate_8_chunk_paths root (parse_7_flows_into_vec root []),
      ((f.role = Role.ROLE_FIRST → f.has_succ = true ∧ f.has_pred = false) ∧
       (f.role = Role.ROLE_MID → f.has_pred = true ∧ f.has_succ = true) ∧
       (f.role = Role.ROLE_LAST → f.has_pred = true) ∧
       (f.role = Role.ROLE_NODIP ∨ f.role = Role.ROLE_UNKNOWN →
         f.has_pred = false ∧ f.has_succ = false)) ∧
      (f.has_pred = true ↔ (f.role = Role.ROLE_MID ∨ f.role = Role.ROLE_LAST))) ∧
    (∀ f ∈ lowerer_flows cfg root,
      role_flags_ok f ∧
      (f.has_pred = true ↔ (f.role = Role.ROLE_MID ∨ f.role = Role.ROLE_LAST))) := by
  refine ⟨?_, ?_, ?_⟩
  · intro fv h
    exact annotate_8_chunk_paths_forall role_flags_ok_single role_flags_ok_first
      role_flags_ok_mid role_flags_ok_last root fv h
  · intro f hf
    have h := annotated_flows_role_flags_ok root f hf
    exact ⟨h, has_pred_iff_of_role_flags_ok f h⟩
  · intro f hf
    have h := lowerer_flows_role_flags_ok cfg root f hf
    exact ⟨h, has_pred_iff_of_role_flags_ok f h⟩

/-! ### The predecessor a flow keeps -/

theorem pred_single (x : FlowInfo) :
    ((write_single x).has_pred, (write_single x).pred) = (x.has_pred, x.pred) := by
  unfold write_single
  split <;> rfl

theorem pred_first (x : FlowInfo) :
    ((write_first x).has_pred, (write_first x).pred) = (x.has_pred, x.pred) := by
  unfold write_first
  simp only
  split
  · rfl
  · split
    · split <;> rfl
    · rfl

theorem pred_last (p : FlowKey) (x : FlowInfo) :
    ((write_last p x).has_pred, (write_last p x).pred) = (true, p) := by
  unfold write_last
  simp only
  split <;> rfl

theorem annotate_rest_pred (rest : List FlowKey) :
    ∀ (fv : FlowVec) (p k : FlowKey),
      (vec_find (annotate_rest fv p rest) k).map (fun f => (f.has_pred, f.pred)) =
        (vec_find fv k).map fun f =>
          apply_pred_writes (f.has_pred, f.pred) (pred_writes (p :: rest)) k := by
  induction rest with
  | nil =>
    intro fv p k
    simp [annotate_rest, pred_writes, apply_pred_writes]
  | cons a t ih =>
    intro fv p k
    cases t with
    | nil =>
      unfold annotate_rest annotate_last
      rw [vec_find_update (keypres_last p)]
      by_cases hk : k = a
      · subst hk
        rw [if_pos rfl]
        cases vec_find fv k with
        | none => rfl
        | some f =>
          simp only [Option.map_some', pred_last, pred_writes, apply_pred_writes,
            List.foldl_cons, List.foldl_nil, if_true]
      · rw [if_neg hk]
        cases vec_find fv k with
        | none => rfl
        | some f =>
          have hk2 : ¬ a = k := fun h => hk h.symm
          simp only [Option.map_some', pred_writes, apply_pred_writes,
            List.foldl_cons, List.foldl_nil, hk2, if_false]
    | cons b r =>
      unfold annotate_rest
      rw [ih, annotate_mid, vec_find_update (keypres_mid p)]
      by_cases hk : k = a
      · subst hk
        rw [if_pos rfl]
        cases vec_find fv k with
        | none => rfl
        | some f =>
          simp only [Option.map_some', write_mid]
          rw [show pred_writes (p :: k :: b :: r) = (k, p) :: pred_writes (k :: b :: r) from rfl]
          simp only [apply_pred_writes, List.foldl_cons, if_true]
      · rw [if_neg hk]
        cases vec_find fv k with
        | none => rfl
        | some f =>
          have hk2 : ¬ a = k := fun h => hk h.symm
          simp only [Option.map_some']
          rw [show pred_writes (p :: a :: b :: r) = (a, p) :: pred_writes (a :: b :: r) from rfl]
          simp only [apply_pred_writes, List.foldl_cons, hk2, if_false]

theorem annotate_steps_pred (fv : FlowVec) (steps : List FlowKey) (k : FlowKey) :
    (vec_find (annotate_steps fv steps) k).map (fun f => (f.has_pred, f.pred)) =
      (vec_find fv k).map fun f =>
        apply_pred_writes (f.has_pred, f.pred) (pred_writes steps) k := by
  match steps with
  | [] => simp [annotate_steps, pred_writes, apply_pred_writes]
  | [a] =>
    unfold annotate_steps annotate_single
    rw [vec_find_update keypres_single]
    by_cases hk : k = a
    · subst hk
      rw [if_pos rfl]
      cases vec_find fv k with
      | none => rfl
      | some f => simp [pred_single, pred_writes, apply_pred_writes]
    · rw [if_neg hk]
      simp [pred_writes, apply_pred_writes]
  | a :: b :: rest =>
    unfold annotate_steps
    rw [annotate_rest_pred, annotate_first, vec_find_update keypres_first]
    by_cases hk : k = a
    · subst hk
      rw [if_pos rfl]
      cases vec_find fv k with
      | none => rfl
      | some f =>
        simp only [Option.map_some']
        rw [pred_first]
    · rw [if_neg hk]

theorem apply_pred_writes_append (x : Bool × FlowKey) (ws1 ws2 : List (FlowKey × FlowKey))
    (k : FlowKey) :
    apply_pred_writes x (ws1 ++ ws2) k = apply_pred_writes (apply_pred_writes x ws1 k) ws2 k := by
  unfold apply_pred_writes
  rw [List.foldl_append]

theorem annotate_8_chunk_paths_pred (root : ScheduleDoc) (fv : FlowVec) (k : FlowKey) :
    (vec_find (annotate_8_chunk_paths root fv) k).map (fun f => (f.has_pred, f.pred)) =
      (vec_find fv k).map fun f =>
        apply_pred_writes (f.has_pred, f.pred) (doc_pred_writes root) k := by
  have hfold : ∀ (es : List JEntry) (fv : FlowVec),
      (vec_find (es.foldl annotate_demand fv) k).map (fun f => (f.has_pred, f.pred)) =
        (vec_find fv k).map fun f =>
          apply_pred_writes (f.has_pred, f.pred)
            (es.flatMap fun d =>
              if d.type ≠ JType.jArray then [] else pred_writes (collect_steps d.child [])) k := by
    intro es
    induction es with
    | nil =>
      intro fv
      simp [apply_pred_writes]
    | cons e es ih =>
      intro fv
      rw [List.foldl_cons, ih, List.flatMap_cons]
      unfold annotate_demand
      by_cases ht : e.type ≠ JType.jArray
      · rw [if_pos ht, if_pos ht, List.nil_append]
      · rw [if_neg ht, if_neg ht]
        have h := annotate_steps_pred fv (collect_steps e.child []) k
        cases h1 : vec_find (annotate_steps fv (collect_steps e.child [])) k with
        | none =>
          rw [h1] at h
          cases h2 : vec_find fv k with
          | none => rfl
          | some f => rw [h2] at h; simp at h
        | some g =>
          rw [h1] at h
          cases h2 : vec_find fv k with
          | none => rw [h2] at h; simp at h
          | some f =>
            rw [h2] at h
            simp only [Option.map_some', Option.some.injEq] at h ⊢
            rw [apply_pred_writes_append, ← h]
  unfold annotate_8_chunk_paths doc_pred_writes
  cases root.chunk_paths with
  | none => simp [apply_pred_writes]
  | some cp =>
    simp only
    by_cases ht : cp.type ≠ JType.jObject
    · rw [if_pos ht, if_pos ht]
      simp [apply_pred_writes]
    · rw [if_neg ht, if_neg ht]
      exact hfold _ _

theorem apply_pred_writes_eq (ws : List (FlowKey × FlowKey)) (k : FlowKey) :
    ∀ x : Bool × FlowKey, apply_pred_writes x ws k =
      match last_pred_write ws k with
      | none => x
      | some q => (true, q) := by
  induction ws with
  | nil => intro x; rfl
  | cons w ws ih =>
    intro x
    have hstep : apply_pred_writes x (w :: ws) k =
        apply_pred_writes (if w.1 = k then (true, w.2) else x) ws k := rfl
    rw [hstep, ih]
    unfold last_pred_write
    by_cases hw : w.1 = k
    · rw [if_pos hw, List.filter_cons_of_pos (by simpa using hw)]
      cases hF : ws.filter (fun w => decide (w.1 = k)) with
      | nil => simp
      | cons y ys =>
        obtain ⟨z, hz⟩ : ∃ z, (y :: ys).getLast? = some z :=
          ⟨_, List.getLast?_eq_getLast _ (by simp)⟩
        simp only [List.getLast?_cons_cons, hz, Option.map_some']
    · rw [if_neg hw, List.filter_cons_of_neg (by simpa using hw)]

theorem lowerer_flows_pred (cfg : TopoCfg) (sroot : ScheduleDoc) (f : FlowInfo)
    (hf : f ∈ lowerer_flows cfg sroot) :
    match last_pred_write (doc_pred_writes sroot) f.key with
    | none => f.has_pred = false
    | some q => f.has_pred = true ∧ f.pred = q := by
  obtain ⟨g, hg, he⟩ := lowerer_flows_mem_annotated cfg sroot f hf
  have hkey : f.key = g.key := by rw [he]
  have hp1 : f.has_pred = g.has_pred := by rw [he]
  have hp2 : f.pred = g.pred := by rw [he]
  have hnd : ((annotated_flows sroot).map FlowInfo.key).Nodup := by
    unfold annotated_flows
    rw [annotate_8_chunk_paths_keys]
    exact (parse_7_flows_inv sroot).1
  have hfind : vec_find (annotated_flows sroot) g.key = some g := vec_find_of_mem_nodup hnd hg
  have hmem : g.key ∈ (parse_7_flows_into_vec sroot []).map FlowInfo.key := by
    rw [← annotate_8_chunk_paths_keys sroot]
    exact List.mem_map_of_mem _ hg
  obtain ⟨g0, hg0, hk0⟩ := List.mem_map.mp hmem
  have hfind0 : vec_find (parse_7_flows_into_vec sroot []) g.key = some g0 := by
    rw [← hk0]
    exact vec_find_of_mem_nodup (parse_7_flows_inv sroot).1 hg0
  have hfresh := (parse_7_flows_inv sroot).2 g0 hg0
  have h := annotate_8_chunk_paths_pred sroot (parse_7_flows_into_vec sroot []) g.key
  unfold annotated_flows at hfind
  rw [hfind, hfind0] at h
  simp only [Option.map_some', Option.some.injEq] at h
  rw [apply_pred_writes_eq, hfresh.2.1] at h
  rw [hkey, hp1, hp2]
  cases hl : last_pred_write (doc_pred_writes sroot) g.key with
  | none =>
    rw [hl] at h
    exact congrArg Prod.fst h
  | some q =>
    rw [hl] at h
    exact ⟨congrArg Prod.fst h, congrArg Prod.snd h⟩

/-! ### Waits and triggers of the output -/

theorem lowerer_flows_index (cfg : TopoCfg) (sroot : ScheduleDoc) (f : FlowInfo)
    (hf : f ∈ lowerer_flows cfg sroot) :
    ∃ j, (lowerer_flows cfg sroot)[j]? = some f ∧ j < (lowerer_flows cfg sroot).length ∧
      f.id = ((j + 1 : Nat) : Int) ∧ (f.id - 1).toNat = j := by
  obtain ⟨j, hj⟩ := List.getElem?_of_mem hf
  have hid := lowerer_flows_id cfg sroot j f hj
  refine ⟨j, hj, (List.getElem?_eq_some.mp hj).1, hid, ?_⟩
  rw [hid]
  simp

theorem conn_line_waits_on (flows : FlowVec) (sc : List Int) (f : FlowInfo) (p : Int) :
    (conn_line flows sc f).waits_on p = true ↔
      ((f.role = Role.ROLE_MID ∨ f.role = Role.ROLE_LAST) ∧ pred_id flows f = p ∧ p ≠ 0) := by
  unfold conn_line
  simp only
  cases hr : f.role <;> simp only [reduceCtorEq, or_false, or_true, false_or, true_or, if_true,
    if_false, false_and, true_and]
  · simp [CmLine.waits_on]
  · simp [CmLine.waits_on]
  · split <;> simp [CmLine.waits_on]
  · by_cases h0 : pred_id flows f = 0
    · rw [if_pos h0]
      split <;> simp [CmLine.waits_on] <;> intro h <;> rw [← h] <;> exact h0
    · rw [if_neg h0]
      split <;> simp [CmLine.waits_on] <;> intro h <;> rw [← h] <;> exact h0
  · by_cases h0 : pred_id flows f = 0
    · rw [if_pos h0]
      simp [CmLine.waits_on]
      intro h; rw [← h]; exact h0
    · rw [if_neg h0]
      simp [CmLine.waits_on]
      intro h; rw [← h]; exact h0

theorem pred_id_eq (flows : FlowVec) (f : FlowInfo) (p : Int) (hp : p ≠ 0)
    (h : pred_id flows f = p) :
    f.has_pred = true ∧ ∃ q, vec_find flows f.pred = some q ∧ q.id = p := by
  unfold pred_id at h
  split at h
  · rename_i hh
    split at h
    · exact absurd h.symm hp
    · rename_i q hq
      exact ⟨hh, q, hq, h⟩
  · exact absurd h.symm hp

theorem succ_target_eq (flows : FlowVec) (f q : FlowInfo) (hp : f.has_pred = true)
    (hq : vec_find flows f.pred = some q) :
    succ_target flows f = some (q.id - 1).toNat := by
  unfold succ_target
  rw [if_pos hp, hq]
  rfl

theorem succ_target_some (flows : FlowVec) (f : FlowInfo) (j : Nat)
    (h : succ_target flows f = some j) :
    f.has_pred = true ∧ ∃ q, vec_find flows f.pred = some q ∧ j = (q.id - 1).toNat := by
  unfold succ_target at h
  split at h
  · rename_i hh
    cases hq : vec_find flows f.pred with
    | none => rw [hq] at h; cases h
    | some q =>
      rw [hq] at h
      simp only [Option.map_some', Option.some.injEq] at h
      exact ⟨hh, q, rfl, h.symm⟩
  · cases h

theorem oneshot_mem_lowerer_main (cfg : TopoCfg) (sroot : ScheduleDoc) (p : Int) :
    CmLine.oneshot p ∈ lowerer_main cfg sroot ↔
      ∃ f ∈ lowerer_flows cfg sroot,
        (succ_count (lowerer_flows cfg sroot)).getD (f.id - 1).toNat 0 > 0 ∧ f.id = p := by
  unfold lowerer_main
  simp only [List.mem_append, List.mem_cons, List.mem_map, List.mem_filter, decide_eq_true_eq,
    reduceCtorEq, false_or, List.not_mem_nil, or_false, CmLine.oneshot.injEq]
  constructor
  · rintro (⟨f, _, hf⟩ | h)
    · exfalso
      have := conn_line_is_conn (lowerer_flows cfg sroot) (succ_count (lowerer_flows cfg sroot)) f
      rw [hf] at this
      simp [CmLine.is_conn] at this
    · obtain ⟨f, ⟨hf, hs⟩, hid⟩ := h
      exact ⟨f, hf, hs, hid⟩
  · rintro ⟨f, hf, hs, hid⟩
    exact Or.inr ⟨f, ⟨hf, hs⟩, hid⟩

/-- C32: in the output of the Lowerer, a connection line carries `trigger p` exactly when the
trigger section holds `trigger id p oneshot`; every id of the trigger section is the id of a
flow, between 1 and the number of connections; and the trigger section, which follows the
header and the connection lines, lists its ids in strictly increasing order, so each once. -/
theorem lowerer_waits_match_triggers (cfg : TopoCfg) (sroot : ScheduleDoc) :
    (∀ p : Int,
      (∃ f ∈ lowerer_flows cfg sroot,
        (conn_line (lowerer_flows cfg sroot) (succ_count (lowerer_flows cfg sroot)) f).waits_on p
          = true) ↔
      CmLine.oneshot p ∈ lowerer_main cfg sroot) ∧
    (∀ p : Int, CmLine.oneshot p ∈ lowerer_main cfg sroot →
      1 ≤ p ∧ p ≤ ((lowerer_flows cfg sroot).length : Int)) ∧
    ∃ ids : List Int,
      lowerer_main cfg sroot =
        [CmLine.nodes (lowerer_nodes cfg),
         CmLine.connections ((lowerer_flows cfg sroot).length : Nat),
         CmLine.triggers (ids.length : Nat)]
        ++ (lowerer_flows cfg sroot).map
            (conn_line (lowerer_flows cfg sroot) (succ_count (lowerer_flows cfg sroot)))
        ++ ids.map CmLine.oneshot ∧
      ids.Pairwise (fun a b => a < b) := by
  have hnd := lowerer_flows_keys_nodup cfg sroot
  have hidx := lowerer_flows_id cfg sroot
  refine ⟨?_, ?_, ?_⟩
  · intro p
    rw [oneshot_mem_lowerer_main]
    constructor
    · rintro ⟨f, hf, hw⟩
      rw [conn_line_waits_on] at hw
      obtain ⟨-, hpid, hp0⟩ := hw
      obtain ⟨hhp, q, hq, hqid⟩ := pred_id_eq _ f p hp0 hpid
      have hqm : q ∈ lowerer_flows cfg sroot := vec_find_some_mem hq
      obtain ⟨j, hj, -, -, -⟩ := lowerer_flows_index cfg sroot q hqm
      refine ⟨q, hqm, ?_, hqid⟩
      rw [succ_count_pos_iff _ hnd hidx j q hj]
      exact ⟨f, hf, hhp, (vec_find_some_key hq).symm⟩
    · rintro ⟨q, hqm, hs, hqid⟩
      obtain ⟨j, hj, -, hjid, -⟩ := lowerer_flows_index cfg sroot q hqm
      rw [succ_count_pos_iff _ hnd hidx j q hj] at hs
      obtain ⟨g, hg, hgp, hgk⟩ := hs
      refine ⟨g, hg, ?_⟩
      rw [conn_line_waits_on]
      have hfind : vec_find (lowerer_flows cfg sroot) g.pred = some q := by
        rw [hgk]; exact vec_find_of_mem_nodup hnd hqm
      have hpid : pred_id (lowerer_flows cfg sroot) g = q.id := by
        unfold pred_id
        rw [if_pos hgp, hfind]
      refine ⟨(has_pred_iff_of_role_flags_ok g (lowerer_flows_role_flags_ok cfg sroot g hg)).mp hgp,
        hpid.trans hqid, ?_⟩
      rw [← hqid, hjid]
      exact_mod_cast Nat.succ_ne_zero j
  · intro p hp
    rw [oneshot_mem_lowerer_main] at hp
    obtain ⟨f, hf, -, hid⟩ := hp
    obtain ⟨j, -, hjl, hjid, -⟩ := lowerer_flows_index cfg sroot f hf
    rw [← hid, hjid]
    constructor
    · exact_mod_cast Nat.succ_le_succ (Nat.zero_le j)
    · exact_mod_cast hjl
  · refine ⟨((lowerer_flows cfg sroot).filter fun f =>
        decide ((succ_count (lowerer_flows cfg sroot)).getD (f.id - 1).toNat 0 > 0)).map
        FlowInfo.id, ?_, ?_⟩
    · unfold lowerer_main count_triggers
      simp only [List.length_map, List.map_map]
      rfl
    · have hall : ((lowerer_flows cfg sroot).map FlowInfo.id).Pairwise (fun a b => a < b) := by
        rw [List.pairwise_iff_getElem]
        intro i j hi hj hij
        simp only [List.length_map] at hi hj
        have h1 := hidx i _ (List.getElem?_eq_getElem hi)
        have h2 := hidx j _ (List.getElem?_eq_getElem hj)
        simp only [List.getElem_map, h1, h2]
        exact_mod_cast Nat.succ_lt_succ hij
      exact hall.sublist ((List.filter_sublist _).map _)

/-! ### The last predecessor write -/

/-- C34 (amended): `doc_pred_writes` lists, in document order, the pairs (step, step before
it) of the steps the Lowerer collects from each chain, at most 512 per chain.  When the last
pair for the hop of a flow `f` names the hop `q` (the flow stands at a non-first position
among the first 512 steps of one or more chains, `q` being the step before it at its last
such occurrence in document order), `f` keeps `q` as its single predecessor.  The connection line of `f` carries `trigger p` only for the id `p` of the flow
of `q`, and it does so when `q` is in the table; in the loop that fills `succ_count`, `f`
adds to the counter of the flow of `q` and to no other: no flow with another hop, so none of
the earlier predecessors, is counted on account of `f`. -/
theorem lowerer_last_predecessor (cfg : TopoCfg) (sroot : ScheduleDoc) (f : FlowInfo)
    (q : FlowKey) (hf : f ∈ lowerer_flows cfg sroot)
    (hq : last_pred_write (doc_pred_writes sroot) f.key = some q) :
    f.has_pred = true ∧ f.pred = q ∧
    (∀ p : Int,
      (conn_line (lowerer_flows cfg sroot) (succ_count (lowerer_flows cfg sroot)) f).waits_on p
        = true →
      ∃ g, vec_find (lowerer_flows cfg sroot) q = some g ∧ g.key = q ∧ g.id = p) ∧
    (∀ g, vec_find (lowerer_flows cfg sroot) q = some g →
      (conn_line (lowerer_flows cfg sroot) (succ_count (lowerer_flows cfg sroot)) f).waits_on g.id
        = true) ∧
    (∀ j, succ_target (lowerer_flows cfg sroot) f = some j →
      ∃ g, vec_find (lowerer_flows cfg sroot) q = some g ∧ j = (g.id - 1).toNat) ∧
    (∀ h ∈ lowerer_flows cfg sroot, h.key ≠ q →
      succ_target (lowerer_flows cfg sroot) f ≠ some (h.id - 1).toNat) ∧
    (∀ j, j < (lowerer_flows cfg sroot).length →
      (succ_count (lowerer_flows cfg sroot)).getD j 0 =
        (((lowerer_flows cfg sroot).filter fun g =>
          decide (succ_target (lowerer_flows cfg sroot) g = some j)).length : Int)) := by
  have hpred := lowerer_flows_pred cfg sroot f hf
  rw [hq] at hpred
  obtain ⟨hp, hpq⟩ := hpred
  have htarget : ∀ j, succ_target (lowerer_flows cfg sroot) f = some j →
      ∃ g, vec_find (lowerer_flows cfg sroot) q = some g ∧ j = (g.id - 1).toNat := by
    intro j hj
    obtain ⟨-, g, hg, hjg⟩ := succ_target_some _ f j hj
    rw [hpq] at hg
    exact ⟨g, hg, hjg⟩
  refine ⟨hp, hpq, ?_, ?_, htarget, ?_, fun j hj => succ_count_getD _ j hj⟩
  · intro p hw
    rw [conn_line_waits_on] at hw
    obtain ⟨-, hpid, hp0⟩ := hw
    obtain ⟨-, g, hg, hgid⟩ := pred_id_eq _ f p hp0 hpid
    rw [hpq] at hg
    exact ⟨g, hg, vec_find_some_key hg, hgid⟩
  · intro g hg
    rw [conn_line_waits_on]
    have hgm : g ∈ lowerer_flows cfg sroot := vec_find_some_mem hg
    obtain ⟨j, -, -, hjid, -⟩ := lowerer_flows_index cfg sroot g hgm
    refine ⟨(has_pred_iff_of_role_flags_ok f (lowerer_flows_role_flags_ok cfg sroot f hf)).mp hp,
      ?_, ?_⟩
    · unfold pred_id
      rw [if_pos hp, hpq, hg]
    · rw [hjid]
      exact_mod_cast Nat.succ_ne_zero j
  · intro h hh hne habs
    obtain ⟨g, hg, hj⟩ := htarget _ habs
    have hgm : g ∈ lowerer_flows cfg sroot := vec_find_some_mem hg
    obtain ⟨j1, hj1, -, -, hi1⟩ := lowerer_flows_index cfg sroot g hgm
    obtain ⟨j2, hj2, -, -, hi2⟩ := lowerer_flows_index cfg sroot h hh
    rw [hi1, hi2] at hj
    subst hj
    rw [hj1] at hj2
    cases hj2
    exact hne (vec_find_some_key hg)

set_option maxRecDepth 100000 in
/-- Witness of C34 (amended): in `doc_two_preds` the hop 2 -> 3 follows 0 -> 2 in the first chain and
1 -> 2 in the second; the flow keeps 1 -> 2. -/
theorem lowerer_last_predecessor_witness :
    (flow_two_preds_last ∈ lowerer_flows cfg_demo doc_two_preds ∧
      doc_pred_writes doc_two_preds =
        [({ src := 2, dst := 3, epoch := 1 }, { src := 0, dst := 2, epoch := 0 }),
         ({ src := 2, dst := 3, epoch := 1 }, { src := 1, dst := 2, epoch := 0 })] ∧
      last_pred_write (doc_pred_writes doc_two_preds) flow_two_preds_last.key =
        some { src := 1, dst := 2, epoch := 0 }) ∧
    flow_two_preds_last.has_pred = true ∧
    flow_two_preds_last.pred = { src := 1, dst := 2, epoch := 0 } ∧
    (∀ p : Int,
      (conn_line (lowerer_flows cfg_demo doc_two_preds)
        (succ_count (lowerer_flows cfg_demo doc_two_preds)) flow_two_preds_last).waits_on p
        = true →
      ∃ g, vec_find (lowerer_flows cfg_demo doc_two_preds) { src := 1, dst := 2, epoch := 0 }
          = some g ∧ g.key = { src := 1, dst := 2, epoch := 0 } ∧ g.id = p) ∧
    (∀ g, vec_find (lowerer_flows cfg_demo doc_two_preds) { src := 1, dst := 2, epoch := 0 }
        = some g →
      (conn_line (lowerer_flows cfg_demo doc_two_preds)
        (succ_count (lowerer_flows cfg_demo doc_two_preds)) flow_two_preds_last).waits_on g.id
        = true) ∧
    (∀ j, succ_target (lowerer_flows cfg_demo doc_two_preds) flow_two_preds_last = some j →
      ∃ g, vec_find (lowerer_flows cfg_demo doc_two_preds) { src := 1, dst := 2, epoch := 0 }
          = some g ∧ j = (g.id - 1).toNat) ∧
    (∀ h ∈ lowerer_flows cfg_demo doc_two_preds, h.key ≠ { src := 1, dst := 2, epoch := 0 } →
      succ_target (lowerer_flows cfg_demo doc_two_preds) flow_two_preds_last
        ≠ some (h.id - 1).toNat) ∧
    (∀ j, j < (lowerer_flows cfg_demo doc_two_preds).length →
      (succ_count (lowerer_flows cfg_demo doc_two_preds)).getD j 0 =
        (((lowerer_flows cfg_demo doc_two_preds).filter fun g =>
          decide (succ_target (lowerer_flows cfg_demo doc_two_preds) g = some j)).length : Int)) :=
  ⟨by decide, lowerer_last_predecessor cfg_demo doc_two_preds flow_two_preds_last
    { src := 1, dst := 2, epoch := 0 } (by decide) (by decide)⟩

/-! ### Order of the "7-Flows" lines -/

theorem key_le_antisymm {a b : FlowKey} (h1 : key_le a b) (h2 : key_le b a) : a = b := by
  unfold key_le at h1 h2
  cases a; cases b
  simp only [FlowKey.mk.injEq] at *
  omega

theorem key_lt_of_le_of_ne {a b : FlowKey} (h : key_le a b) (hne : a ≠ b) : key_lt a b := by
  unfold key_le at h
  unfold key_lt
  have : ¬ (a.src = b.src ∧ a.dst = b.dst ∧ a.epoch = b.epoch) := by
    intro hh
    apply hne
    cases a; cases b
    simp only [FlowKey.mk.injEq] at *
    exact hh
  omega

theorem key_lt_irrefl (a : FlowKey) : ¬ key_lt a a := by
  unfold key_lt; omega

theorem key_lt_asymm {a b : FlowKey} (h : key_lt a b) : ¬ key_lt b a := by
  unfold key_lt at *; omega

theorem lowerer_flows_keys_sorted (cfg : TopoCfg) (sroot : ScheduleDoc) :
    ((lowerer_flows cfg sroot).map FlowInfo.key).Pairwise key_le := by
  haveI : IsTotal FlowInfo flow_le := ⟨fun x y => by
    rw [flow_le_iff, flow_le_iff]; exact key_le_total x.key y.key⟩
  haveI : IsTrans FlowInfo flow_le := ⟨fun x y z h1 h2 => by
    rw [flow_le_iff] at *; exact key_le_trans h1 h2⟩
  unfold lowerer_flows assign_ids_sorted
  rw [compute_sizes_keys, assign_ids_from_keys, List.pairwise_map]
  exact (List.sorted_insertionSort flow_le _).imp fun h => (flow_le_iff _ _).mp h

theorem lowerer_flows_keys_strict (cfg : TopoCfg) (sroot : ScheduleDoc) :
    ((lowerer_flows cfg sroot).map FlowInfo.key).Pairwise key_lt := by
  have h1 := lowerer_flows_keys_sorted cfg sroot
  have h2 : ((lowerer_flows cfg sroot).map FlowInfo.key).Pairwise (fun a b => a ≠ b) :=
    lowerer_flows_keys_nodup cfg sroot
  exact (h1.and h2).imp fun h => key_lt_of_le_of_ne h.1 h.2

theorem filter_key_lt_length (l : FlowVec) (hs : (l.map FlowInfo.key).Pairwise key_lt) :
    ∀ (j : Nat) (f : FlowInfo), l[j]? = some f →
      (l.filter fun g => decide (key_lt g.key f.key)).length = j := by
  induction l with
  | nil => intro j f h; simp at h
  | cons x xs ih =>
    intro j f h
    rw [List.map_cons, List.pairwise_cons] at hs
    obtain ⟨hx, hxs⟩ := hs
    cases j with
    | zero =>
      simp only [List.getElem?_cons_zero, Option.some.injEq] at h
      subst h
      rw [List.filter_cons_of_neg (by simpa using key_lt_irrefl x.key)]
      rw [List.length_eq_zero, List.filter_eq_nil_iff]
      intro g hg
      have := hx g.key (List.mem_map_of_mem _ hg)
      simpa using key_lt_asymm this
    | succ i =>
      simp only [List.getElem?_cons_succ] at h
      have hfm : f ∈ xs := List.getElem?_mem h
      have := hx f.key (List.mem_map_of_mem _ hfm)
      rw [List.filter_cons_of_pos (by simpa using this), List.length_cons, ih hxs i f h]

theorem flow_line_count_perm (A B : ScheduleDoc) (sA sB : JSection) (hA : A.flows7 = some sA)
    (hB : B.flows7 = some sB) (hty : sA.type = sB.type) (hperm : sA.child.Perm sB.child)
    (k : FlowKey) : flow_line_count A k = flow_line_count B k := by
  unfold flow_line_count
  rw [hA, hB]
  simp only [hty]
  split
  · rfl
  · exact (hperm.filter _).length_eq

theorem listed_in_7_flows_perm (A B : ScheduleDoc) (sA sB : JSection) (hA : A.flows7 = some sA)
    (hB : B.flows7 = some sB) (hty : sA.type = sB.type) (hperm : sA.child.Perm sB.child)
    (k : FlowKey) : listed_in_7_flows A k ↔ listed_in_7_flows B k := by
  rw [← flow_line_count_pos_iff, ← flow_line_count_pos_iff,
    flow_line_count_perm A B sA sB hA hB hty hperm]

theorem lowerer_flows_keys_eq_of_perm (cfg : TopoCfg) (A B : ScheduleDoc) (sA sB : JSection)
    (hA : A.flows7 = some sA) (hB : B.flows7 = some sB) (hty : sA.type = sB.type)
    (hperm : sA.child.Perm sB.child) :
    (lowerer_flows cfg A).map FlowInfo.key = (lowerer_flows cfg B).map FlowInfo.key := by
  haveI : IsAntisymm FlowKey key_le := ⟨fun a b h1 h2 => key_le_antisymm h1 h2⟩
  apply List.eq_of_perm_of_sorted _ (lowerer_flows_keys_sorted cfg A)
    (lowerer_flows_keys_sorted cfg B)
  rw [List.perm_ext_iff_of_nodup (lowerer_flows_keys_nodup cfg A) (lowerer_flows_keys_nodup cfg B)]
  intro k
  rw [(lowerer_flows_keys_perm cfg A).mem_iff, (lowerer_flows_keys_perm cfg B).mem_iff,
    mem_parse_7_flows_keys, mem_parse_7_flows_keys]
  exact listed_in_7_flows_perm A B sA sB hA hB hty hperm k

/-- C33: if two schedule documents have "7-Flows" sections that hold the same lines in
another order, the Lowerer builds flow tables with the same hops in the same order, and
every hop has the same occurrence count and the same id in both, whatever the chunk-paths
sections are.  The count of a hop is the number of its lines, and the id of a flow is 1 plus
the number of flows of the table whose hop comes before its hop in the order of
`(epoch, src, dst)`. -/
theorem lowerer_flows_order_independent (cfg : TopoCfg) (A B : ScheduleDoc) (sA sB : JSection)
    (hA : A.flows7 = some sA) (hB : B.flows7 = some sB) (hty : sA.type = sB.type)
    (hperm : sA.child.Perm sB.child) :
    (lowerer_flows cfg A).map (fun f => (f.key, f.count, f.id)) =
      (lowerer_flows cfg B).map (fun f => (f.key, f.count, f.id)) ∧
    ((lowerer_flows cfg A).map FlowInfo.key).Nodup ∧
    (∀ f ∈ lowerer_flows cfg A,
      f.count = ((flow_line_count A f.key : Nat) : Int) ∧
      flow_line_count A f.key = flow_line_count B f.key ∧
      f.id = (((lowerer_flows cfg A).filter fun g =>
        decide (key_lt g.key f.key)).length : Int) + 1) := by
  have hkeys := lowerer_flows_keys_eq_of_perm cfg A B sA sB hA hB hty hperm
  refine ⟨?_, lowerer_flows_keys_nodup cfg A, ?_⟩
  · apply List.ext_getElem?
    intro j
    have hk := congrArg (fun l => l[j]?) hkeys
    simp only [List.getElem?_map] at hk ⊢
    cases ha : (lowerer_flows cfg A)[j]? with
    | none =>
      rw [ha] at hk
      cases hb : (lowerer_flows cfg B)[j]? with
      | none => rfl
      | some fb => rw [hb] at hk; cases hk
    | some fa =>
      rw [ha] at hk
      cases hb : (lowerer_flows cfg B)[j]? with
      | none => rw [hb] at hk; cases hk
      | some fb =>
        rw [hb] at hk
        simp only [Option.map_some', Option.some.injEq] at hk ⊢
        have ca := (lowerer_flows_count cfg A fa (List.getElem?_mem ha)).1
        have cb := (lowerer_flows_count cfg B fb (List.getElem?_mem hb)).1
        have ia := lowerer_flows_id cfg A j fa ha
        have ib := lowerer_flows_id cfg B j fb hb
        rw [ca, cb, ia, ib, hk, flow_line_count_perm A B sA sB hA hB hty hperm]
  · intro f hf
    obtain ⟨j, hj, -, hid, -⟩ := lowerer_flows_index cfg A f hf
    refine ⟨(lowerer_flows_count cfg A f hf).1,
      flow_line_count_perm A B sA sB hA hB hty hperm f.key, ?_⟩
    rw [filter_key_lt_length _ (lowerer_flows_keys_strict cfg A) j f hj, hid]
    simp

set_option maxRecDepth 100000 in
/-- Witness of C33: `doc_two_preds` and the same schedule with the four "7-Flows" lines in
another order. -/
theorem lowerer_flows_order_independent_witness :
    (doc_two_preds.flows7 = some
        { type := JType.jArray, child := [
          jline "Chunk 0 of host 0 traveled over 0->2 in epoch 0",
          jline "Chunk 0 of host 1 traveled over 1->2 in epoch 0",
          jline "Chunk 0 of host 0 traveled over 2->3 in epoch 1",
          jline "Chunk 0 of host 1 traveled over 2->3 in epoch 1"] } ∧
      doc_two_preds_shuffled.flows7 = some
        { type := JType.jArray, child := [
          jline "Chunk 0 of host 1 traveled over 2->3 in epoch 1",
          jline "Chunk 0 of host 0 traveled over 2->3 in epoch 1",
          jline "Chunk 0 of host 1 traveled over 1->2 in epoch 0",
          jline "Chunk 0 of host 0 traveled over 0->2 in epoch 0"] }) ∧
    (lowerer_flows cfg_demo doc_two_preds).map (fun f => (f.key, f.count, f.id)) =
      [({ src := 0, dst := 2, epoch := 0 }, 1, 1), ({ src := 1, dst := 2, epoch := 0 }, 1, 2),
       ({ src := 2, dst := 3, epoch := 1 }, 2, 3)] ∧
    (lowerer_flows cfg_demo doc_two_preds).map (fun f => (f.key, f.count, f.id)) =
      (lowerer_flows cfg_demo doc_two_preds_shuffled).map (fun f => (f.key, f.count, f.id)) ∧
    ((lowerer_flows cfg_demo doc_two_preds).map FlowInfo.key).Nodup ∧
    (∀ f ∈ lowerer_flows cfg_demo doc_two_preds,
      f.count = ((flow_line_count doc_two_preds f.key : Nat) : Int) ∧
      flow_line_count doc_two_preds f.key = flow_line_count doc_two_preds_shuffled f.key ∧
      f.id = (((lowerer_flows cfg_demo doc_two_preds).filter fun g =>
        decide (key_lt g.key f.key)).length : Int) + 1) :=
  ⟨⟨rfl, rfl⟩, by decide,
    lowerer_flows_order_independent cfg_demo doc_two_preds doc_two_preds_shuffled _ _ rfl rfl rfl
      (by decide)⟩

/-! ### A chain cut after 512 steps -/

theorem mem_pred_writes (l : List FlowKey) :
    ∀ w ∈ pred_writes l, w.1 ∈ l ∧ w.2 ∈ l := by
  match l with
  | [] => intro w h; simp [pred_writes] at h
  | [_] => intro w h; simp [pred_writes] at h
  | p :: a :: rest =>
    intro w h
    rw [show pred_writes (p :: a :: rest) = (a, p) :: pred_writes (a :: rest) from rfl] at h
    rcases List.mem_cons.mp h with rfl | h
    · simp
    · have := mem_pred_writes (a :: rest) w h
      exact ⟨List.mem_cons_of_mem _ this.1, List.mem_cons_of_mem _ this.2⟩

theorem last_pred_write_append_of_not_mem (ws1 ws2 : List (FlowKey × FlowKey)) (k : FlowKey)
    (h : ∀ w ∈ ws2, w.1 ≠ k) :
    last_pred_write (ws1 ++ ws2) k = last_pred_write ws1 k := by
  unfold last_pred_write
  rw [List.filter_append]
  have : ws2.filter (fun w => decide (w.1 = k)) = [] := by
    rw [List.filter_eq_nil_iff]
    intro w hw
    simpa using h w hw
  rw [this, List.append_nil]

theorem collect_steps_long_chain :
    collect_steps (demand_long_chain 513).child [] = (List.range 512).map hop_key := by
  have hch := chain_hops_long_chain 513 (le_refl _)
  unfold chain_hops at hch
  rw [collect_steps_eq _ _ (by simp), List.nil_append, hch, ← List.map_take, List.take_range]
  rfl

theorem collect_steps_jump :
    collect_steps demand_jump.child [] = [hop_key 0, hop_key 512] := by
  have h : chain_hops demand_jump = [hop_key 0, hop_key 512] := by
    unfold chain_hops demand_jump jdemand
    simp only [List.map_cons, List.map_nil, List.filterMap_cons, List.filterMap_nil,
      line_hop_hop_text 0 (by omega), line_hop_hop_text 512 (by omega)]
  rw [collect_steps_of_le _ (by rw [h]; simp), h]

theorem doc_pred_writes_jump_then_long :
    last_pred_write (doc_pred_writes doc_jump_then_long) (hop_key 512) = some (hop_key 0) := by
  have hd : doc_pred_writes doc_jump_then_long =
      pred_writes [hop_key 0, hop_key 512] ++ pred_writes ((List.range 512).map hop_key) := by
    unfold doc_pred_writes doc_jump_then_long
    simp only [ne_eq, not_true_eq_false, if_false, List.flatMap_cons, List.flatMap_nil,
      List.append_nil]
    rw [show demand_jump.type = JType.jArray from rfl,
      show (demand_long_chain 513).type = JType.jArray from rfl]
    simp only [not_true_eq_false, if_false, collect_steps_jump, collect_steps_long_chain]
  rw [hd, last_pred_write_append_of_not_mem]
  · unfold last_pred_write pred_writes
    simp [pred_writes]
  · intro w hw habs
    have := (mem_pred_writes _ w hw).1
    rw [habs] at this
    obtain ⟨j, hj, hjk⟩ := List.mem_map.1 this
    have := hop_key_injective hjk
    have := List.mem_range.1 hj
    omega

/-- C34 (counterexample): in `doc_jump_then_long` the hop 512 -> 513 follows 0 -> 1 in the
first chain and 511 -> 512 in the second chain, where it is the 513th hop.  The second chain
is cut after 512 steps, so the flow keeps the predecessor of the first chain, not the one of
the last chain in document order. -/
theorem lowerer_predecessor_of_cut_chain :
    chain_hops demand_jump = [hop_key 0, hop_key 512] ∧
    (chain_hops (demand_long_chain 513))[511]? = some (hop_key 511) ∧
    (chain_hops (demand_long_chain 513))[512]? = some (hop_key 512) ∧
    doc_jump_then_long.chunk_paths =
      some { type := JType.jObject, child := [demand_jump, demand_long_chain 513] } ∧
    ∃ f ∈ lowerer_flows cfg_demo doc_jump_then_long,
      f.key = hop_key 512 ∧ f.has_pred = true ∧ f.pred = hop_key 0 ∧ f.pred ≠ hop_key 511 := by
  have hch := chain_hops_long_chain 513 (le_refl _)
  have hlisted : listed_in_7_flows doc_jump_then_long (hop_key 512) := by
    obtain ⟨flows, h1, h2⟩ := listed_long_chain 513 512 (le_refl _) (by omega)
    exact ⟨flows, h1, h2⟩
  have hmem : hop_key 512 ∈ (lowerer_flows cfg_demo doc_jump_then_long).map FlowInfo.key := by
    rw [(lowerer_flows_keys_perm cfg_demo doc_jump_then_long).mem_iff, mem_parse_7_flows_keys]
    exact hlisted
  obtain ⟨f, hf, hfk⟩ := List.mem_map.mp hmem
  have hp := lowerer_flows_pred cfg_demo doc_jump_then_long f hf
  rw [hfk, doc_pred_writes_jump_then_long] at hp
  refine ⟨?_, ?_, ?_, rfl, f, hf, hfk, hp.1, hp.2, ?_⟩
  · have := collect_steps_jump
    rw [collect_steps_eq _ _ (by simp), List.nil_append] at this
    unfold chain_hops demand_jump jdemand
    simp only [List.map_cons, List.map_nil, List.filterMap_cons, List.filterMap_nil,
      line_hop_hop_text 0 (by omega), line_hop_hop_text 512 (by omega)]
  · rw [hch]; simp [List.getElem?_range]
  · rw [hch]; simp [List.getElem?_range]
  · rw [hp.2]
    intro h
    have := hop_key_injective h
    omega

/-! ### The three path-string parsers on the same text -/

theorem sscanf_two_hosts (a b : Nat) (ha : a < 2 ^ 31) (hb : b < 2 ^ 31)
    (ds : List Directive) (tail : List Char)
    (htail : ∀ c r, tail = c :: r → isdigit c = false) :
    sscanf_run (Directive.int :: Directive.lit '-' :: Directive.lit '>' :: Directive.int :: ds)
      ((Nat.repr a).toList ++ "->".toList ++ (Nat.repr b).toList ++ tail) =
      (a : Int) :: (b : Int) :: sscanf_run ds tail := by
  have h1 := scan_int_repr a ha ("->".toList ++ ((Nat.repr b).toList ++ tail)) (by
    intro c r h
    have : c = '-' := by
      have := congrArg List.head? h
      simpa using this.symm
    rw [this]; decide)
  have h2 := scan_int_repr b hb tail htail
  have e1 : (Nat.repr a).toList ++ "->".toList ++ (Nat.repr b).toList ++ tail =
      (Nat.repr a).toList ++ ("->".toList ++ ((Nat.repr b).toList ++ tail)) := by
    simp only [List.append_assoc]
  rw [e1]
  simp only [sscanf_run, h1]
  show (a : Int) :: sscanf_run (Directive.int :: ds) ((Nat.repr b).toList ++ tail) = _
  simp only [sscanf_run, h2]

theorem parse_edge_epoch_hop (a b e : Nat) (rest : List Char) (ha : a < 2 ^ 31)
    (hb : b < 2 ^ 31) (he : e < 2 ^ 31) (hrest : ∀ c r, rest = c :: r → isdigit c = false) :
    parse_edge_epoch (hop_head a b e ++ rest) = some ((a : Int), (b : Int), (e : Int)) := by
  have hstr : hop_head a b e ++ rest =
      ((Nat.repr a).toList ++ "->".toList ++ (Nat.repr b).toList) ++
        (" in epoch ".toList ++ ((Nat.repr e).toList ++ rest)) := by
    unfold hop_head
    simp only [List.append_assoc]
  have hpos : strstr_pos " in epoch ".toList (hop_head a b e ++ rest) =
      some ((Nat.repr a).toList ++ "->".toList ++ (Nat.repr b).toList).length := by
    rw [hstr]
    exact strstr_pos_after " in epoch ".toList _ _ ' ' "in epoch ".toList rfl
      (host_text_no_blank a b ' ' (by decide))
  have hlen : ((Nat.repr a).toList ++ "->".toList ++ (Nat.repr b).toList).length ≤ 255 := by
    have h1 := repr_length_le a ha
    have h2 := repr_length_le b hb
    simp only [List.length_append]
    have : "->".toList.length = 2 := by decide
    omega
  have hdrop1 : (hop_head a b e ++ rest).drop
        ((Nat.repr a).toList ++ "->".toList ++ (Nat.repr b).toList).length =
      " in epoch ".toList ++ ((Nat.repr e).toList ++ rest) := by
    rw [hstr]
    exact List.drop_left _ _
  have htake : (hop_head a b e ++ rest).take
        (min ((Nat.repr a).toList ++ "->".toList ++ (Nat.repr b).toList).length 255) =
      (Nat.repr a).toList ++ "->".toList ++ (Nat.repr b).toList := by
    rw [Nat.min_eq_left hlen, hstr]
    exact List.take_left _ _
  have hf : parse_format " %d->%d".toList =
      Directive.ws :: parse_format "%d->%d".toList := by decide
  have hsk : skip_ws ((Nat.repr a).toList ++ "->".toList ++ (Nat.repr b).toList) =
      (Nat.repr a).toList ++ "->".toList ++ (Nat.repr b).toList := by
    obtain ⟨hne, hdig, -, -⟩ := repr_spec a
    cases hl : (Nat.repr a).toList with
    | nil => exact absurd hl hne
    | cons c cs =>
      simp only [List.cons_append]
      exact skip_ws_digit c _ (hdig c (by rw [hl]; exact List.mem_cons_self _ _))
  have hhost : sscanf_run (parse_format " %d->%d".toList)
      ((Nat.repr a).toList ++ "->".toList ++ (Nat.repr b).toList) = [(a : Int), (b : Int)] := by
    rw [hf]
    show sscanf_run (parse_format "%d->%d".toList) (skip_ws _) = _
    rw [hsk, sscanf_host_part a b ha hb]
  have hep := sscanf_in_epoch e he rest hrest
  unfold parse_edge_epoch
  simp only [hpos, htake, hhost, hdrop1, hep]

theorem parse_msg_string_hop (a b e : Nat) (rest : List Char) (ha : a < 2 ^ 31)
    (hb : b < 2 ^ 31) (he : e < 2 ^ 31)
    (hrest : ∀ c r, rest = c :: r → isdigit c = false) :
    parse_msg_string (String.mk (hop_head a b e ++ rest)) =
      some ((a : Int), (b : Int), (e : Int)) := by
  have hstr : hop_head a b e ++ rest =
      (Nat.repr a).toList ++ "->".toList ++ (Nat.repr b).toList ++
        (" in epoch ".toList ++ ((Nat.repr e).toList ++ rest)) := by
    unfold hop_head
    simp only [List.append_assoc]
  have hf : parse_format "%d->%d in epoch %d".toList =
      Directive.int :: Directive.lit '-' :: Directive.lit '>' :: Directive.int ::
        parse_format " in epoch %d".toList := by decide
  have hs : (String.mk (hop_head a b e ++ rest)).toList = hop_head a b e ++ rest := rfl
  unfold parse_msg_string sscanf
  rw [hs, hf, hstr, sscanf_two_hosts a b ha hb _ _ (by
    intro c r h
    have : c = ' ' := by
      have := congrArg List.head? h
      simpa using this.symm
    rw [this]; decide), sscanf_in_epoch e he rest hrest]

/-- C35 (amended): for `a`, `b`, `e` below `2^31` and every switch list `s1, ..., sk` (so
for every `k >= 1`), the three parsers accept the path-string
`a->b in epoch e via switches s1 -> ... -> sk` and return the same triple: the Validator's
`parse_path_string` gives `src = a`, `dst = b` and start epoch `e`, the Lowerer's
`parse_edge_epoch` gives `(a, b, e)`, and the Simulator's `parse_msg_string` gives
`(a, b, e)`. -/
theorem path_parsers_agree (a b e : Nat) (sw : List Nat) (ha : a < 2 ^ 31)
    (hb : b < 2 ^ 31) (he : e < 2 ^ 31) :
    (∃ cp, parse_path_string (path_text a b e sw) = some cp ∧
      (cp.src_host, cp.dst_host, cp.start_epoch) = ((a : Int), (b : Int), (e : Int))) ∧
    parse_edge_epoch (path_text a b e sw).toList = some ((a : Int), (b : Int), (e : Int)) ∧
    parse_msg_string (path_text a b e sw) = some ((a : Int), (b : Int), (e : Int)) := by
  have hrest : ∀ c r, " via switches ".toList ++ switches_text sw = c :: r →
      isdigit c = false := by
    intro c r h
    have : c = ' ' := by
      have := congrArg List.head? h
      simpa using this.symm
    rw [this]; decide
  have hs : (path_text a b e sw).toList =
      hop_head a b e ++ (" via switches ".toList ++ switches_text sw) := by
    show hop_head a b e ++ " via switches ".toList ++ switches_text sw = _
    exact List.append_assoc _ _ _
  have hm : path_text a b e sw =
      String.mk (hop_head a b e ++ (" via switches ".toList ++ switches_text sw)) := by
    unfold path_text
    rw [List.append_assoc]
  refine ⟨?_, ?_, ?_⟩
  · unfold path_text
    rw [parse_path_string_text a b e _ ha hb he]
    exact ⟨_, rfl, rfl⟩
  · rw [hs]
    exact parse_edge_epoch_hop a b e _ ha hb he hrest
  · rw [hm]
    exact parse_msg_string_hop a b e _ ha hb he hrest

set_option maxRecDepth 100000 in
/-- Witness of C35 (amended): the hop `3->7` of epoch 12 over the switches 20, 21 and 22. -/
theorem path_parsers_agree_witness :
    ((3 : Nat) < 2 ^ 31 ∧ (7 : Nat) < 2 ^ 31 ∧ (12 : Nat) < 2 ^ 31) ∧
    path_text 3 7 12 [20, 21, 22] = "3->7 in epoch 12 via switches 20 -> 21 -> 22" ∧
    (∃ cp, parse_path_string (path_text 3 7 12 [20, 21, 22]) = some cp ∧
      (cp.src_host, cp.dst_host, cp.start_epoch) =
        (((3 : Nat) : Int), ((7 : Nat) : Int), ((12 : Nat) : Int))) ∧
    parse_edge_epoch (path_text 3 7 12 [20, 21, 22]).toList =
      some (((3 : Nat) : Int), ((7 : Nat) : Int), ((12 : Nat) : Int)) ∧
    parse_msg_string (path_text 3 7 12 [20, 21, 22]) =
      some (((3 : Nat) : Int), ((7 : Nat) : Int), ((12 : Nat) : Int)) :=
  ⟨⟨by decide, by decide, by decide⟩, by decide,
    path_parsers_agree 3 7 12 [20, 21, 22] (by decide) (by decide) (by decide)⟩

set_option maxRecDepth 100000 in
/-- C35 (counterexample): two path-strings of the grammar with a number that does not fit in
an `int`.  For the epoch `4294967301` the three parsers succeed and return the epoch `5`,
not `e`.  For the source host `10^50` the Validator's `parse_path_string` fails (its copy of
the host part holds 49 characters) while the other two parsers succeed, with the source
`-1`. -/
theorem path_parsers_wide_numbers :
    (path_text 0 1 4294967301 [7] = "0->1 in epoch 4294967301 via switches 7" ∧
      (parse_path_string "0->1 in epoch 4294967301 via switches 7").map
        (fun cp => (cp.src_host, cp.dst_host, cp.start_epoch)) = some (0, 1, 5) ∧
      parse_edge_epoch "0->1 in epoch 4294967301 via switches 7".toList = some (0, 1, 5) ∧
      parse_msg_string "0->1 in epoch 4294967301 via switches 7" = some (0, 1, 5)) ∧
    (path_text (10 ^ 50) 1 0 [7] =
        "100000000000000000000000000000000000000000000000000->1 in epoch 0 via switches 7" ∧
      parse_path_string
        "100000000000000000000000000000000000000000000000000->1 in epoch 0 via switches 7"
        = none ∧
      parse_edge_epoch
        "100000000000000000000000000000000000000000000000000->1 in epoch 0 via switches 7".toList
        = some (-1, 1, 0) ∧
      parse_msg_string
        "100000000000000000000000000000000000000000000000000->1 in epoch 0 via switches 7"
        = some (-1, 1, 0)) := by
  decide

/-! ### Requests counted and requests posted -/

end TeCCL
